import Mathlib

/-!
# HTML textification (`html_textify.c`)

A shallow embedding of the tree-to-text converter of `html_textify.c`
and the properties of it that the specification states.

Conventions of the embedding.

* A C string (`char *`, NUL terminated) is the list of its characters before
  the terminating NUL; a possibly-NULL `char *` is an `Option`.
* A `BUFFER` is the list of the characters appended to it so far.
* Linked lists (`->next` chains) are Lean lists.
* One `Char` stands for one `char` of the C string.
* Counters that only count input items (`newline_count`, the wrap column,
  `row_count`, `cell_count`, `strlen` results) are natural numbers or unbounded
  integers: they stay far below `2^31` for any document that fits in memory.
  The table column cursor `col += cell->colspan`, whose increment comes from an
  attribute value, is a 32-bit `int` with explicit wrap-around.
-/

namespace HtmlTextify

/-- A C string: the characters before the terminating NUL. -/
abbrev CStr := List Char

/-- The contents of a `BUFFER`. -/
abbrev BUFFER := List Char

/-- Modelled from the spec: the Text Accumulator's append-char operation
(`mutt_buffer_addch` of `buffer.c`, which is not part of the sources at hand). -/
def mutt_buffer_addch (buffer : BUFFER) (c : Char) : BUFFER := buffer ++ [c]

/-- Modelled from the spec: the Text Accumulator's append-string operation
(`mutt_buffer_addstr` of `buffer.c`, which is not part of the sources at hand). -/
def mutt_buffer_addstr (buffer : BUFFER) (s : CStr) : BUFFER := buffer ++ s

/-! ## The document tree (libxml2, read-only) -/

/-- The node kinds the code tells apart (`node->type`). -/
inductive xmlElementType where
  | XML_ELEMENT_NODE
  | XML_TEXT_NODE
  /-- Every other kind: comments, CDATA sections, processing instructions ... -/
  | XML_OTHER_NODE
  deriving DecidableEq, Repr

/-- An attribute (`xmlAttr`): its `name` and the `content` of its first child,
`none` when `attr->children` is `NULL`. -/
structure xmlAttr where
  name : CStr
  children : Option CStr
  deriving DecidableEq, Repr

/-- A node of the parsed tree (`xmlNode`): `type`, `name` (may be `NULL`),
`content` (may be `NULL`), `properties` and the chain of `children`. -/
inductive xmlNode where
  | mk (type : xmlElementType) (name : Option CStr) (content : Option CStr)
      (properties : List xmlAttr) (children : List xmlNode)

namespace xmlNode

/-- The field `node->type`. -/
def type : xmlNode → xmlElementType
  | mk t _ _ _ _ => t

/-- The field `node->name`. -/
def name : xmlNode → Option CStr
  | mk _ n _ _ _ => n

/-- The field `node->content`. -/
def content : xmlNode → Option CStr
  | mk _ _ c _ _ => c

/-- The field `node->properties`. -/
def properties : xmlNode → List xmlAttr
  | mk _ _ _ p _ => p

/-- The chain `node->children`, `->next`, ... -/
def children : xmlNode → List xmlNode
  | mk _ _ _ _ c => c

end xmlNode

/-- The test `strcmp((char *)node->name, s) == 0`. libxml2 gives every element
node a name, so the unguarded uses of it in the source never see `NULL`; a
missing name matches nothing. -/
def name_is (node : xmlNode) (s : CStr) : Bool :=
  decide (node.name = some s)

/-- Modelled from the spec: the parser's attribute-value lookup by name
(libxml2 `xmlGetProp`): the value of the first attribute of that name, the
empty string when that attribute has no value node, `NULL` when there is no
such attribute. -/
def xmlGetProp (node : xmlNode) (name : CStr) : Option CStr :=
  match node.properties.find? (fun a => decide (a.name = name)) with
  | none => none
  | some a => some (a.children.getD [])

/-! ## libc -/

/-- `isspace` in the C locale: space, `\t`, `\n`, `\v`, `\f`, `\r`. -/
def isspace (c : Char) : Bool :=
  c = ' ' || c = '\t' || c = '\n' || c = Char.ofNat 11 || c = Char.ofNat 12 || c = '\r'

/-- `tolower` in the C locale. -/
def tolower (c : Char) : Char :=
  if 'A' ≤ c ∧ c ≤ 'Z' then Char.ofNat (c.toNat + 32) else c

/-- The test `strcasecmp(a, b) == 0`. -/
def strcasecmp_eq (a b : CStr) : Bool :=
  decide (a.map tolower = b.map tolower)

/-- Conversion to a 32-bit `int` (two's complement wrap-around). -/
def wrap32 (x : Int) : Int := (x + 2 ^ 31) % 2 ^ 32 - 2 ^ 31

/-- `atoi` as glibc does it, `(int) strtol(s, NULL, 10)` with a 64-bit `long`:
leading white space, an optional sign, then decimal digits; no digits give 0. -/
def atoi (s : CStr) : Int :=
  let s1 := s.dropWhile isspace
  let neg := s1.head? = some '-'
  let s2 := if s1.head? = some '-' ∨ s1.head? = some '+' then s1.tail else s1
  let v : Nat := (s2.takeWhile Char.isDigit).foldl (fun a d => 10 * a + (d.toNat - 48)) 0
  let l : Int := if neg then max (-(v : Int)) (-(2 ^ 63)) else min (v : Int) (2 ^ 63 - 1)
  wrap32 l

/-- Modelled from the spec: `safe_strdup` of `lib.c` (not part of the sources
at hand): a copy of the string, absent for an absent or empty string. -/
def safe_strdup (s : Option CStr) : Option CStr :=
  match s with
  | none => none
  | some [] => none
  | some (c :: rest) => some (c :: rest)

/-! ## Table grid -/

/-- A cell: `table_cell_t` without its `next` link. -/
structure table_cell_t where
  content : Option CStr
  colspan : Int
  rowspan : Int
  deriving DecidableEq, Repr

/-- A row: `table_row_t` without its `next` link; `cells` is the chain. -/
structure table_row_t where
  cells : List table_cell_t
  cell_count : Nat
  deriving DecidableEq, Repr

/-- The grid: `table_data_t`; `rows` is the chain of rows and `col_widths` is
`none` for a `NULL` pointer. -/
structure table_data_t where
  rows : List table_row_t
  row_count : Nat
  max_cols : Nat
  col_widths : Option (List Nat)
  deriving DecidableEq, Repr

/-- The initializer `table_data_t table = {0}`. -/
def table_data_zero : table_data_t :=
  { rows := [], row_count := 0, max_cols := 0, col_widths := none }

/-! ## `mutt_extract_cell_text` -/

mutual
/-- The body of `mutt_extract_cell_text` for a non-`NULL` node. -/
def extract_cell_text_node : xmlNode → Option CStr
  | .mk _ _ _ _ children => safe_strdup (some (extract_cell_text_loop children []))
/-- The `for (child = node->children; child; child = child->next)` loop of
`mutt_extract_cell_text`. -/
def extract_cell_text_loop : List xmlNode → BUFFER → BUFFER
  | [], cell_buffer => cell_buffer
  | child :: rest, cell_buffer =>
    if child.type = .XML_TEXT_NODE ∧ child.content.isSome then
      let text := (child.content.getD []).dropWhile isspace
      if text ≠ [] then
        extract_cell_text_loop rest
          (mutt_buffer_addch (mutt_buffer_addstr cell_buffer text) ' ')
      else
        extract_cell_text_loop rest cell_buffer
    else if child.type = .XML_ELEMENT_NODE then
      match extract_cell_text_node child with
      | some child_text =>
        extract_cell_text_loop rest (mutt_buffer_addstr cell_buffer child_text)
      | none => extract_cell_text_loop rest cell_buffer
    else
      extract_cell_text_loop rest cell_buffer
end

/-- `mutt_extract_cell_text(node)`: `NULL` for a `NULL` node. -/
def mutt_extract_cell_text : Option xmlNode → Option CStr
  | none => none
  | some node => extract_cell_text_node node

/-! ## `mutt_html_extract_table` -/

/-- The attribute loop of the `td`/`th` branch: sets `colspan` and `rowspan`
from the attributes of those names that have a value node. -/
def read_spans : List xmlAttr → table_cell_t → table_cell_t
  | [], cell => cell
  | attr :: rest, cell =>
    if attr.name = "colspan".data ∧ attr.children.isSome then
      read_spans rest { cell with colspan := atoi (attr.children.getD []) }
    else if attr.name = "rowspan".data ∧ attr.children.isSome then
      read_spans rest { cell with rowspan := atoi (attr.children.getD []) }
    else
      read_spans rest cell

/-- "Add to current row": `current_row` is reached from `table->rows` by `i`
steps of `->next`; the cell is linked after the last cell of that row and the
row's `cell_count` incremented. (Running off the chain would dereference
`NULL`; it does not happen as `row_count` is the length of the chain.) -/
def add_cell_to_row : Nat → table_cell_t → List table_row_t → List table_row_t
  | _, _, [] => []
  | 0, cell, row :: rest =>
    { cells := row.cells ++ [cell], cell_count := row.cell_count + 1 } :: rest
  | i + 1, cell, row :: rest => row :: add_cell_to_row i cell rest

/-- What `mutt_html_extract_table` does for the node itself, before it goes on
to the children. -/
def extract_table_visit (node : xmlNode) (table : table_data_t) : table_data_t :=
  if node.type = .XML_ELEMENT_NODE ∧ node.name.isSome then
    if name_is node "table".data then
      { rows := [], row_count := 0, max_cols := 0, col_widths := none }
    else if name_is node "tr".data then
      { table with
        rows := table.rows ++ [{ cells := [], cell_count := 0 }]
        row_count := table.row_count + 1 }
    else if name_is node "td".data ∨ name_is node "th".data then
      let cell := read_spans node.properties
        { content := mutt_extract_cell_text (some node), colspan := 1, rowspan := 1 }
      if table.rows ≠ [] then
        { table with rows := add_cell_to_row (table.row_count - 1) cell table.rows }
      else
        table
    else
      table
  else
    table

mutual
/-- The body of `mutt_html_extract_table` for a non-`NULL` node. -/
def extract_table_node : xmlNode → table_data_t → table_data_t
  | .mk type name content properties children, table =>
    extract_table_children children
      (extract_table_visit (.mk type name content properties children) table)
/-- The "Process child nodes" loop of `mutt_html_extract_table`. -/
def extract_table_children : List xmlNode → table_data_t → table_data_t
  | [], table => table
  | child :: rest, table =>
    extract_table_children rest (extract_table_node child table)
end

/-- `mutt_html_extract_table(node, table)`: nothing for a `NULL` node. -/
def mutt_html_extract_table : Option xmlNode → table_data_t → table_data_t
  | none, table => table
  | some node, table => extract_table_node node table

/-! ## `mutt_render_table` -/

/-- A loop `for (i = 0; i < n; i++) mutt_buffer_addch(buffer, c);`. -/
def addch_times (c : Char) : Nat → BUFFER → BUFFER
  | 0, buffer => buffer
  | n + 1, buffer => addch_times c n (mutt_buffer_addch buffer c)

/-- The expression `cell->content ? strlen(cell->content) : 0`. -/
def content_len (cell : table_cell_t) : Nat :=
  match cell.content with
  | some s => s.length
  | none => 0

/-- The first loop of `mutt_render_table`: the largest `cell_count`. -/
def calc_max_cols : List table_row_t → Nat → Nat
  | [], max_cols => max_cols
  | row :: rest, max_cols =>
    calc_max_cols rest (if row.cell_count > max_cols then row.cell_count else max_cols)

/-- The inner loop of "Calculate maximum width for each column" over the
cells of one row, from column cursor `col`. The result is `none` when
`col_widths[col]` is accessed outside `0 .. max_cols - 1` (which is undefined
behaviour in C). -/
def calc_widths_cells (max_cols : Nat) :
    List table_cell_t → Int → List Nat → Option (List Nat)
  | [], _, col_widths => some col_widths
  | cell :: rest, col, col_widths =>
    if col < (max_cols : Int) then
      if 0 ≤ col then
        let cell_width := content_len cell
        let col_widths1 :=
          if cell_width > col_widths.getD col.toNat 0 then
            col_widths.set col.toNat cell_width
          else col_widths
        calc_widths_cells max_cols rest (wrap32 (col + cell.colspan)) col_widths1
      else none
    else some col_widths

/-- The outer loop of "Calculate maximum width for each column". -/
def calc_widths_rows (max_cols : Nat) :
    List table_row_t → List Nat → Option (List Nat)
  | [], col_widths => some col_widths
  | row :: rest, col_widths =>
    match calc_widths_cells max_cols row.cells 0 col_widths with
    | none => none
    | some col_widths1 => calc_widths_rows max_cols rest col_widths1

/-- The loop `for (col = 0; col < max_cols; col++)` of a border line, from
column `col` on with `n` columns left. -/
def render_border_cols (col_widths : List Nat) : Nat → Nat → BUFFER → BUFFER
  | 0, _, buffer => buffer
  | n + 1, col, buffer =>
    render_border_cols col_widths n (col + 1)
      (mutt_buffer_addch (addch_times '-' (col_widths.getD col 0 + 2) buffer) '+')

/-- A border line: `+`, the column segments, a newline. -/
def render_border (max_cols : Nat) (col_widths : List Nat) (buffer : BUFFER) : BUFFER :=
  mutt_buffer_addch
    (render_border_cols col_widths max_cols 0 (mutt_buffer_addch buffer '+')) '\n'

/-- The loop over the cells of a row in "Cell content", from column cursor
`col`; `none` when `col_widths[col]` is read outside `0 .. max_cols - 1`. -/
def render_cells (max_cols : Nat) (col_widths : List Nat) :
    List table_cell_t → Int → BUFFER → Option BUFFER
  | [], _, buffer => some buffer
  | cell :: rest, col, buffer =>
    if col < (max_cols : Int) then
      if 0 ≤ col then
        let b1 := mutt_buffer_addch buffer ' '
        let b2 := mutt_buffer_addstr b1 (cell.content.getD [])
        let b3 := addch_times ' ' (col_widths.getD col.toNat 0 - content_len cell) b2
        let b4 := mutt_buffer_addch (mutt_buffer_addch b3 ' ') '|'
        render_cells max_cols col_widths rest (wrap32 (col + cell.colspan)) b4
      else none
    else some buffer

/-- The "Render table" loop: for every row a border line and a content line. -/
def render_rows (max_cols : Nat) (col_widths : List Nat) :
    List table_row_t → BUFFER → Option BUFFER
  | [], buffer => some buffer
  | row :: rest, buffer =>
    let b1 := render_border max_cols col_widths buffer
    let b2 := mutt_buffer_addch b1 '|'
    match render_cells max_cols col_widths row.cells 0 b2 with
    | none => none
    | some b3 => render_rows max_cols col_widths rest (mutt_buffer_addch b3 '\n')

/-- `mutt_render_table(table, buffer)`: the table as it is left (with
`max_cols` and `col_widths` set) and the buffer; `none` when the column-width
vector is accessed out of bounds. -/
def mutt_render_table (table : table_data_t) (buffer : BUFFER) :
    Option (table_data_t × BUFFER) :=
  if table.rows = [] then some (table, buffer)
  else
    let max_cols := calc_max_cols table.rows 0
    if max_cols = 0 then some ({ table with max_cols := 0 }, buffer)
    else
      match calc_widths_rows max_cols table.rows (List.replicate max_cols 0) with
      | none => none
      | some col_widths =>
        match render_rows max_cols col_widths table.rows buffer with
        | none => none
        | some b =>
          some ({ table with max_cols := max_cols, col_widths := some col_widths },
            render_border max_cols col_widths b)

/-! ## `is_layout_table` -/

/-- The inner loop of `is_layout_table`: counts into `this_cols` the element
children of a row that are named `td` or `th`. -/
def count_cols : List xmlNode → Nat → Nat
  | [], this_cols => this_cols
  | td :: rest, this_cols =>
    if td.type = .XML_ELEMENT_NODE ∧ (name_is td "td".data ∨ name_is td "th".data) then
      count_cols rest (this_cols + 1)
    else
      count_cols rest this_cols

/-- The outer loop of `is_layout_table` over the children of the table, with the
state `(row_count, col_count)`. -/
def count_rows : List xmlNode → Nat × Nat → Nat × Nat
  | [], rc => rc
  | tr :: rest, (row_count, col_count) =>
    if tr.type = .XML_ELEMENT_NODE ∧ name_is tr "tr".data then
      let this_cols := count_cols tr.children 0
      count_rows rest
        (row_count + 1, if this_cols > col_count then this_cols else col_count)
    else
      count_rows rest (row_count, col_count)

/-- `is_layout_table(node)`, `true` for the return value 1. -/
def is_layout_table (node : xmlNode) : Bool :=
  let role := xmlGetProp node "role".data
  let border := xmlGetProp node "border".data
  let is_layout0 := false
  let is_layout1 :=
    if role.isSome ∧ strcasecmp_eq (role.getD []) "presentation".data then true
    else is_layout0
  let is_layout2 :=
    if border.isSome ∧ border.getD [] = "0".data then true else is_layout1
  let rc := count_rows node.children (0, 0)
  if rc.1 ≤ 1 ∨ rc.2 ≤ 1 then true else is_layout2

/-! ## `wrap_and_append` -/

/-- The `while (*p)` loop of `wrap_and_append` with the final
`if (col > 0) mutt_buffer_addch(buffer, '\n')`: `text` is what is left from `p`
on and `col` the current column. -/
def wrap_loop (width : Int) : CStr → Int → BUFFER → BUFFER
  | [], col, buffer => if col > 0 then mutt_buffer_addch buffer '\n' else buffer
  | p :: rest, col, buffer =>
    if p = '\n' then
      wrap_loop width rest 0 (mutt_buffer_addch buffer '\n')
    else if col ≥ width ∧ p ≠ ' ' then
      wrap_loop width rest (0 + 1) (mutt_buffer_addch (mutt_buffer_addch buffer '\n') p)
    else
      wrap_loop width rest (col + 1) (mutt_buffer_addch buffer p)

/-- `wrap_and_append(buffer, text, width)`. -/
def wrap_and_append (buffer : BUFFER) (text : CStr) (width : Int) : BUFFER :=
  wrap_loop width text 0 buffer

/-! ## `mutt_html_extract_text` -/

/-- The window whose `cols` field gives the wrap width (`mutt_window_t`). -/
structure mutt_window_t where
  cols : Int
  deriving DecidableEq, Repr

/-- The expression
`(MuttIndexWindow && MuttIndexWindow->cols > 0) ? MuttIndexWindow->cols : 72`. -/
def wrap_width (MuttIndexWindow : Option mutt_window_t) : Int :=
  match MuttIndexWindow with
  | some w => if w.cols > 0 then w.cols else 72
  | none => 72

/-- The tags of the "Add newline for block elements" branch. -/
def is_block_tag (node : xmlNode) : Bool :=
  name_is node "br".data || name_is node "p".data || name_is node "div".data ||
  name_is node "h1".data || name_is node "h2".data || name_is node "h3".data ||
  name_is node "h4".data || name_is node "h5".data || name_is node "h6".data ||
  name_is node "li".data || name_is node "tr".data

/-- The tags of the "Skip these elements entirely" branch. -/
def is_skipped_tag (node : xmlNode) : Bool :=
  name_is node "script".data || name_is node "style".data || name_is node "meta".data ||
  name_is node "link".data || name_is node "title".data

/-- The `img` branch: the marker made from the `alt` attribute. -/
def emit_img (node : xmlNode) (buffer : BUFFER) : BUFFER :=
  let alt := xmlGetProp node "alt".data
  if alt.isSome ∧ (alt.getD []).length > 0 then
    mutt_buffer_addstr
      (mutt_buffer_addstr (mutt_buffer_addstr buffer "[Image: ".data) (alt.getD []))
      "]".data
  else
    mutt_buffer_addstr buffer "[Image]".data

/-- The non-layout `table` branch: build the grid with
`mutt_html_extract_table` from a zeroed `table_data_t` and render it. -/
def emit_data_table (node : xmlNode) (buffer : BUFFER) : Option BUFFER :=
  match mutt_render_table (mutt_html_extract_table (some node) table_data_zero) buffer with
  | none => none
  | some (_, b) => some b

mutual
/-- The body of `mutt_html_extract_text` for a non-`NULL` node; `none` when the
table renderer leaves the bounds of its width vector. The global
`MuttIndexWindow` is a parameter. -/
def extract_text_node (MuttIndexWindow : Option mutt_window_t) :
    xmlNode → BUFFER → Option BUFFER
  | .mk type name content properties children, buffer =>
    match type with
    | .XML_TEXT_NODE =>
      match content with
      | some c =>
        let text := c.dropWhile isspace
        if text ≠ [] then
          some (mutt_buffer_addch (mutt_buffer_addstr buffer text) ' ')
        else some buffer
      | none => some buffer
    | .XML_ELEMENT_NODE =>
      if name.isSome then
        if name_is (.mk type name content properties children) "table".data then
          if is_layout_table (.mk type name content properties children) then
            match extract_text_first MuttIndexWindow children [] with
            | none => none
            | some tmp => some (wrap_and_append buffer tmp (wrap_width MuttIndexWindow))
          else
            match emit_data_table (.mk type name content properties children) buffer with
            | none => none
            | some b => extract_text_children MuttIndexWindow children b
        else if name_is (.mk type name content properties children) "img".data then
          extract_text_children MuttIndexWindow children
            (emit_img (.mk type name content properties children) buffer)
        else if is_block_tag (.mk type name content properties children) then
          extract_text_children MuttIndexWindow children (mutt_buffer_addch buffer '\n')
        else if is_skipped_tag (.mk type name content properties children) then
          some buffer
        else
          extract_text_children MuttIndexWindow children buffer
      else
        extract_text_children MuttIndexWindow children buffer
    | .XML_OTHER_NODE => extract_text_children MuttIndexWindow children buffer
/-- The call `mutt_html_extract_text(node->children, tmp)`: the argument is the
first child (a `NULL` pointer when there is none). -/
def extract_text_first (MuttIndexWindow : Option mutt_window_t) :
    List xmlNode → BUFFER → Option BUFFER
  | [], buffer => some buffer
  | first :: _, buffer => extract_text_node MuttIndexWindow first buffer
/-- The loops `for (child = node->children; child; child = child->next)
mutt_html_extract_text(child, buffer);`. -/
def extract_text_children (MuttIndexWindow : Option mutt_window_t) :
    List xmlNode → BUFFER → Option BUFFER
  | [], buffer => some buffer
  | child :: rest, buffer =>
    match extract_text_node MuttIndexWindow child buffer with
    | none => none
    | some b => extract_text_children MuttIndexWindow rest b
end

/-- `mutt_html_extract_text(node, buffer)`: nothing for a `NULL` node. -/
def mutt_html_extract_text (MuttIndexWindow : Option mutt_window_t) :
    Option xmlNode → BUFFER → Option BUFFER
  | none, buffer => some buffer
  | some node, buffer => extract_text_node MuttIndexWindow node buffer

/-! ## `collapse_blank_lines` -/

/-- The `while (input[i])` loop of `collapse_blank_lines`: `input` is what is
left to read from position `i` on, `out` is `out[0..j)` and `newline_count` the
counter of the loop. -/
def collapse_loop : CStr → List Char → Nat → List Char
  | [], out, _ => out
  | c :: rest, out, newline_count =>
    if c = '\n' then
      if newline_count + 1 ≤ 2 then
        collapse_loop rest (out ++ [c]) (newline_count + 1)
      else
        collapse_loop rest out (newline_count + 1)
    else
      collapse_loop rest (out ++ [c]) 0

/-- `collapse_blank_lines(input)`: `NULL` for a `NULL` input, else the output
of the loop started with an empty `out` and `newline_count = 0`. -/
def collapse_blank_lines : Option CStr → Option CStr
  | none => none
  | some input => some (collapse_loop input [] 0)

/-! ## `mutt_html_to_text` -/

/-- A parsed document (`htmlDocPtr`): the chain of its children. -/
structure htmlDoc where
  children : List xmlNode

/-- Modelled from the spec: "locate the document root" (libxml2
`xmlDocGetRootElement`): the first child of the document that is an element,
`NULL` when there is none. -/
def xmlDocGetRootElement (doc : htmlDoc) : Option xmlNode :=
  doc.children.find? (fun n => decide (n.type = .XML_ELEMENT_NODE))

/-- `mutt_html_to_text(html_content, html_len)` (the `HAVE_LIBXML2` variant).
The parser call `htmlReadMemory(html_content, html_len, ...)`, with its
fixed options, is the parameter `htmlReadMemory` (`none` for a `NULL`
document) and the global `MuttIndexWindow` is a parameter. The result is
`some none` for a `NULL` return, `some (some s)` for a returned string, and
`none` when the walker's table renderer leaves the bounds of its width
vector. -/
def mutt_html_to_text (htmlReadMemory : List Char → Nat → Option htmlDoc)
    (MuttIndexWindow : Option mutt_window_t)
    (html_content : Option (List Char)) (html_len : Nat) : Option (Option CStr) :=
  if html_content.isNone ∨ html_len = 0 then some none
  else if html_len < 10 then some none
  else
    match htmlReadMemory (html_content.getD []) html_len with
    | none => some none
    | some doc =>
      match xmlDocGetRootElement doc with
      | none => some none
      | some root =>
        match mutt_html_extract_text MuttIndexWindow (some root) [] with
        | none => none
        | some text_buffer =>
          let result := safe_strdup (some text_buffer)
          if result.isNone ∨ (result.getD []).length = 0 then some none
          else some (collapse_blank_lines result)

/-! ## Auxiliary notions for the statements -/

/-- Number of newline characters at the head of a string. -/
def leadingNewlines : List Char → Nat
  | [] => 0
  | c :: rest => if c = '\n' then leadingNewlines rest + 1 else 0

/-- Whether a string holds three newline characters in a row. -/
def hasTripleNewline : List Char → Bool
  | [] => false
  | c :: rest => (c = '\n' && decide (2 ≤ leadingNewlines rest)) || hasTripleNewline rest

/-- Length of the content of the `c`-th cell of a row, 0 when the row has no
such cell. -/
def cell_len_at (r : table_row_t) (c : Nat) : Nat :=
  match r.cells[c]? with
  | some cell => content_len cell
  | none => 0

/-- The maximum content length among the `c`-th cells of the rows. -/
def column_width (rows : List table_row_t) (c : Nat) : Nat :=
  (rows.map (fun r => cell_len_at r c)).foldr max 0

/-- A border line for the widths `w`, without its newline: `+`, then for each
column `w[c] + 2` dashes and a `+`. -/
def border_line (w : List Nat) : List Char :=
  '+' :: w.flatMap (fun k => List.replicate (k + 2) '-' ++ ['+'])

/-- The segment of one cell in a column of width `k`: a space, the content,
the padding, a space and `|`. -/
def cell_segment (k : Nat) (cell : table_cell_t) : List Char :=
  ' ' :: (cell.content.getD [] ++ (List.replicate (k - content_len cell) ' ' ++ [' ', '|']))

/-- A content line for the widths `w`, without its newline: `|`, then the
segment of each cell in the column of the same position. -/
def content_line (w : List Nat) (cells : List table_cell_t) : List Char :=
  '|' :: (List.zipWith cell_segment w cells).flatten

/-- The bordered table of `rows` for the widths `w`: for every row a border
line and its content line, then a closing border line, each ended by a
newline. -/
def bordered_table (w : List Nat) (rows : List table_row_t) : List Char :=
  rows.flatMap (fun r => border_line w ++ '\n' :: (content_line w r.cells ++ ['\n']))
    ++ (border_line w ++ ['\n'])

/-- The grid with the rows `[["a","bb"],["ccc","d"]]`, every cell of colspan
and rowspan 1. -/
def example_grid : table_data_t :=
  { rows :=
      [ { cells := [ { content := some "a".data, colspan := 1, rowspan := 1 },
                     { content := some "bb".data, colspan := 1, rowspan := 1 } ],
          cell_count := 2 },
        { cells := [ { content := some "ccc".data, colspan := 1, rowspan := 1 },
                     { content := some "d".data, colspan := 1, rowspan := 1 } ],
          cell_count := 2 } ]
    row_count := 2
    max_cols := 0
    col_widths := none }

/-- A text node with the given payload, as the parser builds it. -/
def text_node (s : String) : xmlNode :=
  .mk .XML_TEXT_NODE (some "text".data) (some s.data) [] []

/-- An element node with the given tag, attributes (name, value) and children,
as the parser builds it. -/
def element (tag : String) (attrs : List (String × String)) (children : List xmlNode) :
    xmlNode :=
  .mk .XML_ELEMENT_NODE (some tag.data) none
    (attrs.map (fun a => { name := a.1.data, children := some a.2.data })) children

/-- Whether a node is an element named `tr`. -/
def is_tr (node : xmlNode) : Bool :=
  decide (node.type = .XML_ELEMENT_NODE) && decide (node.name = some "tr".data)

/-- Whether a node is an element named `td` or `th`. -/
def is_td_th (node : xmlNode) : Bool :=
  decide (node.type = .XML_ELEMENT_NODE) &&
    (decide (node.name = some "td".data) || decide (node.name = some "th".data))

/-- The `tr` elements that are direct children of a node. -/
def direct_rows (node : xmlNode) : List xmlNode := node.children.filter is_tr

/-- The `td`/`th` elements that are direct children of a node. -/
def direct_cells (node : xmlNode) : List xmlNode := node.children.filter is_td_th

/-- The maximum number of direct cells over the direct rows of a node (0 when
there is no row). -/
def max_direct_cells (node : xmlNode) : Nat :=
  ((direct_rows node).map (fun tr => (direct_cells tr).length)).foldr max 0

/-- A table of 3 direct rows of 3 direct cells, with the given attributes. -/
def table_3x3 (attrs : List (String × String)) : xmlNode :=
  element "table" attrs
    [ element "tr" [] [element "td" [] [text_node "a"], element "td" [] [text_node "b"],
        element "td" [] [text_node "c"]],
      element "tr" [] [element "td" [] [text_node "d"], element "td" [] [text_node "e"],
        element "td" [] [text_node "f"]],
      element "tr" [] [element "th" [] [text_node "g"], element "td" [] [text_node "h"],
        element "td" [] [text_node "i"]] ]

/-- A table whose 3 rows of 3 cells are the children of a `tbody` wrapper, not
of the table itself. -/
def table_wrapped_rows : xmlNode :=
  element "table" [] [element "tbody" [] (table_3x3 []).children]

/-- The string `s` cut into successive chunks of `w` characters: chunk `i` is
the `w` characters from position `i * w` on, and there are `⌈|s| / w⌉`
chunks, so that only the last one can be shorter. -/
def chunks (w : Nat) (s : List Char) : List (List Char) :=
  (List.range ((s.length + w - 1) / w)).map (fun i => (s.drop (i * w)).take w)

/-- The chunks of `s`, each followed by a newline. -/
def chunk_lines (w : Nat) (s : List Char) : List Char :=
  (chunks w s).flatMap (fun ch => ch ++ ['\n'])

/-- The tree of `<body><script>x</script><p>hi</p></body>`. -/
def example_script_then_p : xmlNode :=
  element "body" [] [element "script" [] [text_node "x"], element "p" [] [text_node "hi"]]

/-- The marker of an `img` element: `[Image: alt]` for a non-empty `alt`
attribute, `[Image]` when the attribute is missing or empty. -/
def image_marker (alt : Option CStr) : List Char :=
  match alt with
  | some (c :: rest) => "[Image: ".data ++ (c :: rest) ++ "]".data
  | _ => "[Image]".data

/-- An `img` element that has a text child, as a tree can hold it (the HTML
parser itself builds `img` elements without children). -/
def example_img_with_child : xmlNode :=
  element "img" [("alt", "cat")] [text_node "x"]

/-- The tree of
`<table border="0"><tr><td>a</td><td>b</td></tr><tr><td>c</td><td>d</td></tr></table>`. -/
def example_layout_table : xmlNode :=
  element "table" [("border", "0")]
    [ element "tr" [] [element "td" [] [text_node "a"], element "td" [] [text_node "b"]],
      element "tr" [] [element "td" [] [text_node "c"], element "td" [] [text_node "d"]] ]

/-- The tree of
`<table><tr><td>a</td><td>b</td></tr><tr><td>c</td><td>d</td></tr></table>`. -/
def example_data_table : xmlNode :=
  element "table" []
    [ element "tr" [] [element "td" [] [text_node "a"], element "td" [] [text_node "b"]],
      element "tr" [] [element "td" [] [text_node "c"], element "td" [] [text_node "d"]] ]

mutual
/-- Whether `p` holds of every node of the tree rooted at a node. -/
def all_nodes (p : xmlNode → Bool) : xmlNode → Bool
  | .mk type name content properties children =>
    p (.mk type name content properties children) && all_nodes_list p children
/-- Whether `p` holds of every node of the trees rooted at the nodes of a
list. -/
def all_nodes_list (p : xmlNode → Bool) : List xmlNode → Bool
  | [] => true
  | child :: rest => all_nodes p child && all_nodes_list p rest
end

/-- A node that by itself emits nothing: a text node that is absent, empty or
all white space, an element that is no table, no `img` and no block element, or
a node of another kind. -/
def is_quiet_node (node : xmlNode) : Bool :=
  match node.type with
  | .XML_TEXT_NODE => (node.content.getD []).all isspace
  | .XML_ELEMENT_NODE =>
    !(name_is node "table".data) && !(name_is node "img".data) && !(is_block_tag node)
  | .XML_OTHER_NODE => true

/-- A parser that returns the given document for every input. -/
def parser_giving (doc : Option htmlDoc) : List Char → Nat → Option htmlDoc :=
  fun _ _ => doc

/-- The tree of `<html><head><meta charset="x"></head><body><span> </span></body></html>`:
its only text is white space. -/
def example_quiet_tree : xmlNode :=
  element "html" []
    [ element "head" [] [element "meta" [("charset", "x")] []],
      element "body" [] [element "span" [] [text_node " \n"]] ]

/-- The cell that the `td`/`th` branch of `mutt_html_extract_table` builds
for a node: its flattened text, and the spans read from its attributes
starting from 1. -/
def cell_of_node (node : xmlNode) : table_cell_t :=
  read_spans node.properties
    { content := mutt_extract_cell_text (some node), colspan := 1, rowspan := 1 }

/-- The value of the last attribute of the given name that has a value node. -/
def attribute_value (name : CStr) (properties : List xmlAttr) : Option CStr :=
  ((properties.filter (fun a => decide (a.name = name) && a.children.isSome)).getLast?).bind
    (fun a => a.children)

/-- Whether every `colspan` and `rowspan` attribute of a node that has a value
parses (`atoi`) to a number that is at least 1. -/
def spans_positive (node : xmlNode) : Bool :=
  node.properties.all (fun a =>
    !((decide (a.name = "colspan".data) || decide (a.name = "rowspan".data)) &&
        a.children.isSome) ||
      decide (1 ≤ atoi (a.children.getD [])))

/-- Whether a node is no `td`/`th` element or has only positive spans. -/
def cell_spans_positive (node : xmlNode) : Bool :=
  !(is_td_th node) || spans_positive node

/-- The tree of `<table><tr><td colspan="0" rowspan="-2">a</td></tr></table>`. -/
def example_nonpositive_spans : xmlNode :=
  element "table" []
    [element "tr" [] [element "td" [("colspan", "0"), ("rowspan", "-2")] [text_node "a"]]]

/-- The tree of `<table><tr><td colspan="abc" rowspan="">a</td></tr></table>`. -/
def example_nonnumeric_spans : xmlNode :=
  element "table" []
    [element "tr" [] [element "td" [("colspan", "abc"), ("rowspan", "")] [text_node "a"]]]

/-- The tree of `<table><tr><td colspan="2" rowspan="3">a</td><th>b</th></tr></table>`. -/
def example_positive_spans : xmlNode :=
  element "table" []
    [element "tr" [] [element "td" [("colspan", "2"), ("rowspan", "3")] [text_node "a"],
      element "th" [] [text_node "b"]]]

/-- The tree of
`<table><tr><td colspan="-1">a</td><td>b</td></tr><tr><td>c</td><td>d</td></tr></table>`. -/
def example_negative_colspan : xmlNode :=
  element "table" []
    [ element "tr" [] [element "td" [("colspan", "-1")] [text_node "a"],
        element "td" [] [text_node "b"]],
      element "tr" [] [element "td" [] [text_node "c"], element "td" [] [text_node "d"]] ]

/-- The tree of
`<table><tr><td>a</td><td colspan="2147483647">b</td><td>c</td></tr>
<tr><td>d</td><td>e</td><td>f</td></tr></table>`. -/
def example_huge_colspan : xmlNode :=
  element "table" []
    [ element "tr" [] [element "td" [] [text_node "a"],
        element "td" [("colspan", "2147483647")] [text_node "b"],
        element "td" [] [text_node "c"]],
      element "tr" [] [element "td" [] [text_node "d"], element "td" [] [text_node "e"],
        element "td" [] [text_node "f"]] ]

/-- The cells of a row paired with their starting columns: a cell starts at
`col` plus the sum of the colspans of the cells before it. -/
def start_columns : List table_cell_t → Int → List (Int × table_cell_t)
  | [], _ => []
  | cell :: rest, col => (col, cell) :: start_columns rest (col + cell.colspan)

/-- The maximum content length over the cells of a list of (starting column,
cell) pairs that start at column `c`; 0 when there is none. -/
def max_len_at (starts : List (Int × table_cell_t)) (c : Nat) : Nat :=
  ((starts.filter (fun p => decide (p.1 = (c : Int)))).map (fun p => content_len p.2)).foldr
    max 0

/-- The maximum content length over all cells, in all rows, whose starting
column is `c`; 0 when no cell starts at `c`. -/
def start_column_width (rows : List table_row_t) (c : Nat) : Nat :=
  max_len_at (rows.flatMap (fun r => start_columns r.cells 0)) c

/-- A grid with a cell of colspan 2: the rows `aaaa` (colspan 2), `bb` and
`c`, `ddd`, `e`. -/
def example_spanned_grid : table_data_t :=
  { rows :=
      [ { cells := [ { content := some "aaaa".data, colspan := 2, rowspan := 1 },
                     { content := some "bb".data, colspan := 1, rowspan := 1 } ],
          cell_count := 2 },
        { cells := [ { content := some "c".data, colspan := 1, rowspan := 1 },
                     { content := some "ddd".data, colspan := 1, rowspan := 1 },
                     { content := none, colspan := 1, rowspan := 1 } ],
          cell_count := 3 } ]
    row_count := 2
    max_cols := 0
    col_widths := none }

/-- The concatenation, in document order, of what the walker appends for each
node of a list (each walked into an empty buffer); `none` when one of the
walks fails. -/
def concat_walks (win : Option mutt_window_t) : List xmlNode → Option (List Char)
  | [] => some []
  | child :: rest =>
    match mutt_html_extract_text win (some child) [] with
    | none => none
    | some t => (concat_walks win rest).map (fun r => t ++ r)

/-- The tags of the block elements. -/
def block_tags : List CStr :=
  ["br".data, "p".data, "div".data, "h1".data, "h2".data, "h3".data, "h4".data,
   "h5".data, "h6".data, "li".data, "tr".data]

/-- The tags the walker treats specially: `table`, `img`, the block tags and
the suppressed tags. -/
def recognised_tags : List CStr :=
  ["table".data, "img".data] ++ block_tags ++
    ["script".data, "style".data, "meta".data, "link".data, "title".data]

/-- The piece of text one child contributes to the text of a cell: for a text
node with a payload, the payload without its leading white space followed by a
space (nothing when only white space); for an element, its own flattened text;
for any other node, nothing. -/
def cell_text_piece (child : xmlNode) : List Char :=
  if child.type = .XML_TEXT_NODE ∧ child.content.isSome then
    (if (child.content.getD []).dropWhile isspace ≠ [] then
      (child.content.getD []).dropWhile isspace ++ [' ']
    else [])
  else if child.type = .XML_ELEMENT_NODE then
    (mutt_extract_cell_text (some child)).getD []
  else []

/-- The `while (*p)` loop of `wrap_and_append` alone, without the final test:
the buffer and the column at the end of the text. -/
def wrap_scan (width : Int) : CStr → Int → BUFFER → BUFFER × Int
  | [], col, buffer => (buffer, col)
  | p :: rest, col, buffer =>
    if p = '\n' then
      wrap_scan width rest 0 (mutt_buffer_addch buffer '\n')
    else if col ≥ width ∧ p ≠ ' ' then
      wrap_scan width rest (0 + 1) (mutt_buffer_addch (mutt_buffer_addch buffer '\n') p)
    else
      wrap_scan width rest (col + 1) (mutt_buffer_addch buffer p)

/-- Run-length encoding: the maximal runs of equal characters of a string, each
as the character and the length of the run. -/
def runs : List Char → List (Char × Nat)
  | [] => []
  | c :: rest =>
    match runs rest with
    | [] => [(c, 1)]
    | (d, k) :: tl => if c = d then (d, k + 1) :: tl else (c, 1) :: (d, k) :: tl

/-- The reference definition of collapsing: every maximal run of `k` newline
characters is replaced by `min k 2` newlines, every other run is copied. -/
def collapse_reference (s : List Char) : List Char :=
  (runs s).flatMap (fun r => List.replicate (if r.1 = '\n' then min r.2 2 else r.2) r.1)

/-- The cells of a row that get a segment in its content line: those whose
starting column is below the column count `m`, with their starting columns. -/
def rendered_cells (m : Nat) (cells : List table_cell_t) : List (Int × table_cell_t) :=
  (start_columns cells 0).filter (fun p => decide (p.1 < (m : Int)))

/-- The content line of a row for the column count `m` and the widths `w`,
without its newline: `|`, then one segment for each rendered cell, padded to
the width of its starting column; nothing stands for the columns that are left. -/
def spanned_content_line (m : Nat) (w : List Nat) (cells : List table_cell_t) : List Char :=
  '|' :: (rendered_cells m cells).flatMap (fun p => cell_segment (w.getD p.1.toNat 0) p.2)

/-- The bordered table of `rows` for the column count `m` and the widths `w`:
for every row a border line and its content line, then a closing border line,
each ended by a newline. -/
def spanned_table (m : Nat) (w : List Nat) (rows : List table_row_t) : List Char :=
  rows.flatMap (fun r => border_line w ++ '\n' :: (spanned_content_line m w r.cells ++ ['\n']))
    ++ (border_line w ++ ['\n'])

/-- The tree of
`<table><tr><td>a⏎b</td><td>c</td></tr><tr><td>d</td><td>e</td></tr></table>`,
`⏎` a newline inside the text of the first cell. -/
def example_newline_in_cell : xmlNode :=
  element "table" []
    [ element "tr" [] [element "td" [] [text_node "a\nb"], element "td" [] [text_node "c"]],
      element "tr" [] [element "td" [] [text_node "d"], element "td" [] [text_node "e"]] ]

/-- Whether a node is an element named `table`. -/
def is_table_element (node : xmlNode) : Bool :=
  decide (node.type = .XML_ELEMENT_NODE) && decide (node.name = some "table".data)

mutual
/-- The nodes of the tree rooted at a node in depth-first pre-order (document
order). -/
def preorder : xmlNode → List xmlNode
  | .mk type name content properties children =>
    .mk type name content properties children :: preorder_list children
/-- The nodes of the trees rooted at the nodes of a list, in document order. -/
def preorder_list : List xmlNode → List xmlNode
  | [] => []
  | child :: rest => preorder child ++ preorder_list rest
end

/-- The part of a sequence of nodes that comes after its last `table` element;
the whole sequence when it holds no `table` element. -/
def after_last_table : List xmlNode → List xmlNode
  | [] => []
  | node :: rest =>
    if rest.any is_table_element then after_last_table rest
    else if is_table_element node then rest
    else node :: rest

/-- A row extended by the cells of the `td`/`th` elements of a sequence of
nodes, in order. -/
def add_segment (row : table_row_t) (segment : List xmlNode) : table_row_t :=
  { cells := row.cells ++ (segment.filter is_td_th).map cell_of_node
    cell_count := row.cell_count + (segment.filter is_td_th).length }

/-- The row collected for a `tr` element: the cells of the `td`/`th` elements
met between that `tr` and the next one. -/
def row_of_segment (segment : List xmlNode) : table_row_t :=
  add_segment { cells := [], cell_count := 0 } segment

/-- The flat row list for a sequence of nodes in document order: the sequence
after its last `table` element is cut at its `tr` elements, the part before the
first `tr` is dropped and every other part gives the row of its `tr`. -/
def rows_of_sequence (nodes : List xmlNode) : List table_row_t :=
  (((after_last_table nodes).splitOnP is_tr).tail).map row_of_segment

/-- The tree of `<table><tr><td>a</td></tr><tr><td>n<table><tr><td>x</td></tr></table>
</td></tr><tr><td>b</td></tr></table>`: a table nested in the second row. -/
def example_nested_table : xmlNode :=
  element "table" []
    [ element "tr" [] [element "td" [] [text_node "a"]],
      element "tr" []
        [element "td" []
          [text_node "n", element "table" [] [element "tr" [] [element "td" [] [text_node "x"]]]]],
      element "tr" [] [element "td" [] [text_node "b"]] ]

/-- Whether a node is a `table`, `tr`, `td` or `th` element. -/
def is_grid_element (node : xmlNode) : Bool :=
  is_table_element node || is_tr node || is_td_th node

/-- Whether the tree rooted at a node holds no `table`, `tr`, `td` or `th`
element. -/
def no_grid_element (node : xmlNode) : Bool :=
  all_nodes (fun n => !(is_grid_element n)) node

/-- A cell: a `td`/`th` element with no `table`, `tr`, `td` or `th` element
below it. -/
def is_cell_subtree (node : xmlNode) : Bool :=
  is_td_th node && all_nodes_list (fun n => !(is_grid_element n)) node.children

/-- A row: a `tr` element whose element children are cells and whose other
children hold no `table`, `tr`, `td` or `th` element. -/
def is_row_subtree (node : xmlNode) : Bool :=
  is_tr node &&
    node.children.all (fun c =>
      is_cell_subtree c || (!(decide (c.type = .XML_ELEMENT_NODE)) && no_grid_element c))

mutual
/-- A part of a table above its rows: a row, or a node that is no `table`,
`tr`, `td` or `th` element and whose children are such parts. -/
def is_rows_region : xmlNode → Bool
  | .mk type name content properties children =>
    is_row_subtree (.mk type name content properties children) ||
      (!(is_grid_element (.mk type name content properties children)) &&
        is_rows_region_list children)
/-- Every node of a list is a part of a table above its rows. -/
def is_rows_region_list : List xmlNode → Bool
  | [] => true
  | child :: rest => is_rows_region child && is_rows_region_list rest
end

/-- A `table` element without nested table in which every `td`/`th` element is
a child of a `tr` element, the element children of a `tr` are `td`/`th`
elements, and nothing below a cell is a `tr`, `td` or `th` element. -/
def is_simple_table (node : xmlNode) : Bool :=
  is_table_element node && is_rows_region_list node.children

/-- The row of a `tr` element: one cell per `td`/`th` child, in order. -/
def row_of_tr (tr : xmlNode) : table_row_t :=
  { cells := (direct_cells tr).map cell_of_node, cell_count := (direct_cells tr).length }

/-- The tree of `<table><tr><td>a</td></tr><td>x</td></table>`: the second `td` is
a child of the table, after the row. -/
def example_stray_cell : xmlNode :=
  element "table" []
    [element "tr" [] [element "td" [] [text_node "a"]], element "td" [] [text_node "x"]]

/-- The tree of `<table><tbody><tr><td>a</td><th colspan="2">b</th></tr>
<tr><td>c</td></tr></tbody></table>`. -/
def example_simple_table : xmlNode :=
  element "table" []
    [element "tbody" []
      [ element "tr" [] [element "td" [] [text_node "a"],
          element "th" [("colspan", "2")] [text_node "b"]],
        element "tr" [] [element "td" [] [text_node "c"]] ]]

/-- A text with its newline characters deleted. -/
def without_newlines (s : List Char) : List Char :=
  s.filter (fun c => decide (c ≠ '\n'))

/-- The lines of a text: the parts between its newline characters. -/
def text_lines (s : List Char) : List (List Char) :=
  s.splitOnP (fun c => decide (c = '\n'))

/-- A line without its trailing spaces. -/
def strip_trailing_spaces (line : List Char) : List Char :=
  (line.reverse.dropWhile (fun c => decide (c = ' '))).reverse

/-- A grid with a cell of colspan 0: the row `a` (colspan 0), `b`; both cells
start at column 0. -/
def example_zero_colspan_grid : table_data_t :=
  { rows :=
      [ { cells := [ { content := some "a".data, colspan := 0, rowspan := 1 },
                     { content := some "b".data, colspan := 1, rowspan := 1 } ],
          cell_count := 2 } ]
    row_count := 1
    max_cols := 0
    col_widths := none }

/-- The tree of `<table><tr><td>a</td><td>b</td></tr>
<tr><td>c</td><td><table></table></td></tr></table>`: a data table whose last
cell holds an empty table. -/
def example_nested_empty_table : xmlNode :=
  element "table" []
    [ element "tr" [] [element "td" [] [text_node "a"], element "td" [] [text_node "b"]],
      element "tr" [] [element "td" [] [text_node "c"],
        element "td" [] [element "table" [] []]] ]

/-- The grid the walker builds for a `table` element: `mutt_html_extract_table`
run on a zeroed `table_data_t`. -/
def grid_of (root : xmlNode) : table_data_t :=
  mutt_html_extract_table (some root) table_data_zero

/-! # Properties -/

/-! ## `collapse_blank_lines` -/

theorem collapse_loop_out (s : CStr) (out : List Char) (n : Nat) :
    collapse_loop s out n = out ++ collapse_loop s [] n := by
  induction s generalizing out n with
  | nil => simp [collapse_loop]
  | cons c rest ih =>
    unfold collapse_loop
    split_ifs
    · rw [ih (out ++ [c]), ih ([] ++ [c])]; simp
    · exact ih out _
    · rw [ih (out ++ [c]), ih ([] ++ [c])]; simp

theorem hasTripleNewline_of_infix (l : List Char)
    (h : ['\n', '\n', '\n'] <:+: l) : hasTripleNewline l = true := by
  induction l with
  | nil => simp at h
  | cons c rest ih =>
    rw [List.infix_cons_iff] at h
    rcases h with h | h
    · obtain ⟨t, ht⟩ := h
      simp only [List.cons_append, List.nil_append, List.cons.injEq] at ht
      obtain ⟨hc, hrest⟩ := ht
      subst hc hrest
      simp [hasTripleNewline, leadingNewlines]
    · simp [hasTripleNewline, ih h]

theorem collapse_loop_nil_cons (c : Char) (rest : CStr) (n : Nat) :
    collapse_loop (c :: rest) [] n =
      if c = '\n' then
        if n + 1 ≤ 2 then c :: collapse_loop rest [] (n + 1)
        else collapse_loop rest [] (n + 1)
      else c :: collapse_loop rest [] 0 := by
  conv_lhs => unfold collapse_loop
  split_ifs
  · rw [collapse_loop_out]; simp
  · rfl
  · rw [collapse_loop_out]; simp

theorem collapse_loop_leading (s : CStr) (n : Nat) :
    leadingNewlines (collapse_loop s [] n) + min n 2 ≤ 2 := by
  induction s generalizing n with
  | nil => simp [collapse_loop, leadingNewlines]
  | cons c rest ih =>
    rw [collapse_loop_nil_cons]
    split_ifs with hc hn
    · have := ih (n + 1)
      simp only [leadingNewlines, hc, if_true]
      omega
    · have := ih (n + 1)
      omega
    · simp only [leadingNewlines, hc, if_false]
      omega

theorem collapse_loop_no_triple (s : CStr) (n : Nat) :
    hasTripleNewline (collapse_loop s [] n) = false := by
  induction s generalizing n with
  | nil => simp [collapse_loop, hasTripleNewline]
  | cons c rest ih =>
    rw [collapse_loop_nil_cons]
    split_ifs with hc hn
    · have := collapse_loop_leading rest (n + 1)
      simp only [hasTripleNewline, ih, Bool.or_false, Bool.and_eq_false_imp,
        decide_eq_true_eq, decide_eq_false_iff_not]
      intro _
      omega
    · exact ih _
    · simp [hasTripleNewline, hc, ih]

/-- **C1.** For every string `s`, `collapse_blank_lines(s)` returns a string
that contains no three consecutive newline characters. -/
theorem collapse_blank_lines_no_three_newlines (s : CStr) :
    ∃ out, collapse_blank_lines (some s) = some out ∧
      ¬ (['\n', '\n', '\n'] <:+: out) := by
  refine ⟨collapse_loop s [] 0, rfl, fun h => ?_⟩
  have h1 := hasTripleNewline_of_infix _ h
  rw [collapse_loop_no_triple] at h1
  exact Bool.false_ne_true h1

theorem leadingNewlines_le_of_no_triple (l : List Char)
    (h : hasTripleNewline l = false) : leadingNewlines l ≤ 2 := by
  cases l with
  | nil => simp [leadingNewlines]
  | cons c rest =>
    simp only [hasTripleNewline, Bool.or_eq_false_iff, Bool.and_eq_false_imp,
      decide_eq_true_eq, decide_eq_false_iff_not] at h
    by_cases hc : c = '\n'
    · have := h.1 hc
      simp only [leadingNewlines, hc, if_true]
      omega
    · simp [leadingNewlines, hc]

theorem collapse_loop_fixed (o : List Char) (n : Nat)
    (h3 : hasTripleNewline o = false) (hl : leadingNewlines o + min n 2 ≤ 2) :
    collapse_loop o [] n = o := by
  induction o generalizing n with
  | nil => simp [collapse_loop]
  | cons c rest ih =>
    have hrest : hasTripleNewline rest = false := by
      simp only [hasTripleNewline, Bool.or_eq_false_iff] at h3
      exact h3.2
    rw [collapse_loop_nil_cons]
    by_cases hc : c = '\n'
    · simp only [leadingNewlines, hc, if_true] at hl
      have hn : n + 1 ≤ 2 := by omega
      rw [if_pos hc, if_pos hn, ih (n + 1) hrest (by omega)]
    · have := leadingNewlines_le_of_no_triple rest hrest
      rw [if_neg hc, ih 0 hrest (by simpa using this)]

/-- **C2.** For every string `s`, collapsing is idempotent:
`collapse_blank_lines(collapse_blank_lines(s)) = collapse_blank_lines(s)`. -/
theorem collapse_blank_lines_idempotent (s : CStr) :
    collapse_blank_lines (collapse_blank_lines (some s)) =
      collapse_blank_lines (some s) := by
  simp only [collapse_blank_lines, Option.some.injEq]
  apply collapse_loop_fixed _ 0 (collapse_loop_no_triple s 0)
  simpa using collapse_loop_leading s 0

/-! ## `mutt_render_table` -/

theorem wrap32_of_range (x : Int) (h0 : 0 ≤ x) (h1 : x < 2 ^ 31) : wrap32 x = x := by
  unfold wrap32
  omega

theorem addch_times_eq (c : Char) (k : Nat) (b : BUFFER) :
    addch_times c k b = b ++ List.replicate k c := by
  induction k generalizing b with
  | zero => simp [addch_times]
  | succ k ih =>
    simp [addch_times, ih, mutt_buffer_addch, List.replicate_succ]

theorem calc_max_cols_uniform (n : Nat) (rows : List table_row_t) (m : Nat)
    (h : ∀ r ∈ rows, r.cell_count = n) (hne : rows ≠ []) :
    calc_max_cols rows m = max m n := by
  induction rows generalizing m with
  | nil => exact absurd rfl hne
  | cons r rest ih =>
    have hr : r.cell_count = n := h r (List.mem_cons_self _ _)
    have hrest : ∀ r ∈ rest, r.cell_count = n := fun r hr => h r (List.mem_cons_of_mem _ hr)
    unfold calc_max_cols
    cases rest with
    | nil => simp only [calc_max_cols, hr]; split_ifs <;> omega
    | cons r2 rest2 =>
      rw [ih _ hrest (by simp), hr]
      split_ifs <;> omega

theorem calc_widths_cells_unit (n : Nat) (hn : n < 2 ^ 31) (cells : List table_cell_t)
    (pre suf : List Nat) (hspan : ∀ c ∈ cells, c.colspan = 1)
    (hlen : cells.length = suf.length) (hsum : pre.length + suf.length = n) :
    calc_widths_cells n cells (pre.length : Int) (pre ++ suf) =
      some (pre ++ List.zipWith max suf (cells.map content_len)) := by
  induction cells generalizing pre suf with
  | nil => 
    cases suf with
    | nil => simp [calc_widths_cells]
    | cons x suf1 => simp at hlen
  | cons cell rest ih =>
    cases suf with
    | nil => simp at hlen
    | cons x suf1 =>
      simp only [List.length_cons, Nat.add_right_cancel_iff] at hlen hsum
      have h1 : ((pre.length : Int) < (n : Int)) := by omega
      have h2 : (0 : Int) ≤ (pre.length : Int) := by omega
      have hc : cell.colspan = 1 := hspan cell (List.mem_cons_self _ _)
      have hw : wrap32 ((pre.length : Int) + 1) = ((pre ++ [max x (content_len cell)]).length : Int) := by
        rw [wrap32_of_range _ (by omega) (by omega)]; simp
      unfold calc_widths_cells
      rw [if_pos h1, if_pos h2]
      simp only [Int.toNat_ofNat, hc, hw]
      have hget : (pre ++ x :: suf1).getD pre.length 0 = x := by
        rw [List.getD_append_right _ _ _ _ (le_refl _)]; simp
      have hset : ∀ v, (pre ++ x :: suf1).set pre.length v = pre ++ v :: suf1 := by
        intro v; rw [List.set_append]; simp
      rw [hget, hset]
      have hmax : (if content_len cell > x then pre ++ content_len cell :: suf1 else pre ++ x :: suf1)
          = (pre ++ [max x (content_len cell)]) ++ suf1 := by
        split_ifs with h
        · simp [max_eq_right (le_of_lt h)]
        · simp [max_eq_left (not_lt.mp h)]
      rw [hmax, ih _ _ (fun c hc => hspan c (List.mem_cons_of_mem _ hc)) hlen (by simp; omega)]
      simp

theorem getD_zipWith_max (w : List Nat) (cells : List table_cell_t) (c : Nat)
    (h : w.length = cells.length) :
    (List.zipWith max w (cells.map content_len)).getD c 0 =
      max (w.getD c 0) (match cells[c]? with | some cell => content_len cell | none => 0) := by
  induction w generalizing cells c with
  | nil =>
    cases cells with
    | nil => simp
    | cons y cells1 => simp at h
  | cons x w1 ih =>
    cases cells with
    | nil => simp at h
    | cons y cells1 =>
      cases c with
      | zero => simp
      | succ c => 
        have := ih cells1 c (by simpa using h)
        simpa using this

theorem calc_widths_rows_unit (n : Nat) (hn : n < 2 ^ 31) (rows : List table_row_t)
    (w : List Nat) (hw : w.length = n)
    (hrows : ∀ r ∈ rows, r.cells.length = n ∧ ∀ c ∈ r.cells, c.colspan = 1) :
    calc_widths_rows n rows w =
      some ((List.range n).map (fun c => max (w.getD c 0) (column_width rows c))) := by
  induction rows generalizing w with
  | nil =>
    simp only [calc_widths_rows, column_width, List.map_nil, List.foldr_nil, Option.some.injEq]
    apply List.ext_getElem
    · simp [hw]
    · intro i h1 h2
      simp [List.getD_eq_getElem?_getD, List.getElem?_eq_getElem h1]
  | cons r rest ih =>
    obtain ⟨hlen, hspan⟩ := hrows r (List.mem_cons_self _ _)
    have h0 := calc_widths_cells_unit n hn r.cells [] w hspan (by omega) (by simpa using hw)
    simp only [List.length_nil, Nat.cast_zero, List.nil_append] at h0
    unfold calc_widths_rows
    rw [h0]
    show calc_widths_rows n rest _ = _
    rw [ih _ (by simp [hw, hlen]) (fun r hr => hrows r (List.mem_cons_of_mem _ hr))]
    congr 1
    apply List.map_congr_left
    intro c _
    rw [getD_zipWith_max w r.cells c (by omega)]
    simp only [column_width, List.map_cons, List.foldr_cons, cell_len_at]
    rw [max_assoc]

theorem render_border_cols_eq (w : List Nat) (m col : Nat) (b : BUFFER)
    (h : col + m = w.length) :
    render_border_cols w m col b =
      b ++ (w.drop col).flatMap (fun k => List.replicate (k + 2) '-' ++ ['+']) := by
  induction m generalizing col b with
  | zero =>
    have : w.length ≤ col := by omega
    simp [render_border_cols, List.drop_eq_nil_of_le this]
  | succ m ih =>
    have hlt : col < w.length := by omega
    unfold render_border_cols
    rw [ih (col + 1) _ (by omega), addch_times_eq]
    conv_rhs => rw [List.drop_eq_getElem_cons hlt, List.flatMap_cons]
    simp [mutt_buffer_addch, List.getD_eq_getElem?_getD, List.getElem?_eq_getElem hlt]

theorem render_border_eq (w : List Nat) (b : BUFFER) :
    render_border w.length w b = b ++ (border_line w ++ ['\n']) := by
  unfold render_border
  rw [render_border_cols_eq w w.length 0 _ (by omega)]
  simp [mutt_buffer_addch, border_line]

theorem length_content (cell : table_cell_t) :
    (cell.content.getD []).length = content_len cell := by
  unfold content_len
  cases cell.content <;> simp

theorem render_cells_unit (n : Nat) (hn : n < 2 ^ 31) (cells : List table_cell_t)
    (pre suf : List Nat) (b : BUFFER) (hspan : ∀ c ∈ cells, c.colspan = 1)
    (hlen : cells.length = suf.length) (hsum : pre.length + suf.length = n) :
    render_cells n (pre ++ suf) cells (pre.length : Int) b =
      some (b ++ (List.zipWith cell_segment suf cells).flatten) := by
  induction cells generalizing pre suf b with
  | nil => simp [render_cells]
  | cons cell rest ih =>
    cases suf with
    | nil => simp at hlen
    | cons x suf1 =>
      simp only [List.length_cons, Nat.add_right_cancel_iff] at hlen hsum
      have h1 : ((pre.length : Int) < (n : Int)) := by omega
      have h2 : (0 : Int) ≤ (pre.length : Int) := by omega
      have hc : cell.colspan = 1 := hspan cell (List.mem_cons_self _ _)
      have hw : wrap32 ((pre.length : Int) + 1) = ((pre ++ [x]).length : Int) := by
        rw [wrap32_of_range _ (by omega) (by omega)]; simp
      have hget : (pre ++ x :: suf1).getD pre.length 0 = x := by
        rw [List.getD_append_right _ _ _ _ (le_refl _)]; simp
      have happ : pre ++ x :: suf1 = (pre ++ [x]) ++ suf1 := by simp
      unfold render_cells
      rw [if_pos h1, if_pos h2]
      simp only [Int.toNat_ofNat, hc, hw, hget]
      rw [happ, ih _ _ _ (fun c hc => hspan c (List.mem_cons_of_mem _ hc)) hlen (by simp; omega)]
      simp [addch_times_eq, mutt_buffer_addch, mutt_buffer_addstr, cell_segment]

theorem render_rows_unit (n : Nat) (hn : n < 2 ^ 31) (rows : List table_row_t)
    (w : List Nat) (b : BUFFER) (hw : w.length = n)
    (hrows : ∀ r ∈ rows, r.cells.length = n ∧ ∀ c ∈ r.cells, c.colspan = 1) :
    render_rows n w rows b =
      some (b ++ rows.flatMap
        (fun r => border_line w ++ '\n' :: (content_line w r.cells ++ ['\n']))) := by
  induction rows generalizing b with
  | nil => simp [render_rows]
  | cons r rest ih =>
    obtain ⟨hlen, hspan⟩ := hrows r (List.mem_cons_self _ _)
    have h0 := render_cells_unit n hn r.cells [] w
      (mutt_buffer_addch (render_border n w b) '|') hspan (by omega) (by simpa using hw)
    simp only [List.length_nil, Nat.cast_zero, List.nil_append] at h0
    unfold render_rows
    simp only
    rw [h0]
    show render_rows n w rest _ = _
    rw [ih _ (fun r hr => hrows r (List.mem_cons_of_mem _ hr))]
    subst hw
    simp [render_border_eq, mutt_buffer_addch, content_line]

theorem cell_len_at_le_column_width (rows : List table_row_t) (r : table_row_t)
    (hr : r ∈ rows) (c : Nat) : cell_len_at r c ≤ column_width rows c := by
  induction rows with
  | nil => simp at hr
  | cons r1 rest ih =>
    simp only [column_width, List.map_cons, List.foldr_cons]
    rcases List.mem_cons.mp hr with h | h
    · subst h; exact le_max_left _ _
    · exact le_trans (ih h) (le_max_right _ _)

theorem length_segments (w : List Nat) (cells : List table_cell_t)
    (hlen : w.length = cells.length)
    (hle : ∀ c, (match cells[c]? with | some cell => content_len cell | none => 0)
      ≤ w.getD c 0) :
    (List.zipWith cell_segment w cells).flatten.length = (w.map (fun k => k + 3)).sum := by
  induction w generalizing cells with
  | nil => simp
  | cons x w1 ih =>
    cases cells with
    | nil => simp at hlen
    | cons y cells1 =>
      have h0 : content_len y ≤ x := by simpa using hle 0
      have h1 := ih cells1 (by simpa using hlen) (fun c => by simpa using hle (c + 1))
      simp only [List.zipWith_cons_cons, List.flatten_cons, List.length_append, h1,
        List.map_cons, List.sum_cons]
      simp only [cell_segment, List.length_cons, List.length_append, length_content,
        List.length_replicate, List.length_nil]
      omega

/-- **C3.** The grid `[["a","bb"],["ccc","d"]]` (all colspan 1) renders exactly as
the five-line bordered table of the specification. In general, for a grid
with at least one row whose rows all have exactly `n ≥ 1` cells of colspan 1
(`n` an `int`), `mutt_render_table` computes for column `c` the maximum
content length among the `c`-th cells of the rows and appends, for every row,
a border line and a content line, and a closing border line; a border line is
`+` followed for each column by `w[c] + 2` dashes and a `+`, and every content
line has length `1 + Σ (w[c] + 3)`. -/
theorem mutt_render_table_uniform_grid :
    (mutt_render_table example_grid []).map Prod.snd =
        some "+-----+----+\n| a   | bb |\n+-----+----+\n| ccc | d  |\n+-----+----+\n".data ∧
    ∀ (table : table_data_t) (buffer : BUFFER) (n : Nat),
      table.rows ≠ [] → 1 ≤ n → n < 2 ^ 31 →
      (∀ r ∈ table.rows,
        r.cell_count = n ∧ r.cells.length = n ∧ ∀ c ∈ r.cells, c.colspan = 1) →
      mutt_render_table table buffer =
        some ({ table with
                max_cols := n
                col_widths := some ((List.range n).map (column_width table.rows)) },
          buffer ++ bordered_table ((List.range n).map (column_width table.rows)) table.rows) ∧
      ∀ r ∈ table.rows,
        (content_line ((List.range n).map (column_width table.rows)) r.cells).length =
          1 + (((List.range n).map (column_width table.rows)).map (fun k => k + 3)).sum := by
  refine ⟨by rfl, ?_⟩
  intro table buffer n hR hn1 hn hrows
  have hcount : ∀ r ∈ table.rows, r.cell_count = n := fun r hr => (hrows r hr).1
  have hcells : ∀ r ∈ table.rows, r.cells.length = n ∧ ∀ c ∈ r.cells, c.colspan = 1 :=
    fun r hr => (hrows r hr).2
  have hmax : calc_max_cols table.rows 0 = n := by
    rw [calc_max_cols_uniform n table.rows 0 hcount hR]; simp
  have hwid := calc_widths_rows_unit n hn table.rows (List.replicate n 0) (by simp) hcells
  have hw0 : (List.range n).map
      (fun c => max ((List.replicate n 0).getD c 0) (column_width table.rows c)) =
      (List.range n).map (column_width table.rows) := by
    apply List.map_congr_left
    intro c hc
    have hc1 : c < n := List.mem_range.mp hc
    simp [List.getD_eq_getElem?_getD]
  rw [hw0] at hwid
  have hlenw : ((List.range n).map (column_width table.rows)).length = n := by simp
  constructor
  · unfold mutt_render_table
    rw [if_neg hR]
    simp only [hmax]
    rw [if_neg (by omega), hwid]
    simp only
    rw [render_rows_unit n hn table.rows _ buffer hlenw hcells]
    simp only
    have := render_border_eq ((List.range n).map (column_width table.rows))
    rw [hlenw] at this
    rw [this]
    simp [bordered_table]
  · intro r hr
    simp only [content_line, List.length_cons]
    rw [length_segments _ r.cells (by rw [hlenw, (hcells r hr).1])]
    · omega
    · intro c
      by_cases hc : c < n
      · have := cell_len_at_le_column_width table.rows r hr c
        simpa [cell_len_at, List.getD_eq_getElem?_getD, List.getElem?_range hc, hc] using this
      · have : r.cells[c]? = none := by
          rw [List.getElem?_eq_none]; rw [(hcells r hr).1]; omega
        simp [this]

/-- Witness for `mutt_render_table_uniform_grid`: the general statement at the
example grid, whose column widths are `[3, 2]`. -/
theorem mutt_render_table_uniform_grid_witness :
    mutt_render_table example_grid [] =
      some ({ example_grid with max_cols := 2, col_widths := some [3, 2] },
        bordered_table [3, 2] example_grid.rows) ∧
    ∀ r ∈ example_grid.rows, (content_line [3, 2] r.cells).length = 1 + (6 + 5) := by
  have h := mutt_render_table_uniform_grid.2 example_grid [] 2 (by decide) (by decide)
    (by norm_num) (by decide)
  exact h

/-! ## `is_layout_table` -/

theorem count_cols_eq (l : List xmlNode) (k : Nat) :
    count_cols l k = k + (l.filter is_td_th).length := by
  induction l generalizing k with
  | nil => simp [count_cols]
  | cons td rest ih =>
    unfold count_cols
    by_cases h : td.type = .XML_ELEMENT_NODE ∧
        (name_is td "td".data = true ∨ name_is td "th".data = true)
    · have h2 : is_td_th td = true := by
        simp only [name_is, decide_eq_true_eq] at h
        simp [is_td_th, h.1, h.2]
      rw [if_pos h, ih, List.filter_cons_of_pos h2]
      simp only [List.length_cons]; omega
    · have h2 : ¬ is_td_th td = true := by
        intro h3
        apply h
        simpa [is_td_th, name_is] using h3
      rw [if_neg h, ih, List.filter_cons_of_neg h2]

theorem count_rows_eq (l : List xmlNode) (r c : Nat) :
    count_rows l (r, c) =
      (r + (l.filter is_tr).length,
        max c (((l.filter is_tr).map (fun tr => (direct_cells tr).length)).foldr max 0)) := by
  induction l generalizing r c with
  | nil => simp [count_rows]
  | cons tr rest ih =>
    unfold count_rows
    by_cases h : tr.type = .XML_ELEMENT_NODE ∧ name_is tr "tr".data = true
    · have h2 : is_tr tr = true := by
        simp only [name_is, decide_eq_true_eq] at h
        simp [is_tr, h.1, h.2]
      rw [if_pos h, List.filter_cons_of_pos h2]
      simp only [ih, count_cols_eq, Nat.zero_add, List.length_cons, List.map_cons,
        List.foldr_cons, direct_cells, Prod.mk.injEq]
      refine ⟨by omega, ?_⟩
      generalize List.foldr max 0
        (List.map (fun tr => (List.filter is_td_th tr.children).length)
          (List.filter is_tr rest)) = m
      split_ifs with h3 <;> omega
    · have h2 : ¬ is_tr tr = true := by
        intro h3
        apply h
        simpa [is_tr, name_is] using h3
      rw [if_neg h, ih, List.filter_cons_of_neg h2]

/-- **C4.** `is_layout_table` answers "layout" exactly when the `role` attribute
equals `presentation` ignoring case, or the `border` attribute is the string
`0`, or the table has at most one direct `tr` child, or no direct `tr` child
has more than one direct `td`/`th` child. Rows and cells that are not direct
children are not counted (a table whose rows sit in a wrapper is layout), the
two attributes decide whatever the counts are, and a table of 3 direct rows of
3 direct cells with neither attribute is data. -/
theorem is_layout_table_iff :
    (∀ node : xmlNode,
      is_layout_table node = true ↔
        ((∃ role, xmlGetProp node "role".data = some role ∧
            strcasecmp_eq role "presentation".data = true) ∨
          xmlGetProp node "border".data = some "0".data ∨
          (direct_rows node).length ≤ 1 ∨
          max_direct_cells node ≤ 1)) ∧
    is_layout_table (table_3x3 []) = false ∧
    is_layout_table (table_3x3 [("role", "Presentation")]) = true ∧
    is_layout_table (table_3x3 [("border", "0")]) = true ∧
    is_layout_table table_wrapped_rows = true := by
  refine ⟨fun node => ?_, by decide, by decide, by decide, by decide⟩
  unfold is_layout_table
  simp only [count_rows_eq, Nat.zero_add, direct_rows, max_direct_cells]
  cases hrole : xmlGetProp node "role".data <;>
    cases hborder : xmlGetProp node "border".data <;>
    simp <;> tauto

/-! ## `wrap_and_append` -/

theorem chunks_nil (w : Nat) (hw : 1 ≤ w) : chunks w [] = [] := by
  have : (w - 1) / w = 0 := Nat.div_eq_of_lt (by omega)
  simp [chunks, this]

theorem chunks_cons (w : Nat) (hw : 1 ≤ w) (s : List Char) (hs : s ≠ []) :
    chunks w s = s.take w :: chunks w (s.drop w) := by
  have hL : 1 ≤ s.length := List.length_pos.mpr hs
  have hcount : (s.length + w - 1) / w = ((s.drop w).length + w - 1) / w + 1 := by
    rw [List.length_drop]
    by_cases h : w ≤ s.length
    · have e1 : s.length + w - 1 = (s.length - w + w - 1) + w := by omega
      rw [e1, Nat.add_div_right _ (by omega)]
    · have e2 : s.length - w = 0 := by omega
      have e3 : s.length + w - 1 = (s.length - 1) + w := by omega
      rw [e2, e3, Nat.add_div_right _ (by omega), Nat.zero_add,
        Nat.div_eq_of_lt (by omega : w - 1 < w), Nat.div_eq_of_lt (by omega : s.length - 1 < w)]
  unfold chunks
  rw [hcount, List.range_succ_eq_map, List.map_cons, List.map_map]
  simp only [Nat.zero_mul, List.drop_zero, List.cons.injEq, true_and]
  apply List.map_congr_left
  intro i _
  simp only [Function.comp_apply, List.drop_drop]
  congr 2
  rw [Nat.succ_mul]; omega

theorem chunk_lines_cons (w : Nat) (hw : 1 ≤ w) (s : List Char) (hs : s ≠ []) :
    chunk_lines w s = s.take w ++ '\n' :: chunk_lines w (s.drop w) := by
  simp [chunk_lines, chunks_cons w hw s hs]

theorem wrap_loop_no_space (w : Nat) (hw : 1 ≤ w) (s : CStr)
    (hs : ∀ c ∈ s, c ≠ ' ' ∧ c ≠ '\n') (col : Nat) (hcol : col ≤ w) (b : BUFFER) :
    wrap_loop (w : Int) s (col : Int) b =
      b ++ (s.take (w - col) ++
        ((if col = 0 ∧ s = [] then [] else ['\n']) ++ chunk_lines w (s.drop (w - col)))) := by
  induction s generalizing col b with
  | nil =>
    simp only [wrap_loop, List.take_nil, List.drop_nil, chunk_lines, chunks_nil w hw,
      List.flatMap_nil, List.append_nil, List.nil_append, and_true, mutt_buffer_addch]
    by_cases h : col = 0
    · simp [h]
    · have : (col : Int) > 0 := by omega
      simp [h, this]
  | cons p rest ih =>
    obtain ⟨hp1, hp2⟩ := hs p (List.mem_cons_self _ _)
    have hrest : ∀ c ∈ rest, c ≠ ' ' ∧ c ≠ '\n' := fun c hc => hs c (List.mem_cons_of_mem _ hc)
    unfold wrap_loop
    rw [if_neg hp2]
    by_cases h : col = w
    · have h1 : (col : Int) ≥ (w : Int) ∧ p ≠ ' ' := ⟨by omega, hp1⟩
      rw [if_pos h1]
      have := ih hrest 1 hw (mutt_buffer_addch (mutt_buffer_addch b '\n') p)
      simp only [Nat.cast_one] at this
      rw [show ((0 : Int) + 1) = 1 by norm_num, this]
      subst h
      simp only [Nat.sub_self, List.take_zero, List.drop_zero, List.nil_append]
      rw [chunk_lines_cons col hw (p :: rest) (by simp)]
      obtain ⟨k, hk⟩ : ∃ k, col = k + 1 := ⟨col - 1, by omega⟩
      subst hk
      simp [mutt_buffer_addch]
    · have h1 : ¬ ((col : Int) ≥ (w : Int) ∧ p ≠ ' ') := by
        intro h2; omega
      rw [if_neg h1]
      have := ih hrest (col + 1) (by omega) (mutt_buffer_addch b p)
      simp only [Nat.cast_add, Nat.cast_one] at this
      rw [this]
      obtain ⟨k, hk⟩ : ∃ k, w - col = k + 1 := ⟨w - col - 1, by omega⟩
      have hk2 : w - (col + 1) = k := by omega
      rw [hk, hk2]
      simp [mutt_buffer_addch]

theorem chunks_length_bounds (w : Nat) (hw : 1 ≤ w) (n : Nat) (s : List Char)
    (hn : s.length ≤ n) : ∀ ch ∈ chunks w s, 1 ≤ ch.length ∧ ch.length ≤ w := by
  induction n generalizing s with
  | zero =>
    have : s = [] := List.length_eq_zero.mp (by omega)
    subst this
    simp [chunks_nil w hw]
  | succ n ih =>
    by_cases hs : s = []
    · subst hs; simp [chunks_nil w hw]
    · have hL : 1 ≤ s.length := List.length_pos.mpr hs
      rw [chunks_cons w hw s hs]
      intro ch hch
      rcases List.mem_cons.mp hch with h | h
      · subst h
        simp only [List.length_take]
        omega
      · exact ih (s.drop w) (by simp only [List.length_drop]; omega) ch h

theorem chunks_flatten (w : Nat) (hw : 1 ≤ w) (n : Nat) (s : List Char)
    (hn : s.length ≤ n) : (chunks w s).flatten = s := by
  induction n generalizing s with
  | zero =>
    have : s = [] := List.length_eq_zero.mp (by omega)
    subst this
    simp [chunks_nil w hw]
  | succ n ih =>
    by_cases hs : s = []
    · subst hs; simp [chunks_nil w hw]
    · have hL : 1 ≤ s.length := List.length_pos.mpr hs
      rw [chunks_cons w hw s hs, List.flatten_cons,
        ih (s.drop w) (by simp only [List.length_drop]; omega), List.take_append_drop]

/-- **C5.** For every width `w ≥ 1` and every string `s` without space and
newline, `wrap_and_append` appends `s` cut into successive chunks of `w`
characters (chunk `i` is the `w` characters from position `i * w`, only the
last one can be shorter, none is empty, together they are `s`), each followed
by one newline, and nothing when `s` is empty; `"abcdefghij"` at width 4
gives `"abcd\nefgh\nij\n"`. -/
theorem wrap_and_append_no_space :
    (∀ (w : Nat) (s : CStr) (buffer : BUFFER), 1 ≤ w →
      (∀ c ∈ s, c ≠ ' ' ∧ c ≠ '\n') →
      wrap_and_append buffer s (w : Int) = buffer ++ chunk_lines w s ∧
      (chunks w s).flatten = s ∧
      (∀ ch ∈ chunks w s, 1 ≤ ch.length ∧ ch.length ≤ w) ∧
      (s = [] → wrap_and_append buffer s (w : Int) = buffer)) ∧
    wrap_and_append [] "abcdefghij".data 4 = "abcd\nefgh\nij\n".data := by
  refine ⟨fun w s buffer hw hs => ⟨?_, chunks_flatten w hw _ s (le_refl _),
    chunks_length_bounds w hw _ s (le_refl _), ?_⟩, by decide⟩
  · have := wrap_loop_no_space w hw s hs 0 (by omega) buffer
    simp only [Nat.cast_zero, Nat.sub_zero] at this
    unfold wrap_and_append
    rw [this]
    by_cases h : s = []
    · subst h; simp [chunk_lines, chunks_nil w hw]
    · rw [chunk_lines_cons w hw s h]
      simp [h]
  · intro h; subst h; simp [wrap_and_append, wrap_loop]

/-- Witness for `wrap_and_append_no_space`: the general statement at
`"abcdefghij"` and width 4. -/
theorem wrap_and_append_no_space_witness :
    wrap_and_append [] "abcdefghij".data ((4 : Nat) : Int) =
      [] ++ chunk_lines 4 "abcdefghij".data ∧
    chunks 4 "abcdefghij".data = ["abcd".data, "efgh".data, "ij".data] :=
  ⟨(wrap_and_append_no_space.1 4 "abcdefghij".data [] (by decide) (by decide)).1, by decide⟩

/-! ## `mutt_html_extract_text` -/

/-- **C6.** An element tagged `script`, `style`, `meta`, `link` or `title`, with
any attributes and any subtree, leaves the buffer unchanged; walking
`<body><script>x</script><p>hi</p></body>` appends a text that contains `hi`
and no `x`. -/
theorem extract_text_suppressed :
    (∀ (win : Option mutt_window_t) (tag : CStr) (content : Option CStr)
        (properties : List xmlAttr) (children : List xmlNode) (buffer : BUFFER),
      tag ∈ ["script".data, "style".data, "meta".data, "link".data, "title".data] →
      mutt_html_extract_text win
        (some (.mk .XML_ELEMENT_NODE (some tag) content properties children)) buffer =
        some buffer) ∧
    ∃ out, mutt_html_extract_text none (some example_script_then_p) [] = some out ∧
      "hi".data <:+: out ∧ 'x' ∉ out := by
  constructor
  · intro win tag content properties children buffer htag
    simp only [List.mem_cons, List.mem_singleton, List.not_mem_nil, or_false] at htag
    rcases htag with h | h | h | h | h <;> subst h <;> rfl
  · exact ⟨"\nhi ".data, by rfl, ⟨"\n".data, " ".data, by rfl⟩, by decide⟩

/-- Witness for `extract_text_suppressed`: a `script` element with a text
child, walked into a buffer that holds `ab`. -/
theorem extract_text_suppressed_witness :
    mutt_html_extract_text none (some (element "script" [] [text_node "x"])) "ab".data =
      some "ab".data :=
  extract_text_suppressed.1 none "script".data none [] [text_node "x"] "ab".data (by simp)

/-! ### The walker only appends -/

theorem render_border_cols_append (w : List Nat) (m col : Nat) (b : BUFFER) :
    render_border_cols w m col b = b ++ render_border_cols w m col [] := by
  induction m generalizing col b with
  | zero => simp [render_border_cols]
  | succ m ih =>
    unfold render_border_cols
    rw [ih (col + 1) (mutt_buffer_addch (addch_times '-' (w.getD col 0 + 2) b) '+'),
      ih (col + 1) (mutt_buffer_addch (addch_times '-' (w.getD col 0 + 2) []) '+')]
    simp [mutt_buffer_addch, addch_times_eq]

theorem render_border_append (n : Nat) (w : List Nat) (b : BUFFER) :
    render_border n w b = b ++ render_border n w [] := by
  unfold render_border
  rw [render_border_cols_append w n 0 (mutt_buffer_addch b '+'),
    render_border_cols_append w n 0 (mutt_buffer_addch [] '+')]
  simp [mutt_buffer_addch]

theorem render_cells_append (n : Nat) (w : List Nat) (cells : List table_cell_t)
    (col : Int) (b : BUFFER) :
    render_cells n w cells col b = (render_cells n w cells col []).map (fun t => b ++ t) := by
  induction cells generalizing col b with
  | nil => simp [render_cells]
  | cons cell rest ih =>
    unfold render_cells
    split_ifs with h1 h2
    · simp only
      rw [ih, ih (wrap32 (col + cell.colspan))
        (mutt_buffer_addch (mutt_buffer_addch (addch_times ' ' _ _) ' ') '|')]
      simp [mutt_buffer_addch, mutt_buffer_addstr, addch_times_eq, Function.comp_def]
    · rfl
    · simp

theorem render_rows_append (n : Nat) (w : List Nat) (rows : List table_row_t) (b : BUFFER) :
    render_rows n w rows b = (render_rows n w rows []).map (fun t => b ++ t) := by
  induction rows generalizing b with
  | nil => simp [render_rows]
  | cons row rest ih =>
    unfold render_rows
    simp only
    rw [render_cells_append n w row.cells 0 (mutt_buffer_addch (render_border n w b) '|'),
      render_cells_append n w row.cells 0 (mutt_buffer_addch (render_border n w []) '|')]
    cases render_cells n w row.cells 0 [] with
    | none => rfl
    | some t =>
      simp only [Option.map_some']
      rw [ih, ih (mutt_buffer_addch _ '\n'), render_border_append n w b]
      simp [mutt_buffer_addch, Function.comp_def]

theorem mutt_render_table_append (table : table_data_t) (b : BUFFER) :
    mutt_render_table table b =
      (mutt_render_table table []).map (fun r => (r.1, b ++ r.2)) := by
  unfold mutt_render_table
  by_cases h1 : table.rows = []
  · simp [h1]
  · rw [if_neg h1, if_neg h1]
    simp only
    by_cases h2 : calc_max_cols table.rows 0 = 0
    · simp [h2]
    · rw [if_neg h2, if_neg h2]
      cases calc_widths_rows (calc_max_cols table.rows 0) table.rows
          (List.replicate (calc_max_cols table.rows 0) 0) with
      | none => rfl
      | some w =>
        simp only
        rw [render_rows_append]
        cases render_rows (calc_max_cols table.rows 0) w table.rows [] with
        | none => rfl
        | some t =>
          simp only [Option.map_some', Option.some.injEq, Prod.mk.injEq, true_and]
          rw [render_border_append, render_border_append _ _ t]
          simp

theorem emit_data_table_append (node : xmlNode) (b : BUFFER) :
    emit_data_table node b = (emit_data_table node []).map (fun t => b ++ t) := by
  unfold emit_data_table
  rw [mutt_render_table_append]
  cases mutt_render_table (mutt_html_extract_table (some node) table_data_zero) [] with
  | none => rfl
  | some r => rfl

theorem wrap_loop_append (width : Int) (s : CStr) (col : Int) (b : BUFFER) :
    wrap_loop width s col b = b ++ wrap_loop width s col [] := by
  induction s generalizing col b with
  | nil => unfold wrap_loop; split_ifs <;> simp [mutt_buffer_addch]
  | cons p rest ih =>
    unfold wrap_loop
    split_ifs
    · rw [ih, ih 0 (mutt_buffer_addch [] '\n')]; simp [mutt_buffer_addch]
    · rw [ih, ih _ (mutt_buffer_addch (mutt_buffer_addch [] '\n') p)]; simp [mutt_buffer_addch]
    · rw [ih, ih _ (mutt_buffer_addch [] p)]; simp [mutt_buffer_addch]

theorem wrap_and_append_append (b : BUFFER) (s : CStr) (width : Int) :
    wrap_and_append b s width = b ++ wrap_and_append [] s width :=
  wrap_loop_append width s 0 b

theorem emit_img_eq (node : xmlNode) (b : BUFFER) :
    emit_img node b = b ++ image_marker (xmlGetProp node "alt".data) := by
  unfold emit_img image_marker
  cases h : xmlGetProp node "alt".data with
  | none => simp [mutt_buffer_addstr]
  | some alt =>
    cases alt with
    | nil => simp [mutt_buffer_addstr]
    | cons c rest => simp [mutt_buffer_addstr]

mutual
theorem extract_text_node_append (win : Option mutt_window_t) :
    ∀ (node : xmlNode) (b : BUFFER),
      extract_text_node win node b = (extract_text_node win node []).map (fun t => b ++ t)
  | .mk type name content properties children, b => by
    unfold extract_text_node
    cases type with
    | XML_TEXT_NODE =>
      cases content with
      | none => simp
      | some c =>
        simp only
        split_ifs <;> simp [mutt_buffer_addch, mutt_buffer_addstr]
    | XML_OTHER_NODE =>
      simp only
      exact extract_text_children_append win children b
    | XML_ELEMENT_NODE =>
      simp only
      split_ifs
      · cases extract_text_first win children [] with
        | none => rfl
        | some tmp =>
          simp only [Option.map_some', Option.some.injEq]
          exact wrap_and_append_append _ _ _
      · rw [emit_data_table_append]
        cases emit_data_table (.mk .XML_ELEMENT_NODE name content properties children) [] with
        | none => rfl
        | some t =>
          simp only [Option.map_some', List.append_nil]
          rw [extract_text_children_append win children (b ++ t),
            extract_text_children_append win children t]
          simp [Function.comp_def]
      · rw [emit_img_eq, emit_img_eq _ []]
        rw [extract_text_children_append win children (b ++ _),
          extract_text_children_append win children ([] ++ _)]
        simp [Function.comp_def]
      · rw [extract_text_children_append win children (mutt_buffer_addch b '\n'),
          extract_text_children_append win children (mutt_buffer_addch [] '\n')]
        simp [Function.comp_def, mutt_buffer_addch]
      · simp
      · exact extract_text_children_append win children b
      · exact extract_text_children_append win children b
theorem extract_text_children_append (win : Option mutt_window_t) :
    ∀ (children : List xmlNode) (b : BUFFER),
      extract_text_children win children b =
        (extract_text_children win children []).map (fun t => b ++ t)
  | [], b => by simp [extract_text_children]
  | child :: rest, b => by
    unfold extract_text_children
    rw [extract_text_node_append win child b]
    cases extract_text_node win child [] with
    | none => rfl
    | some t =>
      simp only [Option.map_some']
      rw [extract_text_children_append win rest (b ++ t),
        extract_text_children_append win rest t]
      simp [Function.comp_def]
end

/-! ### The branches of the walker -/

theorem extract_text_img (win : Option mutt_window_t) (content : Option CStr)
    (properties : List xmlAttr) (children : List xmlNode) (buffer : BUFFER) :
    mutt_html_extract_text win
      (some (.mk .XML_ELEMENT_NODE (some "img".data) content properties children)) buffer =
      (extract_text_children win children []).map (fun rest =>
        buffer ++ image_marker
          (xmlGetProp (.mk .XML_ELEMENT_NODE (some "img".data) content properties children)
            "alt".data) ++ rest) := by
  have h : mutt_html_extract_text win
      (some (.mk .XML_ELEMENT_NODE (some "img".data) content properties children)) buffer =
      extract_text_children win children
        (emit_img (.mk .XML_ELEMENT_NODE (some "img".data) content properties children)
          buffer) := by rfl
  rw [h, emit_img_eq, extract_text_children_append]

/-- **C7.** For every `img` element the walker emits the marker
`[Image: alt]` when the element has a non-empty `alt` attribute and the marker
`[Image]` when the attribute is missing or empty: the marker is appended to the
buffer before anything else the element gives rise to, and it is all that is
appended for an `img` without children. `alt="cat"` gives `[Image: cat]`. -/
theorem extract_text_img_marker (win : Option mutt_window_t) (content : Option CStr)
    (properties : List xmlAttr) (children : List xmlNode) (buffer : BUFFER)
    (marker : List Char)
    (hmarker :
      (∃ alt, xmlGetProp (.mk .XML_ELEMENT_NODE (some "img".data) content properties children)
          "alt".data = some alt ∧ alt ≠ [] ∧ marker = "[Image: ".data ++ alt ++ "]".data) ∨
      ((xmlGetProp (.mk .XML_ELEMENT_NODE (some "img".data) content properties children)
          "alt".data = none ∨
        xmlGetProp (.mk .XML_ELEMENT_NODE (some "img".data) content properties children)
          "alt".data = some []) ∧ marker = "[Image]".data)) :
    mutt_html_extract_text win
        (some (.mk .XML_ELEMENT_NODE (some "img".data) content properties children)) buffer =
      (extract_text_children win children []).map (fun rest => buffer ++ marker ++ rest) ∧
    (children = [] →
      mutt_html_extract_text win
        (some (.mk .XML_ELEMENT_NODE (some "img".data) content properties children)) buffer =
      some (buffer ++ marker)) ∧
    mutt_html_extract_text none (some (element "img" [("alt", "cat")] [])) [] =
      some "[Image: cat]".data ∧
    mutt_html_extract_text none (some (element "img" [] [])) [] = some "[Image]".data := by
  have hm : image_marker
      (xmlGetProp (.mk .XML_ELEMENT_NODE (some "img".data) content properties children)
        "alt".data) = marker := by
    rcases hmarker with ⟨alt, h1, h2, h3⟩ | ⟨h1 | h1, h3⟩
    · rw [h1, h3]
      cases alt with
      | nil => exact absurd rfl h2
      | cons c rest => rfl
    · rw [h1, h3]; rfl
    · rw [h1, h3]; rfl
  have h := extract_text_img win content properties children buffer
  rw [hm] at h
  refine ⟨h, ?_, by rfl, by rfl⟩
  intro hc
  rw [h, hc]
  simp [extract_text_children]

/-- Witness for `extract_text_img_marker`: `<img alt="cat"/>` walked into a
buffer that holds `ab`. -/
theorem extract_text_img_marker_witness :
    mutt_html_extract_text none (some (element "img" [("alt", "cat")] [])) "ab".data =
      some "ab[Image: cat]".data :=
  ((extract_text_img_marker none none [{ name := "alt".data, children := some "cat".data }]
    [] "ab".data "[Image: cat]".data
    (Or.inl ⟨"cat".data, by rfl, by decide, by rfl⟩)).2.1 rfl)

/-- Counterexample to C8 as stated: for an `img` element with a text child `x`
the walker appends `[Image: cat]x `, not just the marker `[Image: cat]`. -/
theorem extract_text_img_children_counterexample :
    mutt_html_extract_text none (some example_img_with_child) [] =
        some "[Image: cat]x ".data ∧
    mutt_html_extract_text none (some example_img_with_child) [] ≠
        some (image_marker (xmlGetProp example_img_with_child "alt".data)) := by
  constructor
  · rfl
  · decide

/-- **C8 (amended).** For every `img` element the text the walker appends is its
image marker followed by what the walker appends for each child of the element
in document order (the `img` branch goes on to the generic child loop); for an
`img` element without children it is exactly the marker. -/
theorem extract_text_img_then_children (win : Option mutt_window_t)
    (content : Option CStr) (properties : List xmlAttr) (children : List xmlNode)
    (buffer : BUFFER) :
    mutt_html_extract_text win
        (some (.mk .XML_ELEMENT_NODE (some "img".data) content properties children)) buffer =
      (extract_text_children win children []).map (fun rest =>
        buffer ++ image_marker
          (xmlGetProp (.mk .XML_ELEMENT_NODE (some "img".data) content properties children)
            "alt".data) ++ rest) ∧
    mutt_html_extract_text win
        (some (.mk .XML_ELEMENT_NODE (some "img".data) content properties [])) buffer =
      some (buffer ++ image_marker
          (xmlGetProp (.mk .XML_ELEMENT_NODE (some "img".data) content properties [])
            "alt".data)) := by
  refine ⟨extract_text_img win content properties children buffer, ?_⟩
  rw [extract_text_img]
  simp [extract_text_children]

theorem extract_text_layout_table (win : Option mutt_window_t) (node : xmlNode)
    (buffer : BUFFER) (htype : node.type = .XML_ELEMENT_NODE)
    (hname : node.name = some "table".data) (hlayout : is_layout_table node = true) :
    mutt_html_extract_text win (some node) buffer =
      (extract_text_first win node.children []).map (fun tmp =>
        buffer ++ wrap_and_append [] tmp (wrap_width win)) := by
  obtain ⟨type, name, content, properties, children⟩ := node
  simp only [xmlNode.type, xmlNode.name] at htype hname
  subst htype hname
  simp only [mutt_html_extract_text, xmlNode.children]
  unfold extract_text_node
  simp only [Option.isSome_some, if_true, hlayout]
  rw [if_pos (by rfl)]
  cases extract_text_first win children [] with
  | none => rfl
  | some tmp =>
    simp only [Option.map_some', Option.some.injEq]
    exact wrap_and_append_append _ _ _

/-- **C9 (the code at the failing input).** For the layout table
`<table border="0">` with the rows `a b` and `c d` the walker appends the
wrapped text of the first row only, `"\na b \n"`, whereas the wrapped walk of
every child of the table is `"\na b \nc d \n"`. -/
theorem extract_text_layout_table_first_child_only :
    is_layout_table example_layout_table = true ∧
    mutt_html_extract_text none (some example_layout_table) [] = some "\na b \n".data ∧
    (extract_text_children none example_layout_table.children []).map
        (fun tmp => wrap_and_append [] tmp (wrap_width none)) =
      some "\na b \nc d \n".data := by
  refine ⟨by decide, by rfl, by rfl⟩

/-- **C10.** For every `table` element that `is_layout_table` classifies as data
the walker appends the rendering by `mutt_render_table` of the grid that
`mutt_html_extract_table` builds from the table's subtree (starting from a
zeroed grid), and then what the generic walk appends for each child of the table
in document order: the text of the cells comes a second time after the grid. -/
theorem extract_text_data_table (win : Option mutt_window_t) (node : xmlNode)
    (buffer : BUFFER) (htype : node.type = .XML_ELEMENT_NODE)
    (hname : node.name = some "table".data) (hdata : is_layout_table node = false) :
    mutt_html_extract_text win (some node) buffer =
      (mutt_render_table (mutt_html_extract_table (some node) table_data_zero) []).bind
        (fun grid =>
          (extract_text_children win node.children []).map (fun again =>
            buffer ++ grid.2 ++ again)) := by
  obtain ⟨type, name, content, properties, children⟩ := node
  simp only [xmlNode.type, xmlNode.name] at htype hname
  subst htype hname
  simp only [mutt_html_extract_text, xmlNode.children]
  unfold extract_text_node
  simp only [Option.isSome_some, if_true, hdata]
  rw [if_pos (by rfl)]
  simp only [Bool.false_eq_true, if_false]
  rw [emit_data_table_append]
  unfold emit_data_table
  cases mutt_render_table (mutt_html_extract_table
      (some (.mk .XML_ELEMENT_NODE (some "table".data) content properties children))
      table_data_zero) [] with
  | none => rfl
  | some grid =>
    simp only [Option.map_some', Option.some_bind, List.append_nil]
    rw [extract_text_children_append]

/-- Witness for `extract_text_data_table`: the 2 × 2 data table with the cells
`a`, `b`, `c`, `d` gives the grid and then the text of the cells again. -/
theorem extract_text_data_table_witness :
    is_layout_table example_data_table = false ∧
    mutt_html_extract_text none (some example_data_table) [] =
      some ("+----+----+\n| a  | b  |\n+----+----+\n| c  | d  |\n+----+----+\n".data ++
        "\na b \nc d ".data) := by
  refine ⟨by decide, ?_⟩
  rw [extract_text_data_table none example_data_table [] (by rfl) (by rfl) (by decide)]
  rfl

/-! ## `mutt_html_to_text` -/

/-- **C11.** `mutt_html_to_text` returns `NULL` for every input that is `NULL`,
has length 0 or has length below 10, whatever the parser would return for it,
and also when the parser builds no document or the document has no root
element. -/
theorem mutt_html_to_text_absent :
    (∀ (parser : List Char → Nat → Option htmlDoc) (win : Option mutt_window_t)
        (html_content : Option (List Char)) (html_len : Nat),
      html_content = none ∨ html_len = 0 ∨ html_len < 10 →
      mutt_html_to_text parser win html_content html_len = some none) ∧
    (∀ (parser : List Char → Nat → Option htmlDoc) (win : Option mutt_window_t)
        (content : List Char) (html_len : Nat),
      parser content html_len = none ∨
        (∃ doc, parser content html_len = some doc ∧ xmlDocGetRootElement doc = none) →
      mutt_html_to_text parser win (some content) html_len = some none) := by
  constructor
  · intro parser win html_content html_len h
    unfold mutt_html_to_text
    rcases h with h | h | h
    · simp [h]
    · simp [h]
    · by_cases h1 : html_content.isNone = true ∨ html_len = 0
      · rw [if_pos h1]
      · rw [if_neg h1, if_pos h]
  · intro parser win content html_len h
    unfold mutt_html_to_text
    split_ifs
    · rfl
    · rfl
    · rcases h with h | ⟨doc, h, hroot⟩
      · simp [h]
      · simp [h, hroot]

/-- Witness for `mutt_html_to_text_absent`: a 9-byte input with a parser that
would return a document, and a 12-byte input whose document has no root. -/
theorem mutt_html_to_text_absent_witness :
    mutt_html_to_text (parser_giving (some { children := [example_quiet_tree] })) none
        (some "<p>hi</p>".data) 9 = some none ∧
    mutt_html_to_text (parser_giving (some { children := [text_node "hi"] })) none
        (some "            ".data) 12 = some none :=
  ⟨mutt_html_to_text_absent.1 _ none _ 9 (Or.inr (Or.inr (by decide))),
   mutt_html_to_text_absent.2 (parser_giving (some { children := [text_node "hi"] })) none
     "            ".data 12 (Or.inr ⟨{ children := [text_node "hi"] }, rfl, by rfl⟩)⟩

theorem collapse_loop_eq_nil_iff (W : CStr) : collapse_loop W [] 0 = [] ↔ W = [] := by
  cases W with
  | nil => simp [collapse_loop]
  | cons c rest =>
    rw [collapse_loop_nil_cons]
    split_ifs <;> simp_all

theorem mutt_html_to_text_of_walk (parser : List Char → Nat → Option htmlDoc)
    (win : Option mutt_window_t) (content : List Char) (html_len : Nat) (doc : htmlDoc)
    (root : xmlNode) (W : CStr) (hlen : 10 ≤ html_len)
    (hdoc : parser content html_len = some doc) (hroot : xmlDocGetRootElement doc = some root)
    (hW : mutt_html_extract_text win (some root) [] = some W) :
    mutt_html_to_text parser win (some content) html_len =
      some (if W = [] then none else some (collapse_loop W [] 0)) := by
  unfold mutt_html_to_text
  rw [if_neg (by simp; omega), if_neg (by omega)]
  simp only [Option.getD_some, hdoc, hroot, hW]
  cases W with
  | nil => simp [safe_strdup]
  | cons c rest => simp [safe_strdup, collapse_blank_lines]

/-- **C12.** For an input of length at least 10 that the parser turns into a
document with a root, with `W` the walker's output for the root into a fresh
buffer, `mutt_html_to_text` returns `NULL` when the collapsed text is empty and
`collapse_blank_lines(W)` otherwise; the collapsed text is empty exactly when
`W` is, and a returned text is never the empty string. -/
theorem mutt_html_to_text_collapsed (parser : List Char → Nat → Option htmlDoc)
    (win : Option mutt_window_t) (content : List Char) (html_len : Nat) (doc : htmlDoc)
    (root : xmlNode) (W : CStr) (hlen : 10 ≤ html_len)
    (hdoc : parser content html_len = some doc) (hroot : xmlDocGetRootElement doc = some root)
    (hW : mutt_html_extract_text win (some root) [] = some W) :
    (collapse_blank_lines (some W) = some [] ↔ W = []) ∧
    (collapse_blank_lines (some W) = some [] →
      mutt_html_to_text parser win (some content) html_len = some none) ∧
    (collapse_blank_lines (some W) ≠ some [] →
      mutt_html_to_text parser win (some content) html_len =
        some (collapse_blank_lines (some W))) ∧
    mutt_html_to_text parser win (some content) html_len ≠ some (some []) := by
  have h := mutt_html_to_text_of_walk parser win content html_len doc root W hlen hdoc hroot hW
  have hiff : collapse_blank_lines (some W) = some [] ↔ W = [] := by
    simp [collapse_blank_lines, collapse_loop_eq_nil_iff]
  refine ⟨hiff, ?_, ?_, ?_⟩
  · intro h1
    rw [h, if_pos (hiff.mp h1)]
  · intro h1
    rw [h, if_neg (fun h2 => h1 (hiff.mpr h2))]
    rfl
  · rw [h]
    by_cases hW0 : W = []
    · simp [hW0]
    · simp [hW0, collapse_loop_eq_nil_iff]

/-- Witness for `mutt_html_to_text_collapsed`: the document
`<body><script>x</script><p>hi</p></body>`, whose walk gives `"\nhi "`. -/
theorem mutt_html_to_text_collapsed_witness :
    mutt_html_to_text (parser_giving (some { children := [example_script_then_p] })) none
      (some "<script>x</script><p>hi</p>".data) 27 = some (some "\nhi ".data) :=
  (mutt_html_to_text_collapsed (parser_giving (some { children := [example_script_then_p] }))
    none "<script>x</script><p>hi</p>".data 27 { children := [example_script_then_p] }
    example_script_then_p "\nhi ".data (by decide) rfl (by rfl) (by rfl)).2.2.1 (by decide)

mutual
theorem extract_text_node_quiet (win : Option mutt_window_t) :
    ∀ (node : xmlNode) (b : BUFFER), all_nodes is_quiet_node node = true →
      extract_text_node win node b = some b
  | .mk type name content properties children, b, h => by
    unfold all_nodes at h
    rw [Bool.and_eq_true] at h
    obtain ⟨hq, hc⟩ := h
    have ih := extract_text_children_quiet win children b hc
    unfold extract_text_node
    cases type with
    | XML_TEXT_NODE =>
      cases content with
      | none => rfl
      | some c =>
        have hall : c.dropWhile isspace = [] := by
          rw [List.dropWhile_eq_nil_iff]
          simpa [is_quiet_node, xmlNode.type, xmlNode.content] using hq
        simp [hall]
    | XML_OTHER_NODE => exact ih
    | XML_ELEMENT_NODE =>
      simp only [is_quiet_node, xmlNode.type, Bool.and_eq_true, Bool.not_eq_true',
        Bool.not_eq_eq_eq_not, Bool.not_true] at hq
      obtain ⟨⟨h1, h2⟩, h3⟩ := hq
      simp only [h1, h2, h3, Bool.false_eq_true, if_false, ih]
      split_ifs <;> rfl
theorem extract_text_children_quiet (win : Option mutt_window_t) :
    ∀ (children : List xmlNode) (b : BUFFER), all_nodes_list is_quiet_node children = true →
      extract_text_children win children b = some b
  | [], b, _ => by simp [extract_text_children]
  | child :: rest, b, h => by
    unfold all_nodes_list at h
    rw [Bool.and_eq_true] at h
    unfold extract_text_children
    rw [extract_text_node_quiet win child b h.1]
    exact extract_text_children_quiet win rest b h.2
end

/-- **C13.** For every tree in which every text node is absent, empty or all
white space and no element is a block element, a table or an `img`, the walker
appends nothing; so `mutt_html_to_text` on a document with such a root
returns `NULL`, not an empty string. -/
theorem extract_text_quiet_tree :
    (∀ (win : Option mutt_window_t) (root : xmlNode) (buffer : BUFFER),
      all_nodes is_quiet_node root = true →
      mutt_html_extract_text win (some root) buffer = some buffer) ∧
    (∀ (parser : List Char → Nat → Option htmlDoc) (win : Option mutt_window_t)
        (content : List Char) (html_len : Nat) (doc : htmlDoc) (root : xmlNode),
      10 ≤ html_len → parser content html_len = some doc →
      xmlDocGetRootElement doc = some root → all_nodes is_quiet_node root = true →
      mutt_html_to_text parser win (some content) html_len = some none) := by
  constructor
  · intro win root buffer h
    exact extract_text_node_quiet win root buffer h
  · intro parser win content html_len doc root hlen hdoc hroot h
    rw [mutt_html_to_text_of_walk parser win content html_len doc root [] hlen hdoc hroot
      (extract_text_node_quiet win root [] h)]
    rfl

/-- Witness for `extract_text_quiet_tree`: a document whose only text is white
space inside a `span`. -/
theorem extract_text_quiet_tree_witness :
    all_nodes is_quiet_node example_quiet_tree = true ∧
    mutt_html_extract_text none (some example_quiet_tree) "ab".data = some "ab".data ∧
    mutt_html_to_text (parser_giving (some { children := [example_quiet_tree] })) none
      (some "<html><head><meta charset=\"x\"></head><body><span> \n</span></body></html>".data)
      73 = some none :=
  ⟨by decide,
   extract_text_quiet_tree.1 none example_quiet_tree "ab".data (by decide),
   extract_text_quiet_tree.2 (parser_giving (some { children := [example_quiet_tree] })) none
     _ 73 { children := [example_quiet_tree] } example_quiet_tree (by decide) rfl (by rfl)
     (by decide)⟩

/-! ## `mutt_html_extract_table` -/

theorem add_cell_to_row_inv (P : table_cell_t → Prop) (i : Nat) (cell : table_cell_t)
    (rows : List table_row_t) (hcell : P cell)
    (hrows : ∀ r ∈ rows, ∀ c ∈ r.cells, P c) :
    ∀ r ∈ add_cell_to_row i cell rows, ∀ c ∈ r.cells, P c := by
  induction rows generalizing i with
  | nil => simp [add_cell_to_row]
  | cons row rest ih =>
    have hrow : ∀ c ∈ row.cells, P c := hrows row (List.mem_cons_self _ _)
    have hrest : ∀ r ∈ rest, ∀ c ∈ r.cells, P c :=
      fun r hr => hrows r (List.mem_cons_of_mem _ hr)
    cases i with
    | zero =>
      intro r hr c hc
      simp only [add_cell_to_row, List.mem_cons] at hr
      rcases hr with hr | hr
      · subst hr
        simp only [List.mem_append, List.mem_singleton] at hc
        rcases hc with hc | hc
        · exact hrow c hc
        · subst hc; exact hcell
      · exact hrest r hr c hc
    | succ i =>
      intro r hr c hc
      simp only [add_cell_to_row, List.mem_cons] at hr
      rcases hr with hr | hr
      · subst hr; exact hrow c hc
      · exact ih i hrest r hr c hc

theorem extract_table_visit_inv (P : table_cell_t → Prop) (node : xmlNode)
    (table : table_data_t) (hcell : is_td_th node = true → P (cell_of_node node))
    (hrows : ∀ r ∈ table.rows, ∀ c ∈ r.cells, P c) :
    ∀ r ∈ (extract_table_visit node table).rows, ∀ c ∈ r.cells, P c := by
  unfold extract_table_visit
  split_ifs with h1 h2 h3 h4 h5
  · simp
  · intro r hr c hc
    simp only [List.mem_append, List.mem_singleton] at hr
    rcases hr with hr | hr
    · exact hrows r hr c hc
    · subst hr; simp at hc
  · have htd : is_td_th node = true := by
      simp only [name_is, decide_eq_true_eq] at h4
      simp [is_td_th, h1.1, h4]
    exact add_cell_to_row_inv P _ _ _ (hcell htd) hrows
  · exact hrows
  · exact hrows
  · exact hrows

mutual
theorem extract_table_node_inv (P : table_cell_t → Prop) (q : xmlNode → Bool)
    (hq : ∀ node, q node = true → is_td_th node = true → P (cell_of_node node)) :
    ∀ (node : xmlNode) (table : table_data_t), all_nodes q node = true →
      (∀ r ∈ table.rows, ∀ c ∈ r.cells, P c) →
      ∀ r ∈ (extract_table_node node table).rows, ∀ c ∈ r.cells, P c
  | .mk type name content properties children, table, h, hrows => by
    unfold all_nodes at h
    rw [Bool.and_eq_true] at h
    unfold extract_table_node
    exact extract_table_children_inv P q hq children _ h.2
      (extract_table_visit_inv P _ table (hq _ h.1) hrows)
theorem extract_table_children_inv (P : table_cell_t → Prop) (q : xmlNode → Bool)
    (hq : ∀ node, q node = true → is_td_th node = true → P (cell_of_node node)) :
    ∀ (children : List xmlNode) (table : table_data_t), all_nodes_list q children = true →
      (∀ r ∈ table.rows, ∀ c ∈ r.cells, P c) →
      ∀ r ∈ (extract_table_children children table).rows, ∀ c ∈ r.cells, P c
  | [], table, _, hrows => by simpa [extract_table_children] using hrows
  | child :: rest, table, h, hrows => by
    unfold all_nodes_list at h
    rw [Bool.and_eq_true] at h
    unfold extract_table_children
    exact extract_table_children_inv P q hq rest _ h.2
      (extract_table_node_inv P q hq child table h.1 hrows)
end

theorem read_spans_positive (attrs : List xmlAttr) (cell : table_cell_t)
    (hattrs : ∀ a ∈ attrs,
      (a.name = "colspan".data ∨ a.name = "rowspan".data) → a.children.isSome = true →
        1 ≤ atoi (a.children.getD []))
    (hcell : 1 ≤ cell.colspan ∧ 1 ≤ cell.rowspan) :
    1 ≤ (read_spans attrs cell).colspan ∧ 1 ≤ (read_spans attrs cell).rowspan := by
  induction attrs generalizing cell with
  | nil => simpa [read_spans] using hcell
  | cons a rest ih =>
    have ha := hattrs a (List.mem_cons_self _ _)
    have hrest : ∀ a ∈ rest,
        (a.name = "colspan".data ∨ a.name = "rowspan".data) → a.children.isSome = true →
          1 ≤ atoi (a.children.getD []) := fun a h => hattrs a (List.mem_cons_of_mem _ h)
    unfold read_spans
    split_ifs with h1 h2
    · exact ih _ hrest ⟨ha (Or.inl h1.1) h1.2, hcell.2⟩
    · exact ih _ hrest ⟨hcell.1, ha (Or.inr h2.1) h2.2⟩
    · exact ih _ hrest hcell

/-- Counterexample to C14 as stated: the cell built for
`<td colspan="0" rowspan="-2">` has colspan 0 and rowspan -2; nothing clamps
them to 1. -/
theorem extract_table_spans_not_clamped :
    (mutt_html_extract_table (some example_nonpositive_spans) table_data_zero).rows =
      [{ cells := [{ content := some "a ".data, colspan := 0, rowspan := -2 }],
         cell_count := 1 }] ∧
    ¬ (∀ r ∈ (mutt_html_extract_table (some example_nonpositive_spans) table_data_zero).rows,
        ∀ c ∈ r.cells, 1 ≤ c.colspan ∧ 1 ≤ c.rowspan) := by
  have h : (mutt_html_extract_table (some example_nonpositive_spans) table_data_zero).rows =
      [{ cells := [{ content := some "a ".data, colspan := 0, rowspan := -2 }],
         cell_count := 1 }] := by rfl
  refine ⟨h, ?_⟩
  rw [h]
  intro hall
  have := hall _ (List.mem_cons_self _ _) _ (List.mem_cons_self _ _)
  simp at this

/-- **C14 (amended).** Every cell that `mutt_html_extract_table` puts into the grid
has colspan ≥ 1 and rowspan ≥ 1 when, in every `td`/`th` element of the tree,
each `colspan` and `rowspan` attribute that has a value parses (`atoi`) to a
number that is at least 1. -/
theorem extract_table_spans_positive (root : xmlNode) (table : table_data_t)
    (hroot : all_nodes cell_spans_positive root = true)
    (htable : ∀ r ∈ table.rows, ∀ c ∈ r.cells, 1 ≤ c.colspan ∧ 1 ≤ c.rowspan) :
    ∀ r ∈ (mutt_html_extract_table (some root) table).rows,
      ∀ c ∈ r.cells, 1 ≤ c.colspan ∧ 1 ≤ c.rowspan := by
  apply extract_table_node_inv (fun c => 1 ≤ c.colspan ∧ 1 ≤ c.rowspan) cell_spans_positive
    _ root table hroot htable
  intro node hq htd
  simp only [cell_spans_positive, htd, Bool.not_true, Bool.false_or, spans_positive,
    List.all_eq_true, Bool.or_eq_true, Bool.not_eq_true', Bool.and_eq_false_imp,
    decide_eq_true_eq] at hq
  apply read_spans_positive
  · intro a ha hname hsome
    rcases hq a ha with h | h
    · rcases hname with hn | hn
      · have := h (Or.inl hn); simp [hsome] at this
      · have := h (Or.inr hn); simp [hsome] at this
    · exact h
  · simp

/-- Witness for `extract_table_spans_positive`: the grid of
`<table><tr><td colspan="2" rowspan="3">a</td><th>b</th></tr></table>`. -/
theorem extract_table_spans_positive_witness :
    (mutt_html_extract_table (some example_positive_spans) table_data_zero).rows =
      [{ cells := [{ content := some "a ".data, colspan := 2, rowspan := 3 },
                   { content := some "b ".data, colspan := 1, rowspan := 1 }],
         cell_count := 2 }] ∧
    ∀ r ∈ (mutt_html_extract_table (some example_positive_spans) table_data_zero).rows,
      ∀ c ∈ r.cells, 1 ≤ c.colspan ∧ 1 ≤ c.rowspan :=
  ⟨by rfl, extract_table_spans_positive example_positive_spans table_data_zero (by decide)
    (by simp [table_data_zero])⟩

theorem attribute_value_cons (name : CStr) (a : xmlAttr) (rest : List xmlAttr) :
    attribute_value name (a :: rest) =
      match attribute_value name rest with
      | some v => some v
      | none => if a.name = name ∧ a.children.isSome = true then a.children else none := by
  unfold attribute_value
  by_cases h : a.name = name ∧ a.children.isSome = true
  · have hp : (decide (a.name = name) && a.children.isSome) = true := by simp [h]
    rw [List.filter_cons, if_pos hp, if_pos h]
    cases hf : List.filter (fun a => decide (a.name = name) && a.children.isSome) rest with
    | nil => simp
    | cons x xs =>
      have hx : (x :: xs).getLast? = some ((x :: xs).getLast (by simp)) :=
        List.getLast?_eq_getLast _ _
      have hmem : (x :: xs).getLast (by simp) ∈
          List.filter (fun a => decide (a.name = name) && a.children.isSome) rest := by
        rw [hf]; exact List.getLast_mem _
      have hsome := (List.mem_filter.mp hmem).2
      simp only [Bool.and_eq_true, decide_eq_true_eq] at hsome
      rw [List.getLast?_cons_cons, hx]
      simp only [Option.some_bind]
      obtain ⟨v, hv⟩ := Option.isSome_iff_exists.mp hsome.2
      rw [hv]
  · have hp : ¬ (decide (a.name = name) && a.children.isSome) = true := by
      simpa using h
    rw [List.filter_cons, if_neg hp, if_neg h]
    cases ((List.filter (fun a => decide (a.name = name) && a.children.isSome) rest).getLast?).bind
        (fun a => a.children) <;> rfl

theorem read_spans_eq (attrs : List xmlAttr) (cell : table_cell_t) :
    read_spans attrs cell =
      { content := cell.content
        colspan := match attribute_value "colspan".data attrs with
          | some v => atoi v
          | none => cell.colspan
        rowspan := match attribute_value "rowspan".data attrs with
          | some v => atoi v
          | none => cell.rowspan } := by
  induction attrs generalizing cell with
  | nil => simp [read_spans, attribute_value]
  | cons a rest ih =>
    unfold read_spans
    rw [attribute_value_cons, attribute_value_cons]
    have hne : ∀ n : CStr, n = "colspan".data → n ≠ "rowspan".data := by
      intro n h1 h2; rw [h1] at h2; exact absurd h2 (by decide)
    by_cases h1 : a.name = "colspan".data ∧ a.children.isSome = true
    · have h3 : ¬ (a.name = "rowspan".data ∧ a.children.isSome = true) :=
        fun h => hne _ h1.1 h.1
      obtain ⟨v, hv⟩ := Option.isSome_iff_exists.mp h1.2
      rw [if_pos h1, if_pos h1, if_neg h3, ih, hv]
      cases attribute_value "colspan".data rest <;>
        cases attribute_value "rowspan".data rest <;> rfl
    · by_cases h2 : a.name = "rowspan".data ∧ a.children.isSome = true
      · obtain ⟨v, hv⟩ := Option.isSome_iff_exists.mp h2.2
        rw [if_neg h1, if_neg h1, if_pos h2, if_pos h2, ih, hv]
        cases attribute_value "colspan".data rest <;>
          cases attribute_value "rowspan".data rest <;> rfl
      · rw [if_neg h1, if_neg h1, if_neg h2, if_neg h2, ih]
        cases attribute_value "colspan".data rest <;>
          cases attribute_value "rowspan".data rest <;> rfl

/-- Counterexample to C15 as stated: the cell built for
`<td colspan="abc" rowspan="">` has colspan 0 and rowspan 0, not 1. -/
theorem extract_table_nonnumeric_span_counterexample :
    (mutt_html_extract_table (some example_nonnumeric_spans) table_data_zero).rows =
      [{ cells := [{ content := some "a ".data, colspan := 0, rowspan := 0 }],
         cell_count := 1 }] := by
  rfl

/-- **C15 (amended).** For every `td`/`th` element met while the grid has a row,
`mutt_html_extract_table` links to the current row the cell whose content is
`mutt_extract_cell_text` of the element and whose colspan (respectively
rowspan) is 1 when the element has no `colspan` (`rowspan`) attribute with a
value, and otherwise `atoi` of the value of the last such attribute; `atoi`
gives 0 for the non-numeric values `"abc"` and `""`. -/
theorem extract_table_cell_spans :
    (∀ (node : xmlNode) (table : table_data_t),
      is_td_th node = true → table.rows ≠ [] →
      (extract_table_visit node table).rows =
          add_cell_to_row (table.row_count - 1) (cell_of_node node) table.rows ∧
      (cell_of_node node).content = mutt_extract_cell_text (some node) ∧
      (cell_of_node node).colspan =
        (match attribute_value "colspan".data node.properties with
          | some v => atoi v
          | none => 1) ∧
      (cell_of_node node).rowspan =
        (match attribute_value "rowspan".data node.properties with
          | some v => atoi v
          | none => 1)) ∧
    (∀ (name : CStr) (properties : List xmlAttr),
      (∀ a ∈ properties, a.name = name → a.children = none) →
      attribute_value name properties = none) ∧
    atoi "abc".data = 0 ∧ atoi "".data = 0 := by
  refine ⟨?_, ?_, by decide, by decide⟩
  · intro node table htd hrows
    refine ⟨?_, ?_, ?_, ?_⟩
    · simp only [is_td_th, Bool.and_eq_true, decide_eq_true_eq, Bool.or_eq_true] at htd
      unfold extract_table_visit
      have h1 : node.type = .XML_ELEMENT_NODE ∧ node.name.isSome = true := by
        refine ⟨htd.1, ?_⟩
        rcases htd.2 with h | h <;> simp [h]
      have h2 : ¬ name_is node "table".data = true := by
        rcases htd.2 with h | h <;> simp [name_is, h]
      have h3 : ¬ name_is node "tr".data = true := by
        rcases htd.2 with h | h <;> simp [name_is, h]
      have h4 : name_is node "td".data = true ∨ name_is node "th".data = true := by
        rcases htd.2 with h | h <;> simp [name_is, h]
      rw [if_pos h1, if_neg h2, if_neg h3, if_pos h4, if_pos hrows]
      rfl
    · simp [cell_of_node, read_spans_eq]
    · simp [cell_of_node, read_spans_eq]
    · simp [cell_of_node, read_spans_eq]
  · intro name properties h
    unfold attribute_value
    have : List.filter (fun a => decide (a.name = name) && a.children.isSome) properties = [] := by
      rw [List.filter_eq_nil_iff]
      intro a ha
      by_cases hn : a.name = name
      · simp [h a ha hn]
      · simp [hn]
    rw [this]
    rfl

/-- Witness for `extract_table_cell_spans`: a `td` with `colspan="abc"` met
while the grid has one empty row. -/
theorem extract_table_cell_spans_witness :
    (extract_table_visit (element "td" [("colspan", "abc")] [text_node "a"])
        { rows := [{ cells := [], cell_count := 0 }], row_count := 1, max_cols := 0,
          col_widths := none }).rows =
      [{ cells := [{ content := some "a ".data, colspan := 0, rowspan := 1 }],
         cell_count := 1 }] :=
  (extract_table_cell_spans.1 (element "td" [("colspan", "abc")] [text_node "a"])
    { rows := [{ cells := [], cell_count := 0 }], row_count := 1, max_cols := 0,
      col_widths := none } (by decide) (by decide)).1

/-- **C16 (the code at the failing inputs).** For the data table whose first cell
has `colspan="-1"` the column cursor becomes -1 after the first cell, and the
width pass then accesses `col_widths[-1]`: the renderer, and with it the
walker, leaves the vector. The same happens by overflow of the cursor for a
cell with `colspan="2147483647"` that starts at column 1. -/
theorem mutt_render_table_out_of_bounds :
    is_layout_table example_negative_colspan = false ∧
    ((mutt_html_extract_table (some example_negative_colspan) table_data_zero).rows.map
        (fun r => r.cells.map (fun c => c.colspan))) = [[-1, 1], [1, 1]] ∧
    wrap32 (0 + (-1)) = -1 ∧
    calc_widths_cells 2 [{ content := some "b ".data, colspan := 1, rowspan := 1 }] (-1) [2, 0]
      = none ∧
    mutt_render_table (mutt_html_extract_table (some example_negative_colspan) table_data_zero)
      [] = none ∧
    mutt_html_extract_text none (some example_negative_colspan) [] = none ∧
    is_layout_table example_huge_colspan = false ∧
    wrap32 (1 + 2147483647) = -2147483648 ∧
    mutt_render_table (mutt_html_extract_table (some example_huge_colspan) table_data_zero)
      [] = none ∧
    mutt_html_extract_text none (some example_huge_colspan) [] = none := by
  refine ⟨by decide, by rfl, by decide, by rfl, by rfl, by rfl, by decide, by decide,
    by rfl, by rfl⟩

/-! ## Text nodes -/

theorem dropWhile_isspace_append (ws rest : List Char) (hws : ∀ ch ∈ ws, isspace ch = true)
    (hrest : ∀ ch, rest.head? = some ch → isspace ch = false) :
    (ws ++ rest).dropWhile isspace = rest := by
  induction ws with
  | nil =>
    cases rest with
    | nil => rfl
    | cons c r =>
      have := hrest c rfl
      simp [List.dropWhile_cons, this]
  | cons w ws ih =>
    have hw := hws w (List.mem_cons_self _ _)
    simp only [List.cons_append, List.dropWhile_cons, hw, if_true]
    exact ih (fun ch h => hws ch (List.mem_cons_of_mem _ h))

theorem extract_cell_text_single_text (tag : Option CStr) (properties : List xmlAttr)
    (name : Option CStr) (ws rest : List Char) (hws : ∀ ch ∈ ws, isspace ch = true)
    (hrest : ∀ ch, rest.head? = some ch → isspace ch = false) (hne : rest ≠ []) :
    mutt_extract_cell_text
        (some (.mk .XML_ELEMENT_NODE tag none properties
          [.mk .XML_TEXT_NODE name (some (ws ++ rest)) [] []])) =
      some (rest ++ [' ']) := by
  simp only [mutt_extract_cell_text]
  unfold extract_cell_text_node extract_cell_text_loop
  simp only [xmlNode.type, xmlNode.content, Option.isSome_some, and_self, if_true,
    Option.getD_some, dropWhile_isspace_append ws rest hws hrest, ne_eq, hne,
    not_false_eq_true]
  unfold extract_cell_text_loop
  cases rest with
  | nil => exact absurd rfl hne
  | cons c r => simp [mutt_buffer_addch, mutt_buffer_addstr, safe_strdup]

/-- **C17 (the code at the failing input).** For a cell whose only child is the text
node `"a "`, `mutt_extract_cell_text` returns `"a  "`: the trailing space of
the text is kept and the separator space added. For the text `" a \n"` it returns
`"a \n "`: only the leading white space is removed. -/
theorem extract_cell_text_keeps_trailing_space :
    mutt_extract_cell_text (some (element "td" [] [text_node "a "])) = some "a  ".data ∧
    mutt_extract_cell_text (some (element "td" [] [text_node " a \n"])) =
      some "a \n ".data := by
  constructor <;> rfl

/-- **C20.** For a text node whose payload is the white space `ws` followed by
`rest`, `rest` not starting with white space, the walker appends nothing when
`rest` is empty and otherwise `rest` (its trailing white space kept) followed by
exactly one space; a text node without payload appends nothing. -/
theorem extract_text_text_node :
    (∀ (win : Option mutt_window_t) (name : Option CStr) (properties : List xmlAttr)
        (children : List xmlNode) (buffer : BUFFER) (ws rest : List Char),
      (∀ ch ∈ ws, isspace ch = true) →
      (∀ ch, rest.head? = some ch → isspace ch = false) →
      mutt_html_extract_text win
          (some (.mk .XML_TEXT_NODE name (some (ws ++ rest)) properties children)) buffer =
        some (if rest = [] then buffer else buffer ++ rest ++ [' '])) ∧
    (∀ (win : Option mutt_window_t) (name : Option CStr) (properties : List xmlAttr)
        (children : List xmlNode) (buffer : BUFFER),
      mutt_html_extract_text win
          (some (.mk .XML_TEXT_NODE name none properties children)) buffer = some buffer) ∧
    mutt_html_extract_text none (some (text_node " \t hi  ")) "ab".data =
      some "abhi   ".data := by
  refine ⟨?_, ?_, by rfl⟩
  · intro win name properties children buffer ws rest hws hrest
    simp only [mutt_html_extract_text]
    unfold extract_text_node
    simp only [dropWhile_isspace_append ws rest hws hrest, ne_eq, ite_not,
      mutt_buffer_addch, mutt_buffer_addstr]
    split_ifs <;> rfl
  · intro win name properties children buffer
    rfl

/-- Witness for `extract_text_text_node`: the payload `" \t hi  "` is the white
space `" \t "` followed by `"hi  "`. -/
theorem extract_text_text_node_witness :
    mutt_html_extract_text none
        (some (.mk .XML_TEXT_NODE (some "text".data) (some (" \t ".data ++ "hi  ".data)) [] []))
        "ab".data =
      some (if "hi  ".data = [] then "ab".data else "ab".data ++ "hi  ".data ++ [' ']) :=
  extract_text_text_node.1 none (some "text".data) [] [] "ab".data " \t ".data "hi  ".data
    (by decide) (by decide)

/-- **C19.** For every node and every initial buffer content `b`, the walker
leaves `b` at the front of the buffer and what it appends does not depend on
`b`: the result for `b` is `b` followed by the result for the empty buffer, and
the walk fails for `b` exactly when it fails for the empty buffer. -/
theorem extract_text_frame :
    (∀ (win : Option mutt_window_t) (node : Option xmlNode) (b : BUFFER),
      mutt_html_extract_text win node b =
        (mutt_html_extract_text win node []).map (fun appended => b ++ appended)) ∧
    (∀ (win : Option mutt_window_t) (node : Option xmlNode) (b out : BUFFER),
      mutt_html_extract_text win node b = some out →
      ∃ appended, out = b ++ appended ∧
        ∀ b2, mutt_html_extract_text win node b2 = some (b2 ++ appended)) := by
  have h1 : ∀ (win : Option mutt_window_t) (node : Option xmlNode) (b : BUFFER),
      mutt_html_extract_text win node b =
        (mutt_html_extract_text win node []).map (fun appended => b ++ appended) := by
    intro win node b
    cases node with
    | none => simp [mutt_html_extract_text]
    | some n => exact extract_text_node_append win n b
  refine ⟨h1, ?_⟩
  intro win node b out hout
  rw [h1] at hout
  cases h0 : mutt_html_extract_text win node [] with
  | none => rw [h0] at hout; simp at hout
  | some appended =>
    rw [h0] at hout
    simp only [Option.map_some', Option.some.injEq] at hout
    refine ⟨appended, hout.symm, fun b2 => ?_⟩
    rw [h1, h0]
    rfl

/-- Witness for `extract_text_frame`: the tree
`<body><script>x</script><p>hi</p></body>` walked into a buffer that holds
`ab`. -/
theorem extract_text_frame_witness :
    ∃ appended, "ab\nhi ".data = "ab".data ++ appended ∧
      ∀ b2, mutt_html_extract_text none (some example_script_then_p) b2 =
        some (b2 ++ appended) :=
  extract_text_frame.2 none (some example_script_then_p) "ab".data "ab\nhi ".data (by rfl)

/-! ## Column widths with spans -/

theorem foldr_max_append (l1 l2 : List Nat) :
    (l1 ++ l2).foldr max 0 = max (l1.foldr max 0) (l2.foldr max 0) := by
  induction l1 with
  | nil => simp
  | cons x l1 ih => simp [ih, max_assoc]

theorem max_len_at_append (s1 s2 : List (Int × table_cell_t)) (c : Nat) :
    max_len_at (s1 ++ s2) c = max (max_len_at s1 c) (max_len_at s2 c) := by
  unfold max_len_at
  rw [List.filter_append, List.map_append, foldr_max_append]

theorem max_len_at_cons (p : Int × table_cell_t) (s : List (Int × table_cell_t)) (c : Nat) :
    max_len_at (p :: s) c =
      if p.1 = (c : Int) then max (content_len p.2) (max_len_at s c) else max_len_at s c := by
  unfold max_len_at
  rw [List.filter_cons]
  by_cases h : p.1 = (c : Int)
  · simp [h]
  · simp [h]

theorem start_columns_ge (cells : List table_cell_t) (col : Int)
    (hspan : ∀ cell ∈ cells, 0 ≤ cell.colspan) :
    ∀ p ∈ start_columns cells col, col ≤ p.1 := by
  induction cells generalizing col with
  | nil => simp [start_columns]
  | cons cell rest ih =>
    have h0 := hspan cell (List.mem_cons_self _ _)
    intro p hp
    simp only [start_columns, List.mem_cons] at hp
    rcases hp with hp | hp
    · subst hp; exact le_refl _
    · have := ih (col + cell.colspan) (fun c hc => hspan c (List.mem_cons_of_mem _ hc)) p hp
      omega

theorem max_len_at_of_ge (cells : List table_cell_t) (col : Int) (c : Nat)
    (hspan : ∀ cell ∈ cells, 0 ≤ cell.colspan) (hc : (c : Int) < col) :
    max_len_at (start_columns cells col) c = 0 := by
  unfold max_len_at
  have : (start_columns cells col).filter (fun p => decide (p.1 = (c : Int))) = [] := by
    rw [List.filter_eq_nil_iff]
    intro p hp
    have := start_columns_ge cells col hspan p hp
    simp only [decide_eq_true_eq]
    omega
  rw [this]
  rfl

theorem getD_set_max (w : List Nat) (i c len : Nat) (hi : i < w.length) :
    (if len > w.getD i 0 then w.set i len else w).getD c 0 =
      if c = i then max (w.getD i 0) len else w.getD c 0 := by
  by_cases hc : c = i
  · subst hc
    rw [if_pos rfl]
    split_ifs with h
    · rw [List.getD_eq_getElem?_getD, List.getElem?_set_self hi, Option.getD_some]
      omega
    · omega
  · rw [if_neg hc]
    split_ifs with h
    · simp only [List.getD_eq_getElem?_getD]
      rw [List.getElem?_set_ne (fun h => hc h.symm)]
    · rfl

theorem calc_widths_cells_spans (m : Nat) (cells : List table_cell_t) (col : Int)
    (w : List Nat) (hcol : 0 ≤ col) (hw : w.length = m)
    (hspan : ∀ cell ∈ cells, 0 ≤ cell.colspan ∧ cell.colspan + (m : Int) ≤ 2 ^ 31) :
    ∃ w1, calc_widths_cells m cells col w = some w1 ∧ w1.length = m ∧
      ∀ c < m, w1.getD c 0 = max (w.getD c 0) (max_len_at (start_columns cells col) c) := by
  induction cells generalizing col w with
  | nil => exact ⟨w, rfl, hw, fun c _ => by simp [start_columns, max_len_at]⟩
  | cons cell rest ih =>
    have hs := hspan cell (List.mem_cons_self _ _)
    have hrest : ∀ cell ∈ rest, 0 ≤ cell.colspan ∧ cell.colspan + (m : Int) ≤ 2 ^ 31 :=
      fun c hc => hspan c (List.mem_cons_of_mem _ hc)
    have hnonneg : ∀ c ∈ cell :: rest, 0 ≤ c.colspan := fun c hc => (hspan c hc).1
    unfold calc_widths_cells
    by_cases h1 : col < (m : Int)
    · rw [if_pos h1, if_pos hcol]
      have hwrap : wrap32 (col + cell.colspan) = col + cell.colspan :=
        wrap32_of_range _ (by omega) (by omega)
      have hi : col.toNat < w.length := by omega
      simp only [hwrap]
      obtain ⟨w1, h2, h3, h4⟩ := ih (col + cell.colspan)
        (if content_len cell > w.getD col.toNat 0 then w.set col.toNat (content_len cell) else w)
        (by omega) (by split_ifs <;> simp [hw]) hrest
      refine ⟨w1, h2, h3, fun c hc => ?_⟩
      rw [h4 c hc, getD_set_max w col.toNat c (content_len cell) hi, start_columns,
        max_len_at_cons]
      simp only
      by_cases hcc : c = col.toNat
      · have : col = (c : Int) := by omega
        rw [if_pos hcc, if_pos this, ← hcc, max_assoc]
      · have : ¬ col = (c : Int) := by omega
        rw [if_neg hcc, if_neg this]
    · rw [if_neg h1]
      refine ⟨w, rfl, hw, fun c hc => ?_⟩
      rw [max_len_at_of_ge (cell :: rest) col c hnonneg (by omega)]
      simp

theorem calc_widths_rows_spans (m : Nat) (rows : List table_row_t) (w : List Nat)
    (hw : w.length = m)
    (hspan : ∀ r ∈ rows, ∀ cell ∈ r.cells,
      0 ≤ cell.colspan ∧ cell.colspan + (m : Int) ≤ 2 ^ 31) :
    ∃ w1, calc_widths_rows m rows w = some w1 ∧ w1.length = m ∧
      ∀ c < m, w1.getD c 0 = max (w.getD c 0) (start_column_width rows c) := by
  induction rows generalizing w with
  | nil => exact ⟨w, rfl, hw, fun c _ => by simp [start_column_width, max_len_at]⟩
  | cons r rest ih =>
    obtain ⟨w1, h1, h2, h3⟩ := calc_widths_cells_spans m r.cells 0 w (le_refl _) hw
      (hspan r (List.mem_cons_self _ _))
    obtain ⟨w2, h4, h5, h6⟩ := ih w1 h2 (fun r hr => hspan r (List.mem_cons_of_mem _ hr))
    unfold calc_widths_rows
    rw [h1]
    refine ⟨w2, h4, h5, fun c hc => ?_⟩
    rw [h6 c hc, h3 c hc]
    simp only [start_column_width, List.flatMap_cons, max_len_at_append, max_assoc]

theorem render_cells_spans (m : Nat) (w : List Nat) (cells : List table_cell_t) (col : Int)
    (b : BUFFER) (hcol : 0 ≤ col)
    (hspan : ∀ cell ∈ cells, 0 ≤ cell.colspan ∧ cell.colspan + (m : Int) ≤ 2 ^ 31) :
    ∃ b1, render_cells m w cells col b = some b1 := by
  induction cells generalizing col b with
  | nil => exact ⟨b, rfl⟩
  | cons cell rest ih =>
    have hs := hspan cell (List.mem_cons_self _ _)
    unfold render_cells
    by_cases h1 : col < (m : Int)
    · rw [if_pos h1, if_pos hcol]
      have hwrap : wrap32 (col + cell.colspan) = col + cell.colspan :=
        wrap32_of_range _ (by omega) (by omega)
      simp only [hwrap]
      exact ih _ _ (by omega) (fun c hc => hspan c (List.mem_cons_of_mem _ hc))
    · rw [if_neg h1]
      exact ⟨b, rfl⟩

theorem render_rows_spans (m : Nat) (w : List Nat) (rows : List table_row_t) (b : BUFFER)
    (hspan : ∀ r ∈ rows, ∀ cell ∈ r.cells,
      0 ≤ cell.colspan ∧ cell.colspan + (m : Int) ≤ 2 ^ 31) :
    ∃ b1, render_rows m w rows b = some b1 := by
  induction rows generalizing b with
  | nil => exact ⟨b, rfl⟩
  | cons r rest ih =>
    unfold render_rows
    simp only
    obtain ⟨b1, h1⟩ := render_cells_spans m w r.cells 0
      (mutt_buffer_addch (render_border m w b) '|') (le_refl _)
      (hspan r (List.mem_cons_self _ _))
    rw [h1]
    exact ih _ (fun r hr => hspan r (List.mem_cons_of_mem _ hr))

/-- **C18 (the code at the failing input, and where the claim holds).** In the grid
built from a row `a`, `b` with `colspan="2147483647"`, `c` every colspan is at
least 1, yet the column cursor overflows after `b` and `mutt_render_table`
leaves its width vector instead of computing widths. For every grid in which
every colspan is at least 1 and small enough for the cursor not to overflow
(`colspan + max_cols ≤ 2^31`), the width computed for column `c` is the maximum
content length over all cells, in all rows, whose starting column is `c`. -/
theorem mutt_render_table_start_column_widths :
    ((∀ r ∈ (mutt_html_extract_table (some example_huge_colspan) table_data_zero).rows,
        ∀ cell ∈ r.cells, 1 ≤ cell.colspan) ∧
      mutt_render_table (mutt_html_extract_table (some example_huge_colspan) table_data_zero)
        [] = none) ∧
    ∀ (table : table_data_t) (buffer : BUFFER),
      table.rows ≠ [] → 0 < calc_max_cols table.rows 0 →
      (∀ r ∈ table.rows, ∀ cell ∈ r.cells,
        1 ≤ cell.colspan ∧ cell.colspan + (calc_max_cols table.rows 0 : Int) ≤ 2 ^ 31) →
      ∃ w b1, mutt_render_table table buffer =
          some ({ table with
                  max_cols := calc_max_cols table.rows 0
                  col_widths := some w }, b1) ∧
        w.length = calc_max_cols table.rows 0 ∧
        ∀ c < calc_max_cols table.rows 0, w.getD c 0 = start_column_width table.rows c := by
  refine ⟨⟨by decide, by rfl⟩, ?_⟩
  intro table buffer hrows hm hspan
  have hspan0 : ∀ r ∈ table.rows, ∀ cell ∈ r.cells,
      0 ≤ cell.colspan ∧ cell.colspan + (calc_max_cols table.rows 0 : Int) ≤ 2 ^ 31 :=
    fun r hr cell hc => ⟨by have := (hspan r hr cell hc).1; omega, (hspan r hr cell hc).2⟩
  obtain ⟨w, h1, h2, h3⟩ := calc_widths_rows_spans (calc_max_cols table.rows 0) table.rows
    (List.replicate (calc_max_cols table.rows 0) 0) (by simp) hspan0
  obtain ⟨b1, h4⟩ := render_rows_spans (calc_max_cols table.rows 0) w table.rows buffer hspan0
  refine ⟨w, render_border (calc_max_cols table.rows 0) w b1, ?_, h2, fun c hc => ?_⟩
  · unfold mutt_render_table
    rw [if_neg hrows]
    simp only
    rw [if_neg (by omega), h1]
    simp only
    rw [h4]
  · rw [h3 c hc]
    simp [List.getD_eq_getElem?_getD, hc]

/-- Witness for `mutt_render_table_start_column_widths`: the grid with the rows
`aaaa` (colspan 2), `bb` and `c`, `ddd`, (empty) has the widths `[4, 3, 2]`. -/
theorem mutt_render_table_start_column_widths_witness :
    (∃ w b1, mutt_render_table example_spanned_grid [] =
        some ({ example_spanned_grid with max_cols := 3, col_widths := some w }, b1) ∧
      w.length = 3 ∧
      ∀ c < 3, w.getD c 0 = start_column_width example_spanned_grid.rows c) ∧
    (List.range 3).map (start_column_width example_spanned_grid.rows) = [4, 3, 2] :=
  ⟨mutt_render_table_start_column_widths.2 example_spanned_grid [] (by decide) (by decide)
    (by decide), by decide⟩

/-! ### Block elements, other elements and other nodes -/

theorem extract_text_children_concat (win : Option mutt_window_t) (children : List xmlNode)
    (b : BUFFER) :
    extract_text_children win children b =
      (concat_walks win children).map (fun t => b ++ t) := by
  induction children generalizing b with
  | nil => simp [extract_text_children, concat_walks]
  | cons child rest ih =>
    unfold extract_text_children concat_walks
    simp only [mutt_html_extract_text]
    rw [extract_text_node_append]
    cases extract_text_node win child [] with
    | none => rfl
    | some t =>
      simp only [Option.map_some']
      rw [ih]
      cases concat_walks win rest with
      | none => rfl
      | some r => simp

theorem extract_text_generic (win : Option mutt_window_t) (name content : Option CStr)
    (properties : List xmlAttr) (children : List xmlNode) (b : BUFFER)
    (hname : ∀ tag, name = some tag → tag ∉ recognised_tags) :
    mutt_html_extract_text win
        (some (.mk .XML_ELEMENT_NODE name content properties children)) b =
      (concat_walks win children).map (fun t => b ++ t) := by
  rw [← extract_text_children_concat]
  simp only [mutt_html_extract_text]
  unfold extract_text_node
  cases name with
  | none => simp
  | some tag =>
    have h := hname tag rfl
    simp only [recognised_tags, block_tags, List.cons_append, List.nil_append, List.mem_cons,
      List.mem_singleton, List.not_mem_nil, or_false, not_or] at h
    simp [name_is, xmlNode.name, is_block_tag, is_skipped_tag, h]

/-- **C21.** For an element tagged `br`, `p`, `div`, `h1`..`h6`, `li` or `tr`
the walker appends exactly one newline and then the concatenation, in document
order, of what it appends for each child; for an element with any other tag
that is not special (`table`, `img`, the suppressed tags) or without a name,
and for a node of a kind other than text and element, it appends exactly that
concatenation. -/
theorem extract_text_block_and_generic :
    (∀ (win : Option mutt_window_t) (tag : CStr) (content : Option CStr)
        (properties : List xmlAttr) (children : List xmlNode) (b : BUFFER),
      tag ∈ block_tags →
      mutt_html_extract_text win
          (some (.mk .XML_ELEMENT_NODE (some tag) content properties children)) b =
        (concat_walks win children).map (fun t => b ++ '\n' :: t)) ∧
    (∀ (win : Option mutt_window_t) (name content : Option CStr)
        (properties : List xmlAttr) (children : List xmlNode) (b : BUFFER),
      (∀ tag, name = some tag → tag ∉ recognised_tags) →
      mutt_html_extract_text win
          (some (.mk .XML_ELEMENT_NODE name content properties children)) b =
        (concat_walks win children).map (fun t => b ++ t)) ∧
    (∀ (win : Option mutt_window_t) (name content : Option CStr)
        (properties : List xmlAttr) (children : List xmlNode) (b : BUFFER),
      mutt_html_extract_text win
          (some (.mk .XML_OTHER_NODE name content properties children)) b =
        (concat_walks win children).map (fun t => b ++ t)) := by
  refine ⟨?_, extract_text_generic, ?_⟩
  · intro win tag content properties children b htag
    have h : mutt_html_extract_text win
        (some (.mk .XML_ELEMENT_NODE (some tag) content properties children)) b =
        extract_text_children win children (mutt_buffer_addch b '\n') := by
      simp only [block_tags, List.mem_cons, List.mem_singleton, List.not_mem_nil,
        or_false] at htag
      rcases htag with h | h | h | h | h | h | h | h | h | h | h <;> subst h <;> rfl
    rw [h, extract_text_children_concat]
    cases concat_walks win children with
    | none => rfl
    | some t => simp [mutt_buffer_addch]
  · intro win name content properties children b
    rw [← extract_text_children_concat]
    rfl

/-- Witness for `extract_text_block_and_generic`: `<p>hi<b>there</b></p>`
gives a newline and then the text of the two children. -/
theorem extract_text_block_and_generic_witness :
    mutt_html_extract_text none
        (some (element "p" [] [text_node "hi", element "b" [] [text_node "there"]])) "ab".data =
      some "ab\nhi there ".data ∧
    mutt_html_extract_text none
        (some (element "b" [] [text_node "there"])) "ab".data = some "abthere ".data := by
  constructor
  · exact (extract_text_block_and_generic.1 none "p".data none []
      [text_node "hi", element "b" [] [text_node "there"]] "ab".data (by decide)).trans
      (by rfl)
  · exact (extract_text_block_and_generic.2.1 none (some "b".data) none []
      [text_node "there"] "ab".data (by intro tag h; cases h; decide)).trans (by rfl)

/-- **C22.** Tag dispatch is exact and case-sensitive: an element whose tag is
not literally one of the recognised tags, although it is one up to letter case
(`SCRIPT`, `Table`, `IMG`, `P`, ...), is a generic pass-through element: the
walker appends the concatenation of the walks of its children and nothing of
its own. The text inside an element tagged `SCRIPT` is emitted. -/
theorem extract_text_case_sensitive :
    (∀ (win : Option mutt_window_t) (tag : CStr) (content : Option CStr)
        (properties : List xmlAttr) (children : List xmlNode) (b : BUFFER),
      tag ∉ recognised_tags → tag.map tolower ∈ recognised_tags →
      mutt_html_extract_text win
          (some (.mk .XML_ELEMENT_NODE (some tag) content properties children)) b =
        (concat_walks win children).map (fun t => b ++ t)) ∧
    (∀ tag ∈ ["SCRIPT".data, "Table".data, "IMG".data, "P".data],
      tag ∉ recognised_tags ∧ tag.map tolower ∈ recognised_tags) ∧
    mutt_html_extract_text none (some (element "SCRIPT" [] [text_node "x"])) [] =
      some "x ".data ∧
    mutt_html_extract_text none
        (some (element "Table" [("border", "0")]
          [element "TR" [] [element "TD" [] [text_node "a"]],
           element "TR" [] [element "TD" [] [text_node "b"]]])) [] = some "a b ".data ∧
    mutt_html_extract_text none (some (element "IMG" [("alt", "cat")] [])) [] = some [] ∧
    mutt_html_extract_text none (some (element "P" [] [text_node "hi"])) [] =
      some "hi ".data := by
  refine ⟨?_, by decide, by rfl, by rfl, by rfl, by rfl⟩
  intro win tag content properties children b h _
  exact extract_text_generic win (some tag) content properties children b
    (fun t ht => by cases ht; exact h)

/-- Witness for `extract_text_case_sensitive`: an element tagged `SCRIPT`. -/
theorem extract_text_case_sensitive_witness :
    mutt_html_extract_text none (some (element "SCRIPT" [] [text_node "x"])) "ab".data =
      (concat_walks none [text_node "x"]).map (fun t => "ab".data ++ t) :=
  extract_text_case_sensitive.1 none "SCRIPT".data none [] [text_node "x"] "ab".data
    (by decide) (by decide)

/-! ### Cells outside a row -/

/-- **C27.** A `td` or `th` element met while the grid has no row is dropped: the
grid (its row list and `row_count` included) is left as it is, and the
traversal goes on into the children of the element. -/
theorem extract_table_cell_without_row :
    (∀ (node : xmlNode) (table : table_data_t),
      is_td_th node = true → table.rows = [] →
      extract_table_visit node table = table ∧
      mutt_html_extract_table (some node) table =
        extract_table_children node.children table) ∧
    mutt_html_extract_table
        (some (element "td" [] [text_node "x", element "tr" [] [element "td" [] [text_node "a"]]]))
        table_data_zero =
      { rows := [{ cells := [{ content := some "a ".data, colspan := 1, rowspan := 1 }],
                   cell_count := 1 }],
        row_count := 1, max_cols := 0, col_widths := none } := by
  refine ⟨?_, by rfl⟩
  intro node table htd hrows
  have hvisit : extract_table_visit node table = table := by
    simp only [is_td_th, Bool.and_eq_true, decide_eq_true_eq, Bool.or_eq_true] at htd
    unfold extract_table_visit
    have h1 : node.type = .XML_ELEMENT_NODE ∧ node.name.isSome = true := by
      refine ⟨htd.1, ?_⟩
      rcases htd.2 with h | h <;> simp [h]
    have h2 : ¬ name_is node "table".data = true := by
      rcases htd.2 with h | h <;> simp [name_is, h]
    have h3 : ¬ name_is node "tr".data = true := by
      rcases htd.2 with h | h <;> simp [name_is, h]
    have h4 : name_is node "td".data = true ∨ name_is node "th".data = true := by
      rcases htd.2 with h | h <;> simp [name_is, h]
    rw [if_pos h1, if_neg h2, if_neg h3, if_pos h4, if_neg (by simp [hrows])]
  refine ⟨hvisit, ?_⟩
  obtain ⟨type, name, content, properties, children⟩ := node
  simp only [mutt_html_extract_table, xmlNode.children]
  unfold extract_table_node
  rw [hvisit]

/-- Witness for `extract_table_cell_without_row`: a `td` met by a zeroed grid. -/
theorem extract_table_cell_without_row_witness :
    extract_table_visit (element "td" [("colspan", "2")] [text_node "x"]) table_data_zero =
      table_data_zero ∧
    mutt_html_extract_table (some (element "td" [("colspan", "2")] [text_node "x"]))
        table_data_zero = table_data_zero :=
  ⟨(extract_table_cell_without_row.1 (element "td" [("colspan", "2")] [text_node "x"])
      table_data_zero (by decide) rfl).1,
   ((extract_table_cell_without_row.1 (element "td" [("colspan", "2")] [text_node "x"])
      table_data_zero (by decide) rfl).2).trans (by rfl)⟩

/-! ### `mutt_extract_cell_text` -/

theorem extract_cell_text_loop_eq (children : List xmlNode) (b : BUFFER) :
    extract_cell_text_loop children b = b ++ children.flatMap cell_text_piece := by
  induction children generalizing b with
  | nil => simp [extract_cell_text_loop]
  | cons child rest ih =>
    unfold extract_cell_text_loop
    simp only [List.flatMap_cons]
    by_cases h1 : child.type = .XML_TEXT_NODE ∧ child.content.isSome = true
    · rw [if_pos h1]
      simp only [cell_text_piece, if_pos h1]
      split_ifs with h2
      · rw [ih]; simp [mutt_buffer_addch, mutt_buffer_addstr]
      · rw [ih]; simp
    · rw [if_neg h1]
      by_cases h2 : child.type = .XML_ELEMENT_NODE
      · rw [if_pos h2]
        simp only [cell_text_piece, if_neg h1, if_pos h2, mutt_extract_cell_text]
        cases extract_cell_text_node child with
        | none => simp only; rw [ih]; simp
        | some t => simp only; rw [ih]; simp [mutt_buffer_addstr]
      · rw [if_neg h2, ih]
        simp [cell_text_piece, if_neg h1, if_neg h2]

/-- **C28.** `mutt_extract_cell_text` flattens by recursion: the text of a node is
the concatenation, over its children in document order, of the text piece of a
text child, of `mutt_extract_cell_text(child)` for an element child with nothing
added around it, and of nothing for a child of another kind; the result is
absent when that concatenation is empty (in particular for a node without
children) and for a `NULL` node. -/
theorem extract_cell_text_flattens :
    (∀ node : xmlNode,
      mutt_extract_cell_text (some node) =
        safe_strdup (some (node.children.flatMap cell_text_piece))) ∧
    mutt_extract_cell_text none = none ∧
    (∀ node : xmlNode, node.children = [] → mutt_extract_cell_text (some node) = none) ∧
    (∀ child : xmlNode, child.type = .XML_ELEMENT_NODE →
      cell_text_piece child = (mutt_extract_cell_text (some child)).getD []) ∧
    (∀ child : xmlNode, child.type = .XML_OTHER_NODE → cell_text_piece child = []) ∧
    mutt_extract_cell_text
        (some (element "td" []
          [text_node " a", element "b" [] [text_node "c", element "i" [] [text_node "d"]],
           .mk .XML_OTHER_NODE none (some "note".data) [] [text_node "hidden"],
           text_node "e"])) = some "a c d e ".data := by
  have h : ∀ node : xmlNode,
      mutt_extract_cell_text (some node) =
        safe_strdup (some (node.children.flatMap cell_text_piece)) := by
    intro node
    obtain ⟨type, name, content, properties, children⟩ := node
    simp only [mutt_extract_cell_text, xmlNode.children]
    unfold extract_cell_text_node
    rw [extract_cell_text_loop_eq]
    simp
  refine ⟨h, rfl, ?_, ?_, ?_, by rfl⟩
  · intro node hc
    rw [h, hc]
    rfl
  · intro child hc
    simp [cell_text_piece, hc]
  · intro child hc
    simp [cell_text_piece, hc]

/-- Witness for `extract_cell_text_flattens`: a cell without children. -/
theorem extract_cell_text_flattens_witness :
    mutt_extract_cell_text (some (element "td" [("colspan", "2")] [])) = none :=
  extract_cell_text_flattens.2.2.1 (element "td" [("colspan", "2")] []) rfl

/-! ### Newlines in `wrap_and_append` -/

theorem wrap_loop_eq_scan (width : Int) (s : CStr) (col : Int) (b : BUFFER) :
    wrap_loop width s col b =
      if (wrap_scan width s col b).2 > 0 then (wrap_scan width s col b).1 ++ ['\n']
      else (wrap_scan width s col b).1 := by
  induction s generalizing col b with
  | nil => simp [wrap_loop, wrap_scan, mutt_buffer_addch]
  | cons p rest ih =>
    unfold wrap_loop wrap_scan
    by_cases h1 : p = '\n'
    · rw [if_pos h1, if_pos h1]; exact ih _ _
    · rw [if_neg h1, if_neg h1]
      by_cases h2 : col ≥ width ∧ p ≠ ' '
      · rw [if_pos h2, if_pos h2]; exact ih _ _
      · rw [if_neg h2, if_neg h2]; exact ih _ _

theorem wrap_scan_cons (width : Int) (p : Char) (rest : CStr) (col : Int) (b : BUFFER) :
    wrap_scan width (p :: rest) col b =
      if p = '\n' then wrap_scan width rest 0 (mutt_buffer_addch b '\n')
      else if col ≥ width ∧ p ≠ ' ' then
        wrap_scan width rest (0 + 1) (mutt_buffer_addch (mutt_buffer_addch b '\n') p)
      else wrap_scan width rest (col + 1) (mutt_buffer_addch b p) := by
  rw [wrap_scan]

theorem wrap_scan_append (width : Int) (s1 s2 : CStr) (col : Int) (b : BUFFER) :
    wrap_scan width (s1 ++ s2) col b =
      wrap_scan width s2 (wrap_scan width s1 col b).2 (wrap_scan width s1 col b).1 := by
  induction s1 generalizing col b with
  | nil => simp [wrap_scan]
  | cons p rest ih =>
    simp only [List.cons_append, wrap_scan_cons]
    by_cases h1 : p = '\n'
    · simp only [if_pos h1]; exact ih _ _
    · simp only [if_neg h1]
      by_cases h2 : col ≥ width ∧ p ≠ ' '
      · simp only [if_pos h2]; exact ih _ _
      · simp only [if_neg h2]; exact ih _ _

theorem wrap_scan_col_nonneg (width : Int) (s : CStr) (col : Int) (b : BUFFER)
    (hcol : 0 ≤ col) : 0 ≤ (wrap_scan width s col b).2 := by
  induction s generalizing col b with
  | nil => simpa [wrap_scan] using hcol
  | cons p rest ih =>
    rw [wrap_scan_cons]
    split_ifs
    · exact ih _ _ (le_refl _)
    · exact ih _ _ (by norm_num)
    · exact ih _ _ (by omega)

theorem wrap_scan_snoc (width : Int) (s : CStr) (c : Char) (col : Int) (b : BUFFER)
    (hcol : 0 ≤ col) :
    (c = '\n' →
      wrap_scan width (s ++ [c]) col b = ((wrap_scan width s col b).1 ++ ['\n'], 0)) ∧
    (c ≠ '\n' → 0 < (wrap_scan width (s ++ [c]) col b).2) := by
  have h0 := wrap_scan_col_nonneg width s col b hcol
  rw [wrap_scan_append]
  constructor
  · intro hc
    subst hc
    simp [wrap_scan, mutt_buffer_addch]
  · intro hc
    rw [wrap_scan_cons, if_neg hc]
    split_ifs
    · simp [wrap_scan]
    · simp only [wrap_scan]
      omega

/-- **C29.** `wrap_and_append` passes a newline of its input through verbatim and
restarts the column at 0, so that the text after it is wrapped as by a fresh
call; the appended text is empty for the empty input and ends with a newline
otherwise; when the input does not end with a newline exactly one newline is
added after what the loop emitted, and when it does none is added: the last
newline is the one of the input. -/
theorem wrap_and_append_newlines :
    (∀ (width : Int) (s1 s2 : CStr) (b : BUFFER),
      wrap_and_append b (s1 ++ '\n' :: s2) width =
        wrap_and_append ((wrap_scan width s1 0 b).1 ++ ['\n']) s2 width) ∧
    (∀ (width : Int) (b : BUFFER), wrap_and_append b [] width = b) ∧
    (∀ (width : Int) (s : CStr), s ≠ [] →
      (wrap_and_append [] s width).getLast? = some '\n') ∧
    (∀ (width : Int) (s : CStr) (b : BUFFER), s ≠ [] → s.getLast? ≠ some '\n' →
      wrap_and_append b s width = (wrap_scan width s 0 b).1 ++ ['\n']) ∧
    (∀ (width : Int) (s : CStr) (b : BUFFER),
      wrap_and_append b (s ++ ['\n']) width = (wrap_scan width s 0 b).1 ++ ['\n'] ∧
      wrap_and_append b (s ++ ['\n']) width = (wrap_scan width (s ++ ['\n']) 0 b).1) := by
  have hlast : ∀ (width : Int) (s : CStr) (b : BUFFER), s ≠ [] → s.getLast? ≠ some '\n' →
      wrap_and_append b s width = (wrap_scan width s 0 b).1 ++ ['\n'] := by
    intro width s b hs hl
    obtain ⟨init, c, rfl⟩ : ∃ init c, s = init ++ [c] :=
      ⟨s.dropLast, s.getLast hs, (List.dropLast_append_getLast hs).symm⟩
    have hc : c ≠ '\n' := by
      intro h; apply hl; simp [h]
    unfold wrap_and_append
    rw [wrap_loop_eq_scan, if_pos ((wrap_scan_snoc width init c 0 b (le_refl _)).2 hc)]
  have hnl : ∀ (width : Int) (s : CStr) (b : BUFFER),
      wrap_and_append b (s ++ ['\n']) width = (wrap_scan width s 0 b).1 ++ ['\n'] ∧
      wrap_and_append b (s ++ ['\n']) width = (wrap_scan width (s ++ ['\n']) 0 b).1 := by
    intro width s b
    have h := (wrap_scan_snoc width s '\n' 0 b (le_refl _)).1 rfl
    unfold wrap_and_append
    rw [wrap_loop_eq_scan, h]
    simp
  refine ⟨?_, ?_, ?_, hlast, hnl⟩
  · intro width s1 s2 b
    unfold wrap_and_append
    rw [wrap_loop_eq_scan, wrap_loop_eq_scan, wrap_scan_append, wrap_scan_cons, if_pos rfl]
    simp [mutt_buffer_addch]
  · intro width b
    simp [wrap_and_append, wrap_loop]
  · intro width s hs
    by_cases hl : s.getLast? = some '\n'
    · obtain ⟨init, c, rfl⟩ : ∃ init c, s = init ++ [c] :=
        ⟨s.dropLast, s.getLast hs, (List.dropLast_append_getLast hs).symm⟩
      have hc : c = '\n' := by simpa using hl
      subst hc
      rw [(hnl width init []).1]
      simp
    · rw [hlast width s [] hs hl]
      simp

/-- Witness for `wrap_and_append_newlines`: `"ab\ncd"` at width 72 gets one
newline at its end, `"ab\ncd\n"` gets none. -/
theorem wrap_and_append_newlines_witness :
    wrap_and_append [] "ab\ncd".data 72 = "ab\ncd\n".data ∧
    wrap_and_append [] "ab\ncd\n".data 72 = "ab\ncd\n".data ∧
    (wrap_and_append [] "ab\ncd".data 72).getLast? = some '\n' :=
  ⟨(wrap_and_append_newlines.2.2.2.1 72 "ab\ncd".data [] (by decide) (by decide)).trans
    (by rfl), by rfl,
   wrap_and_append_newlines.2.2.1 72 "ab\ncd".data (by decide)⟩

/-! ### `collapse_blank_lines` and the reference definition -/

theorem collapse_loop_runs (s : CStr) (n : Nat) :
    collapse_loop s [] n =
      match runs s with
      | [] => []
      | (d, k) :: tl =>
        (if d = '\n' then List.replicate (min (n + k) 2 - min n 2) '\n'
          else List.replicate k d) ++
        tl.flatMap (fun r => List.replicate (if r.1 = '\n' then min r.2 2 else r.2) r.1) := by
  induction s generalizing n with
  | nil => simp [collapse_loop, runs]
  | cons c rest ih =>
    rw [collapse_loop_nil_cons]
    by_cases hc : c = '\n'
    · subst hc
      rw [if_pos rfl, runs]
      have h1 := ih (n + 1)
      cases hr : runs rest with
      | nil =>
        rw [hr] at h1
        simp only [h1, if_true, List.flatMap_nil, List.append_nil]
        split_ifs with h2
        · have : min (n + 1) 2 - min n 2 = 1 := by omega
          simp [this]
        · have : min (n + 1) 2 - min n 2 = 0 := by omega
          simp [this]
      | cons r tl =>
        obtain ⟨d, k⟩ := r
        rw [hr] at h1
        simp only at h1 ⊢
        by_cases hd : '\n' = d
        · subst hd
          rw [if_pos rfl]
          simp only [h1, if_true]
          split_ifs with h2
          · have : min (n + (k + 1)) 2 - min n 2 = (min (n + 1 + k) 2 - min (n + 1) 2) + 1 := by
              omega
            rw [this, List.replicate_succ]
            simp
          · have : min (n + (k + 1)) 2 - min n 2 = min (n + 1 + k) 2 - min (n + 1) 2 := by
              omega
            rw [this]
        · rw [if_neg hd]
          have hd2 : ¬ d = '\n' := fun h => hd h.symm
          simp only [h1, if_neg hd2, if_true, List.flatMap_cons]
          split_ifs with h2
          · have : min (n + 1) 2 - min n 2 = 1 := by omega
            simp [this]
          · have : min (n + 1) 2 - min n 2 = 0 := by omega
            simp [this]
    · rw [if_neg hc, runs]
      have h1 := ih 0
      cases hr : runs rest with
      | nil =>
        rw [hr] at h1
        simp [h1, hc]
      | cons r tl =>
        obtain ⟨d, k⟩ := r
        rw [hr] at h1
        simp only at h1 ⊢
        by_cases hd : c = d
        · subst hd
          rw [if_pos rfl]
          simp only [h1, if_neg hc, List.replicate_succ, List.cons_append]
        · rw [if_neg hd]
          simp only [h1, if_neg hc, List.flatMap_cons, Nat.zero_add, Nat.zero_min,
            Nat.sub_zero, List.replicate_one, List.singleton_append, List.cons.injEq, true_and,
            List.append_cancel_right_eq]
          split_ifs with h2
          · rw [h2]
          · rfl

theorem runs_decode (s : List Char) :
    (runs s).flatMap (fun r => List.replicate r.2 r.1) = s := by
  induction s with
  | nil => simp [runs]
  | cons c rest ih =>
    rw [runs]
    cases hr : runs rest with
    | nil => rw [hr] at ih; simp at ih; simp [← ih]
    | cons r tl =>
      obtain ⟨d, k⟩ := r
      rw [hr] at ih
      simp only
      split_ifs with h
      · subst h
        simp only [List.flatMap_cons, List.replicate_succ, List.cons_append] at ih ⊢
        rw [ih]
      · simp only [List.flatMap_cons] at ih ⊢
        rw [ih]
        simp

theorem runs_maximal (s : List Char) :
    List.Chain' (fun a b => a.1 ≠ b.1) (runs s) ∧ ∀ r ∈ runs s, 1 ≤ r.2 := by
  induction s with
  | nil => simp [runs]
  | cons c rest ih =>
    rw [runs]
    cases hr : runs rest with
    | nil => simp
    | cons r tl =>
      obtain ⟨d, k⟩ := r
      rw [hr] at ih
      simp only
      split_ifs with h
      · refine ⟨?_, ?_⟩
        · have := ih.1
          rw [List.chain'_cons'] at this ⊢
          exact this
        · intro r hr2
          rcases List.mem_cons.mp hr2 with h2 | h2
          · subst h2; simp
          · exact ih.2 r (List.mem_cons_of_mem _ h2)
      · refine ⟨?_, ?_⟩
        · rw [List.chain'_cons]
          exact ⟨h, ih.1⟩
        · intro r hr2
          rcases List.mem_cons.mp hr2 with h2 | h2
          · subst h2; simp
          · exact ih.2 r h2

theorem collapse_loop_sublist (s : CStr) (n : Nat) :
    List.Sublist (collapse_loop s [] n) s ∧
    (collapse_loop s [] n).filter (fun c => decide (c ≠ '\n')) =
      s.filter (fun c => decide (c ≠ '\n')) := by
  induction s generalizing n with
  | nil => simp [collapse_loop]
  | cons c rest ih =>
    rw [collapse_loop_nil_cons]
    split_ifs with h1 h2
    · exact ⟨(ih (n + 1)).1.cons₂ c, by rw [List.filter_cons, List.filter_cons, (ih (n + 1)).2]⟩
    · exact ⟨(ih (n + 1)).1.cons c, by
        rw [List.filter_cons, if_neg (by simp [h1]), (ih (n + 1)).2]⟩
    · exact ⟨(ih 0).1.cons₂ c, by rw [List.filter_cons, List.filter_cons, (ih 0).2]⟩

theorem leadingNewlines_ge_two (l : List Char) (h : 2 ≤ leadingNewlines l) :
    ∃ t, l = '\n' :: '\n' :: t := by
  cases l with
  | nil => simp [leadingNewlines] at h
  | cons a l1 =>
    by_cases ha : a = '\n'
    · cases l1 with
      | nil => simp [leadingNewlines, ha] at h
      | cons b l2 =>
        by_cases hb : b = '\n'
        · exact ⟨l2, by rw [ha, hb]⟩
        · simp [leadingNewlines, ha, hb] at h
    · simp [leadingNewlines, ha] at h

theorem infix_of_hasTripleNewline (l : List Char) (h : hasTripleNewline l = true) :
    ['\n', '\n', '\n'] <:+: l := by
  induction l with
  | nil => simp [hasTripleNewline] at h
  | cons c rest ih =>
    simp only [hasTripleNewline, Bool.or_eq_true, Bool.and_eq_true, decide_eq_true_eq] at h
    rcases h with ⟨hc, h2⟩ | h
    · obtain ⟨t, ht⟩ := leadingNewlines_ge_two rest h2
      rw [hc, ht]
      exact ⟨[], t, rfl⟩
    · rw [List.infix_cons_iff]
      exact Or.inr (ih h)

/-- **C30.** `collapse_blank_lines` equals the reference definition that replaces
every maximal run of `k` newlines by `min k 2` newlines and copies every other
character; the runs are the maximal runs of the string (they decode to it,
neighbours differ, none is empty). Hence collapsing only deletes newlines (the
output is a subsequence of the input with the same characters other than
newlines), is never longer than the input, and is the identity on every string
without a run of three or more newlines. -/
theorem collapse_blank_lines_eq_reference :
    (∀ s : CStr, collapse_blank_lines (some s) = some (collapse_reference s)) ∧
    (∀ s : CStr, (runs s).flatMap (fun r => List.replicate r.2 r.1) = s ∧
      List.Chain' (fun a b => a.1 ≠ b.1) (runs s) ∧ ∀ r ∈ runs s, 1 ≤ r.2) ∧
    (∀ s : CStr, List.Sublist (collapse_reference s) s ∧
      (collapse_reference s).filter (fun c => decide (c ≠ '\n')) =
        s.filter (fun c => decide (c ≠ '\n')) ∧
      (collapse_reference s).length ≤ s.length) ∧
    (∀ s : CStr, (∀ r ∈ runs s, r.1 = '\n' → r.2 ≤ 2) →
      collapse_blank_lines (some s) = some s) ∧
    (∀ s : CStr, ¬ (['\n', '\n', '\n'] <:+: s) → collapse_blank_lines (some s) = some s) := by
  have href : ∀ s : CStr, collapse_loop s [] 0 = collapse_reference s := by
    intro s
    rw [collapse_loop_runs, collapse_reference]
    cases runs s with
    | nil => simp
    | cons r tl =>
      obtain ⟨d, k⟩ := r
      simp only [List.flatMap_cons, Nat.zero_add, Nat.zero_min, Nat.sub_zero]
      split_ifs with h
      · rw [h]
      · rfl
  refine ⟨?_, ?_, ?_, ?_, ?_⟩
  · intro s
    simp [collapse_blank_lines, href]
  · intro s
    exact ⟨runs_decode s, (runs_maximal s).1, (runs_maximal s).2⟩
  · intro s
    rw [← href]
    exact ⟨(collapse_loop_sublist s 0).1, (collapse_loop_sublist s 0).2,
      (collapse_loop_sublist s 0).1.length_le⟩
  · intro s hs
    simp only [collapse_blank_lines, href, Option.some.injEq]
    conv_rhs => rw [← runs_decode s]
    unfold collapse_reference
    apply List.flatMap_congr
    intro r hr
    by_cases h : r.1 = '\n'
    · rw [if_pos h, min_eq_left (hs r hr h)]
    · rw [if_neg h]
  · intro s hs
    simp only [collapse_blank_lines, Option.some.injEq]
    have h3 : hasTripleNewline s = false := by
      cases h : hasTripleNewline s with
      | false => rfl
      | true => exact absurd (infix_of_hasTripleNewline s h) hs
    exact collapse_loop_fixed s 0 h3
      (by simpa using leadingNewlines_le_of_no_triple s h3)

/-- Witness for `collapse_blank_lines_eq_reference`: `"a\n\nb"` has no run of
three newlines and is left as it is. -/
theorem collapse_blank_lines_eq_reference_witness :
    collapse_blank_lines (some "a\n\nb".data) = some "a\n\nb".data ∧
    collapse_reference "\n\n\n\na\n\n\nbb\n".data = "\n\na\n\nbb\n".data :=
  ⟨collapse_blank_lines_eq_reference.2.2.2.1 "a\n\nb".data (by decide), by decide⟩

/-! ## Content lines with spans -/

theorem render_cells_segments (m : Nat) (w : List Nat) (cells : List table_cell_t)
    (col : Int) (b : BUFFER) (hcol : 0 ≤ col)
    (hspan : ∀ cell ∈ cells, 0 ≤ cell.colspan ∧ cell.colspan + (m : Int) ≤ 2 ^ 31) :
    render_cells m w cells col b =
      some (b ++ ((start_columns cells col).filter (fun p => decide (p.1 < (m : Int)))).flatMap
        (fun p => cell_segment (w.getD p.1.toNat 0) p.2)) := by
  induction cells generalizing col b with
  | nil => simp [render_cells, start_columns]
  | cons cell rest ih =>
    have hs := hspan cell (List.mem_cons_self _ _)
    have hnonneg : ∀ c ∈ cell :: rest, 0 ≤ c.colspan := fun c hc => (hspan c hc).1
    unfold render_cells
    by_cases h1 : col < (m : Int)
    · rw [if_pos h1, if_pos hcol]
      have hwrap : wrap32 (col + cell.colspan) = col + cell.colspan :=
        wrap32_of_range _ (by omega) (by omega)
      simp only [hwrap]
      rw [ih _ _ (by omega) (fun c hc => hspan c (List.mem_cons_of_mem _ hc)), start_columns,
        List.filter_cons, if_pos (by simpa using h1)]
      simp [addch_times_eq, mutt_buffer_addch, mutt_buffer_addstr, cell_segment]
    · rw [if_neg h1]
      have : (start_columns (cell :: rest) col).filter (fun p => decide (p.1 < (m : Int))) = [] := by
        rw [List.filter_eq_nil_iff]
        intro p hp
        have := start_columns_ge (cell :: rest) col hnonneg p hp
        simp only [decide_eq_true_eq]
        omega
      rw [this]
      simp

theorem render_rows_segments (m : Nat) (w : List Nat) (rows : List table_row_t) (b : BUFFER)
    (hw : w.length = m)
    (hspan : ∀ r ∈ rows, ∀ cell ∈ r.cells,
      0 ≤ cell.colspan ∧ cell.colspan + (m : Int) ≤ 2 ^ 31) :
    render_rows m w rows b =
      some (b ++ rows.flatMap
        (fun r => border_line w ++ '\n' :: (spanned_content_line m w r.cells ++ ['\n']))) := by
  induction rows generalizing b with
  | nil => simp [render_rows]
  | cons r rest ih =>
    unfold render_rows
    simp only
    rw [render_cells_segments m w r.cells 0 _ (le_refl _) (hspan r (List.mem_cons_self _ _))]
    simp only
    rw [ih _ (fun r hr => hspan r (List.mem_cons_of_mem _ hr))]
    subst hw
    simp [render_border_eq, mutt_buffer_addch, spanned_content_line, rendered_cells]

theorem mutt_render_table_spanned (table : table_data_t) (buffer : BUFFER)
    (hrows : table.rows ≠ []) (hm : 0 < calc_max_cols table.rows 0)
    (hspan : ∀ r ∈ table.rows, ∀ cell ∈ r.cells,
      0 ≤ cell.colspan ∧ cell.colspan + (calc_max_cols table.rows 0 : Int) ≤ 2 ^ 31) :
    ∃ w, w.length = calc_max_cols table.rows 0 ∧
      mutt_render_table table buffer =
        some ({ table with max_cols := calc_max_cols table.rows 0, col_widths := some w },
          buffer ++ spanned_table (calc_max_cols table.rows 0) w table.rows) := by
  obtain ⟨w, h1, h2, _⟩ := calc_widths_rows_spans (calc_max_cols table.rows 0) table.rows
    (List.replicate (calc_max_cols table.rows 0) 0) (by simp) hspan
  refine ⟨w, h2, ?_⟩
  unfold mutt_render_table
  rw [if_neg hrows]
  simp only
  rw [if_neg (by omega), h1]
  simp only
  rw [render_rows_segments _ w table.rows buffer h2 hspan]
  simp only
  have := render_border_eq w
  rw [h2] at this
  rw [this]
  simp [spanned_table]

theorem rendered_cells_takeWhile (m : Nat) (cells : List table_cell_t) (col : Int)
    (hspan : ∀ cell ∈ cells, 0 ≤ cell.colspan) :
    (start_columns cells col).filter (fun p => decide (p.1 < (m : Int))) =
      (start_columns cells col).takeWhile (fun p => decide (p.1 < (m : Int))) := by
  induction cells generalizing col with
  | nil => simp [start_columns]
  | cons cell rest ih =>
    rw [start_columns, List.filter_cons, List.takeWhile_cons]
    by_cases h1 : col < (m : Int)
    · simp only [h1, decide_True, if_true]
      rw [ih _ (fun c hc => hspan c (List.mem_cons_of_mem _ hc))]
    · simp only [h1, decide_False, Bool.false_eq_true, if_false]
      rw [List.filter_eq_nil_iff]
      intro p hp
      have := start_columns_ge rest (col + cell.colspan)
        (fun c hc => hspan c (List.mem_cons_of_mem _ hc)) p hp
      have := hspan cell (List.mem_cons_self _ _)
      simp only [decide_eq_true_eq]
      omega

/-- **C24 (the code at the failing input, and where the claim holds).** In the grid
built from a row `a`, `b` with `colspan="2147483647"`, `c` every colspan is at
least 1, yet the column cursor overflows after `b` and `mutt_render_table`
leaves its width vector instead of emitting content lines. For every grid in
which every colspan is at least 1 and small enough for the cursor not to
overflow (`colspan + max_cols ≤ 2^31`), the content line of a row is `|`
followed by exactly one segment for each cell of the row whose starting column
is below the column count, in order; these cells are the first cells of the row,
the others are dropped, and nothing is emitted for columns that are left. -/
theorem mutt_render_table_content_lines :
    ((∀ r ∈ (mutt_html_extract_table (some example_huge_colspan) table_data_zero).rows,
        ∀ cell ∈ r.cells, 1 ≤ cell.colspan) ∧
      mutt_render_table (mutt_html_extract_table (some example_huge_colspan) table_data_zero)
        [] = none) ∧
    ∀ (table : table_data_t) (buffer : BUFFER),
      table.rows ≠ [] → 0 < calc_max_cols table.rows 0 →
      (∀ r ∈ table.rows, ∀ cell ∈ r.cells,
        1 ≤ cell.colspan ∧ cell.colspan + (calc_max_cols table.rows 0 : Int) ≤ 2 ^ 31) →
      (∃ w, w.length = calc_max_cols table.rows 0 ∧
        mutt_render_table table buffer =
          some ({ table with max_cols := calc_max_cols table.rows 0, col_widths := some w },
            buffer ++ spanned_table (calc_max_cols table.rows 0) w table.rows)) ∧
      ∀ r ∈ table.rows,
        rendered_cells (calc_max_cols table.rows 0) r.cells =
          (start_columns r.cells 0).takeWhile
            (fun p => decide (p.1 < (calc_max_cols table.rows 0 : Int))) := by
  refine ⟨⟨by decide, by rfl⟩, ?_⟩
  intro table buffer hrows hm hspan
  have hspan0 : ∀ r ∈ table.rows, ∀ cell ∈ r.cells,
      0 ≤ cell.colspan ∧ cell.colspan + (calc_max_cols table.rows 0 : Int) ≤ 2 ^ 31 :=
    fun r hr cell hc => ⟨by have := (hspan r hr cell hc).1; omega, (hspan r hr cell hc).2⟩
  refine ⟨mutt_render_table_spanned table buffer hrows hm hspan0, fun r hr => ?_⟩
  exact rendered_cells_takeWhile _ r.cells 0 (fun c hc => (hspan0 r hr c hc).1)

/-- Witness for `mutt_render_table_content_lines`: in the grid with the rows
`aaaa` (colspan 2), `bb` and `c`, `ddd`, (empty) the first row has two segments
and no filler for the third column. -/
theorem mutt_render_table_content_lines_witness :
    (∃ w, w.length = 3 ∧
      mutt_render_table example_spanned_grid [] =
        some ({ example_spanned_grid with max_cols := 3, col_widths := some w },
          [] ++ spanned_table 3 w example_spanned_grid.rows)) ∧
    spanned_table 3 [4, 3, 2] example_spanned_grid.rows =
      ("+------+-----+----+\n| aaaa | bb |\n+------+-----+----+\n".data ++
        "| c    | ddd |    |\n+------+-----+----+\n".data) :=
  ⟨(mutt_render_table_content_lines.2 example_spanned_grid [] (by decide) (by decide)
    (by decide)).1, by decide⟩

/-! ## The lines of a rendered table -/

theorem calc_max_cols_eq (rows : List table_row_t) (m : Nat) :
    calc_max_cols rows m = max m ((rows.map (fun r => r.cell_count)).foldr max 0) := by
  induction rows generalizing m with
  | nil => simp [calc_max_cols]
  | cons r rest ih =>
    unfold calc_max_cols
    rw [ih]
    simp only [List.map_cons, List.foldr_cons]
    generalize List.foldr max 0 (List.map (fun r => r.cell_count) rest) = k
    split_ifs <;> omega

theorem newline_not_mem_border_line (w : List Nat) : '\n' ∉ border_line w := by
  unfold border_line
  intro h
  rcases List.mem_cons.mp h with h | h
  · exact absurd h (by decide)
  · rw [List.mem_flatMap] at h
    obtain ⟨k, _, hk⟩ := h
    rcases List.mem_append.mp hk with h1 | h1
    · exact absurd (List.eq_of_mem_replicate h1) (by decide)
    · simp at h1

theorem newline_not_mem_content_line (m : Nat) (w : List Nat) (cells : List table_cell_t)
    (hcells : ∀ cell ∈ cells, '\n' ∉ cell.content.getD []) :
    '\n' ∉ spanned_content_line m w cells := by
  have hmem : ∀ (cs : List table_cell_t) (col : Int), ∀ p ∈ start_columns cs col, p.2 ∈ cs := by
    intro cs
    induction cs with
    | nil => intro col p hp; simp [start_columns] at hp
    | cons c rest ih =>
      intro col p hp
      simp only [start_columns, List.mem_cons] at hp
      rcases hp with hp | hp
      · subst hp; exact List.mem_cons_self _ _
      · exact List.mem_cons_of_mem _ (ih _ p hp)
  unfold spanned_content_line rendered_cells
  intro h
  rcases List.mem_cons.mp h with h | h
  · exact absurd h (by decide)
  · rw [List.mem_flatMap] at h
    obtain ⟨p, hp, hseg⟩ := h
    have hcell := hcells p.2 (hmem cells 0 p (List.mem_filter.mp hp).1)
    simp only [cell_segment, List.mem_cons, List.mem_append, List.mem_singleton,
      List.not_mem_nil, or_false] at hseg
    rcases hseg with h1 | h1 | h1 | h1 | h1
    · exact absurd h1 (by decide)
    · exact hcell h1
    · exact absurd (List.eq_of_mem_replicate h1) (by decide)
    · exact absurd h1 (by decide)
    · exact absurd h1 (by decide)

theorem count_newline_spanned_table (m : Nat) (w : List Nat) (rows : List table_row_t)
    (hcells : ∀ r ∈ rows, ∀ cell ∈ r.cells, '\n' ∉ cell.content.getD []) :
    (spanned_table m w rows).count '\n' = 2 * rows.length + 1 := by
  have hb : (border_line w).count '\n' = 0 :=
    List.count_eq_zero.mpr (newline_not_mem_border_line w)
  unfold spanned_table
  induction rows with
  | nil => simp [hb]
  | cons r rest ih =>
    have hc : (spanned_content_line m w r.cells).count '\n' = 0 :=
      List.count_eq_zero.mpr
        (newline_not_mem_content_line m w r.cells (hcells r (List.mem_cons_self _ _)))
    have ih2 := ih (fun r hr => hcells r (List.mem_cons_of_mem _ hr))
    simp only [List.flatMap_cons, List.append_assoc, List.count_append, List.count_cons_self,
      hb, hc, List.length_cons, List.count_nil] at ih2 ⊢
    omega

/-- Counterexample to C23 as stated: in the grid of a 2 × 2 table whose first
cell holds the text `a⏎b` the content of the cell is emitted with its
newline, and the rendering has 6 newline-terminated lines, not 2·2 + 1. -/
theorem mutt_render_table_newline_in_cell :
    (mutt_render_table (mutt_html_extract_table (some example_newline_in_cell) table_data_zero)
        []).map Prod.snd =
      some ("+------+----+\n| a\nb  | c  |\n+------+----+\n".data ++
        "| d    | e  |\n+------+----+\n".data) ∧
    ((mutt_html_extract_table (some example_newline_in_cell) table_data_zero).rows.length = 2 ∧
      ("+------+----+\n| a\nb  | c  |\n+------+----+\n".data ++
        "| d    | e  |\n+------+----+\n".data).count '\n' = 6) := by
  refine ⟨by rfl, by rfl, by decide⟩

/-- **C23 (amended).** `mutt_render_table` appends nothing when the grid has zero
rows and when no row has any cell. Otherwise, with `R ≥ 1` rows and the column
count `C`, the maximum `cell_count` of the rows, for a grid in which no cell
content contains a newline and every colspan is non-negative and small enough
for the column cursor not to overflow, it appends exactly `2R + 1`
newline-terminated lines: for each row in order a border line and its content
line, and a closing border line; the border lines are all the same line of `C`
column segments and every content line starts with `|`. -/
theorem mutt_render_table_lines :
    (∀ (table : table_data_t) (buffer : BUFFER), table.rows = [] →
      mutt_render_table table buffer = some (table, buffer)) ∧
    (∀ (table : table_data_t) (buffer : BUFFER), (∀ r ∈ table.rows, r.cell_count = 0) →
      (mutt_render_table table buffer).map Prod.snd = some buffer) ∧
    (∀ rows : List table_row_t,
      calc_max_cols rows 0 = (rows.map (fun r => r.cell_count)).foldr max 0) ∧
    (∀ (table : table_data_t) (buffer : BUFFER),
      table.rows ≠ [] → 0 < calc_max_cols table.rows 0 →
      (∀ r ∈ table.rows, ∀ cell ∈ r.cells,
        0 ≤ cell.colspan ∧ cell.colspan + (calc_max_cols table.rows 0 : Int) ≤ 2 ^ 31) →
      (∀ r ∈ table.rows, ∀ cell ∈ r.cells, '\n' ∉ cell.content.getD []) →
      ∃ w, w.length = calc_max_cols table.rows 0 ∧
        (mutt_render_table table buffer).map Prod.snd =
          some (buffer ++ spanned_table (calc_max_cols table.rows 0) w table.rows) ∧
        (spanned_table (calc_max_cols table.rows 0) w table.rows).count '\n' =
          2 * table.rows.length + 1 ∧
        '\n' ∉ border_line w ∧
        ∀ r ∈ table.rows,
          '\n' ∉ spanned_content_line (calc_max_cols table.rows 0) w r.cells ∧
          (spanned_content_line (calc_max_cols table.rows 0) w r.cells).head? = some '|') := by
  refine ⟨?_, ?_, ?_, ?_⟩
  · intro table buffer h
    simp [mutt_render_table, h]
  · intro table buffer h
    unfold mutt_render_table
    split_ifs with h1
    · rfl
    · have h0 : calc_max_cols table.rows 0 = 0 := by
        rw [calc_max_cols_eq]
        have : (table.rows.map (fun r => r.cell_count)).foldr max 0 = 0 := by
          generalize table.rows = rows at h
          induction rows with
          | nil => rfl
          | cons r rest ih =>
            simp only [List.map_cons, List.foldr_cons, h r (List.mem_cons_self _ _),
              ih (fun r hr => h r (List.mem_cons_of_mem _ hr))]
            rfl
        rw [this]; rfl
      simp [h0]
  · intro rows
    rw [calc_max_cols_eq]
    simp
  · intro table buffer hrows hm hspan hcells
    obtain ⟨w, hw, hrender⟩ := mutt_render_table_spanned table buffer hrows hm hspan
    refine ⟨w, hw, by rw [hrender]; rfl, count_newline_spanned_table _ w _ hcells,
      newline_not_mem_border_line w, fun r hr => ⟨?_, rfl⟩⟩
    exact newline_not_mem_content_line _ w r.cells (hcells r hr)

/-- Witness for `mutt_render_table_lines`: the grid with the rows `a`, `bb` and
`ccc`, `d` (2 rows, 2 columns) is rendered in 5 lines. -/
theorem mutt_render_table_lines_witness :
    ∃ w, w.length = 2 ∧
      (mutt_render_table example_grid []).map Prod.snd =
        some ([] ++ spanned_table 2 w example_grid.rows) ∧
      (spanned_table 2 w example_grid.rows).count '\n' = 2 * 2 + 1 ∧
      '\n' ∉ border_line w ∧
      ∀ r ∈ example_grid.rows,
        '\n' ∉ spanned_content_line 2 w r.cells ∧
        (spanned_content_line 2 w r.cells).head? = some '|' :=
  mutt_render_table_lines.2.2.2 example_grid [] (by decide) (by decide) (by decide)
    (by decide)

/-! ## The grid as a function of the nodes in document order -/

mutual
theorem extract_table_node_fold :
    ∀ (node : xmlNode) (table : table_data_t),
      extract_table_node node table =
        (preorder node).foldl (fun t n => extract_table_visit n t) table
  | .mk type name content properties children, table => by
    unfold extract_table_node preorder
    rw [List.foldl_cons]
    exact extract_table_children_fold children _
theorem extract_table_children_fold :
    ∀ (children : List xmlNode) (table : table_data_t),
      extract_table_children children table =
        (preorder_list children).foldl (fun t n => extract_table_visit n t) table
  | [], table => by simp [extract_table_children, preorder_list]
  | child :: rest, table => by
    unfold extract_table_children preorder_list
    rw [List.foldl_append, ← extract_table_node_fold child table]
    exact extract_table_children_fold rest _
end

theorem extract_table_visit_table (node : xmlNode) (table : table_data_t)
    (h : is_table_element node = true) : extract_table_visit node table = table_data_zero := by
  simp only [is_table_element, Bool.and_eq_true, decide_eq_true_eq] at h
  unfold extract_table_visit
  rw [if_pos ⟨h.1, by simp [h.2]⟩, if_pos (by simp [name_is, h.2])]
  rfl

theorem extract_table_visit_tr (node : xmlNode) (table : table_data_t)
    (h : is_tr node = true) :
    extract_table_visit node table =
      { table with
        rows := table.rows ++ [{ cells := [], cell_count := 0 }]
        row_count := table.row_count + 1 } := by
  simp only [is_tr, Bool.and_eq_true, decide_eq_true_eq] at h
  unfold extract_table_visit
  rw [if_pos ⟨h.1, by simp [h.2]⟩, if_neg (by simp [name_is, h.2]),
    if_pos (by simp [name_is, h.2])]

theorem extract_table_visit_cell (node : xmlNode) (table : table_data_t)
    (h : is_td_th node = true) :
    extract_table_visit node table =
      if table.rows ≠ [] then
        { table with
          rows := add_cell_to_row (table.row_count - 1) (cell_of_node node) table.rows }
      else table := by
  simp only [is_td_th, Bool.and_eq_true, decide_eq_true_eq, Bool.or_eq_true] at h
  unfold extract_table_visit
  have h1 : node.type = .XML_ELEMENT_NODE ∧ node.name.isSome = true := by
    refine ⟨h.1, ?_⟩
    rcases h.2 with h2 | h2 <;> simp [h2]
  have h2 : ¬ name_is node "table".data = true := by
    rcases h.2 with h2 | h2 <;> simp [name_is, h2]
  have h3 : ¬ name_is node "tr".data = true := by
    rcases h.2 with h2 | h2 <;> simp [name_is, h2]
  have h4 : name_is node "td".data = true ∨ name_is node "th".data = true := by
    rcases h.2 with h2 | h2 <;> simp [name_is, h2]
  rw [if_pos h1, if_neg h2, if_neg h3, if_pos h4]
  rfl

theorem extract_table_visit_other (node : xmlNode) (table : table_data_t)
    (h1 : is_table_element node = false) (h2 : is_tr node = false)
    (h3 : is_td_th node = false) : extract_table_visit node table = table := by
  unfold extract_table_visit
  by_cases h : node.type = .XML_ELEMENT_NODE ∧ node.name.isSome = true
  · rw [if_pos h]
    have e1 : ¬ name_is node "table".data = true := by
      simpa [is_table_element, h.1, name_is] using h1
    have e2 : ¬ name_is node "tr".data = true := by
      simpa [is_tr, h.1, name_is] using h2
    have e3 : ¬ (name_is node "td".data = true ∨ name_is node "th".data = true) := by
      simpa [is_td_th, h.1, name_is] using h3
    rw [if_neg e1, if_neg e2, if_neg e3]
  · rw [if_neg h]

theorem add_cell_to_row_last (cell : table_cell_t) (rows : List table_row_t)
    (last : table_row_t) :
    add_cell_to_row ((rows ++ [last]).length - 1) cell (rows ++ [last]) =
      rows ++ [{ cells := last.cells ++ [cell], cell_count := last.cell_count + 1 }] := by
  induction rows with
  | nil => simp [add_cell_to_row]
  | cons r rest ih =>
    simp only [List.cons_append, List.length_cons, List.length_append, List.length_nil,
      Nat.zero_add, Nat.add_sub_cancel] at ih ⊢
    rw [add_cell_to_row, ih]

theorem foldl_visit_after_last_table (l : List xmlNode) (table : table_data_t)
    (h : l.any is_table_element = true) :
    l.foldl (fun t n => extract_table_visit n t) table =
      (after_last_table l).foldl (fun t n => extract_table_visit n t) table_data_zero := by
  induction l generalizing table with
  | nil => simp at h
  | cons node rest ih =>
    rw [List.foldl_cons, after_last_table]
    by_cases h1 : rest.any is_table_element = true
    · rw [if_pos h1]
      exact ih _ h1
    · rw [if_neg h1]
      have h2 : is_table_element node = true := by
        simp only [List.any_cons, Bool.or_eq_true] at h
        rcases h with h | h
        · exact h
        · exact absurd h h1
      rw [if_pos h2, extract_table_visit_table node table h2]

theorem add_segment_nil (row : table_row_t) : add_segment row [] = row := by
  simp [add_segment]

theorem add_segment_cons_cell (row : table_row_t) (x : xmlNode) (seg : List xmlNode)
    (h : is_td_th x = true) :
    add_segment row (x :: seg) =
      add_segment { cells := row.cells ++ [cell_of_node x], cell_count := row.cell_count + 1 }
        seg := by
  simp only [add_segment, List.filter_cons, h, if_true, List.map_cons, List.length_cons,
    List.append_assoc, List.singleton_append, table_row_t.mk.injEq, true_and]
  omega

theorem add_segment_cons_other (row : table_row_t) (x : xmlNode) (seg : List xmlNode)
    (h : is_td_th x = false) : add_segment row (x :: seg) = add_segment row seg := by
  simp [add_segment, List.filter_cons, h]

theorem is_tr_not_td_th (x : xmlNode) (h : is_tr x = true) : is_td_th x = false := by
  simp only [is_tr, Bool.and_eq_true, decide_eq_true_eq] at h
  simp [is_td_th, h.2]

theorem foldl_visit_with_row (l : List xmlNode) (pre : List table_row_t) (last : table_row_t)
    (table : table_data_t) (hl : ∀ n ∈ l, is_table_element n = false)
    (hrows : table.rows = pre ++ [last]) (hcount : table.row_count = pre.length + 1) :
    l.foldl (fun t n => extract_table_visit n t) table =
      { table with
        rows := pre ++ [add_segment last ((l.splitOnP is_tr).headD [])] ++
          ((l.splitOnP is_tr).tail).map row_of_segment
        row_count := pre.length + 1 + ((l.splitOnP is_tr).tail).length } := by
  induction l generalizing pre last table with
  | nil =>
    simp only [List.foldl_nil, List.splitOnP_nil, List.headD_cons, add_segment_nil,
      List.tail_cons, List.map_nil, List.append_nil, List.length_nil, Nat.add_zero]
    rw [← hrows, ← hcount]
  | cons x xs ih =>
    have hx := hl x (List.mem_cons_self _ _)
    have hxs : ∀ n ∈ xs, is_table_element n = false := fun n hn => hl n (List.mem_cons_of_mem _ hn)
    obtain ⟨h1, tl, hsplit⟩ : ∃ h1 tl, xs.splitOnP is_tr = h1 :: tl := by
      cases hs : xs.splitOnP is_tr with
      | nil => exact absurd hs (List.splitOnP_ne_nil _ _)
      | cons h1 tl => exact ⟨h1, tl, rfl⟩
    rw [List.foldl_cons, List.splitOnP_cons]
    by_cases htr : is_tr x = true
    · rw [if_pos htr, extract_table_visit_tr x table htr]
      rw [ih (pre ++ [last]) { cells := [], cell_count := 0 } _ hxs (by simp [hrows])
        (by simp [hcount])]
      simp only [hsplit, List.headD_cons, List.tail_cons, add_segment_nil, List.map_cons,
        row_of_segment, List.length_append, List.length_cons, List.length_nil,
        List.append_assoc, List.singleton_append, Nat.zero_add]
      congr 1
      omega
    · rw [if_neg htr, hsplit]
      simp only [List.modifyHead_cons, List.headD_cons, List.tail_cons]
      by_cases hcell : is_td_th x = true
      · rw [extract_table_visit_cell x table hcell, if_pos (by simp [hrows])]
        have hadd : add_cell_to_row (table.row_count - 1) (cell_of_node x) table.rows =
            pre ++ [{ cells := last.cells ++ [cell_of_node x],
                      cell_count := last.cell_count + 1 }] := by
          rw [hrows, hcount, ← add_cell_to_row_last]
          simp
        rw [hadd]
        rw [ih pre { cells := last.cells ++ [cell_of_node x], cell_count := last.cell_count + 1 }
          { table with rows := pre ++ [{ cells := last.cells ++ [cell_of_node x],
                                         cell_count := last.cell_count + 1 }] }
          hxs rfl hcount]
        simp only [hsplit, List.headD_cons, List.tail_cons,
          add_segment_cons_cell last x h1 hcell]
      · have hcell2 : is_td_th x = false := by simpa using hcell
        have htr2 : is_tr x = false := by simpa using htr
        rw [extract_table_visit_other x table hx htr2 hcell2]
        rw [ih pre last table hxs hrows hcount]
        simp only [hsplit, List.headD_cons, List.tail_cons,
          add_segment_cons_other last x h1 hcell2]

theorem foldl_visit_zero (l : List xmlNode) (hl : ∀ n ∈ l, is_table_element n = false) :
    l.foldl (fun t n => extract_table_visit n t) table_data_zero =
      { rows := ((l.splitOnP is_tr).tail).map row_of_segment
        row_count := ((l.splitOnP is_tr).tail).length
        max_cols := 0
        col_widths := none } := by
  induction l with
  | nil => rfl
  | cons x xs ih =>
    have hx := hl x (List.mem_cons_self _ _)
    have hxs : ∀ n ∈ xs, is_table_element n = false := fun n hn => hl n (List.mem_cons_of_mem _ hn)
    obtain ⟨h1, tl, hsplit⟩ : ∃ h1 tl, xs.splitOnP is_tr = h1 :: tl := by
      cases hs : xs.splitOnP is_tr with
      | nil => exact absurd hs (List.splitOnP_ne_nil _ _)
      | cons h1 tl => exact ⟨h1, tl, rfl⟩
    rw [List.foldl_cons, List.splitOnP_cons]
    by_cases htr : is_tr x = true
    · rw [if_pos htr, extract_table_visit_tr x _ htr]
      rw [foldl_visit_with_row xs [] { cells := [], cell_count := 0 } _ hxs
        (by simp [table_data_zero]) (by simp [table_data_zero])]
      simp only [hsplit, List.headD_cons, List.tail_cons, List.map_cons, row_of_segment,
        List.nil_append, List.singleton_append, List.length_nil, List.length_cons,
        table_data_zero, Nat.zero_add]
      congr 1
      omega
    · rw [if_neg htr, hsplit]
      simp only [List.modifyHead_cons, List.tail_cons]
      have hsame : extract_table_visit x table_data_zero = table_data_zero := by
        by_cases hcell : is_td_th x = true
        · rw [extract_table_visit_cell x _ hcell, if_neg (by simp [table_data_zero])]
        · exact extract_table_visit_other x _ hx (by simpa using htr) (by simpa using hcell)
      rw [hsame, ih hxs, hsplit]
      rfl

theorem after_last_table_no_table (l : List xmlNode) :
    ∀ n ∈ after_last_table l, is_table_element n = false := by
  induction l with
  | nil => simp [after_last_table]
  | cons x xs ih =>
    rw [after_last_table]
    by_cases h1 : xs.any is_table_element = true
    · rw [if_pos h1]; exact ih
    · rw [if_neg h1]
      have hxs : ∀ n ∈ xs, is_table_element n = false := by
        intro n hn
        cases h : is_table_element n with
        | false => rfl
        | true => exact absurd (List.any_eq_true.mpr ⟨n, hn, h⟩) h1
      by_cases h2 : is_table_element x = true
      · rw [if_pos h2]; exact hxs
      · rw [if_neg h2]
        intro n hn
        rcases List.mem_cons.mp hn with h | h
        · subst h; simpa using h2
        · exact hxs n h

theorem length_tail_splitOnP (l : List xmlNode) :
    ((l.splitOnP is_tr).tail).length = (l.filter is_tr).length := by
  induction l with
  | nil => rfl
  | cons x xs ih =>
    obtain ⟨h1, tl, hsplit⟩ : ∃ h1 tl, xs.splitOnP is_tr = h1 :: tl := by
      cases hs : xs.splitOnP is_tr with
      | nil => exact absurd hs (List.splitOnP_ne_nil _ _)
      | cons h1 tl => exact ⟨h1, tl, rfl⟩
    rw [List.splitOnP_cons, List.filter_cons]
    rw [hsplit] at ih
    by_cases htr : is_tr x = true
    · simp only [htr, if_true, List.tail_cons, hsplit, List.length_cons]
      simpa using ih
    · simp only [htr, Bool.false_eq_true, if_false, hsplit, List.modifyHead_cons, List.tail_cons]
      simpa using ih

/-- **C26.** Every `table` element resets the grid, and the rows are collected in
one flat list: the grid built from the subtree of a `table` element has exactly
one row per `tr` element that comes after the last `table` element of the
subtree in depth-first pre-order, in that order, each holding the cells of the
`td`/`th` elements met up to the next `tr`; `row_count` is the number of these
`tr` elements. With a nested table the rows collected before it are discarded,
and its rows and the later rows of the outer table share the list. -/
theorem extract_table_rows_after_last_table :
    (∀ (node : xmlNode) (table : table_data_t), is_table_element node = true →
      extract_table_visit node table = table_data_zero) ∧
    (∀ (root : xmlNode) (table : table_data_t), is_table_element root = true →
      mutt_html_extract_table (some root) table =
        { rows := rows_of_sequence (preorder root)
          row_count := ((after_last_table (preorder root)).filter is_tr).length
          max_cols := 0
          col_widths := none } ∧
      (rows_of_sequence (preorder root)).length =
        ((after_last_table (preorder root)).filter is_tr).length) ∧
    (mutt_html_extract_table (some example_nested_table) table_data_zero).rows =
      [{ cells := [{ content := some "x ".data, colspan := 1, rowspan := 1 }], cell_count := 1 },
       { cells := [{ content := some "b ".data, colspan := 1, rowspan := 1 }],
         cell_count := 1 }] := by
  refine ⟨extract_table_visit_table, ?_, by rfl⟩
  intro root table hroot
  have hany : (preorder root).any is_table_element = true := by
    obtain ⟨type, name, content, properties, children⟩ := root
    rw [preorder, List.any_cons, hroot]
    rfl
  have hlen : (rows_of_sequence (preorder root)).length =
      ((after_last_table (preorder root)).filter is_tr).length := by
    rw [rows_of_sequence, List.length_map, length_tail_splitOnP]
  refine ⟨?_, hlen⟩
  simp only [mutt_html_extract_table]
  rw [extract_table_node_fold, foldl_visit_after_last_table _ _ hany,
    foldl_visit_zero _ (after_last_table_no_table _), length_tail_splitOnP]
  rfl

/-- Witness for `extract_table_rows_after_last_table`: the table with a table
nested in its second row; only the `tr` of the nested table and the third `tr`
of the outer table come after the last `table` element. -/
theorem extract_table_rows_after_last_table_witness :
    mutt_html_extract_table (some example_nested_table) table_data_zero =
      { rows := rows_of_sequence (preorder example_nested_table)
        row_count := 2, max_cols := 0, col_widths := none } ∧
    ((preorder example_nested_table).filter is_tr).length = 4 ∧
    ((after_last_table (preorder example_nested_table)).filter is_tr).length = 2 :=
  ⟨((extract_table_rows_after_last_table.2.1 example_nested_table table_data_zero
      (by decide)).1).trans (by rfl), by decide, by decide⟩

/-! ## The grid of a table without nesting -/

mutual
theorem all_nodes_preorder (p : xmlNode → Bool) :
    ∀ node : xmlNode, all_nodes p node = (preorder node).all p
  | .mk type name content properties children => by
    unfold all_nodes preorder
    rw [List.all_cons, all_nodes_list_preorder p children]
theorem all_nodes_list_preorder (p : xmlNode → Bool) :
    ∀ children : List xmlNode, all_nodes_list p children = (preorder_list children).all p
  | [] => by simp [all_nodes_list, preorder_list]
  | child :: rest => by
    unfold all_nodes_list preorder_list
    rw [List.all_append, all_nodes_preorder p child, all_nodes_list_preorder p rest]
end

theorem foldl_visit_no_grid (l : List xmlNode) (table : table_data_t)
    (h : l.all (fun n => !(is_grid_element n)) = true) :
    l.foldl (fun t n => extract_table_visit n t) table = table := by
  induction l generalizing table with
  | nil => rfl
  | cons x xs ih =>
    rw [List.all_cons, Bool.and_eq_true] at h
    have hx := h.1
    simp only [is_grid_element, Bool.not_eq_true', Bool.or_eq_false_iff] at hx
    rw [List.foldl_cons, extract_table_visit_other x table hx.1.1 hx.1.2 hx.2]
    exact ih table h.2

theorem filter_is_tr_no_grid (l : List xmlNode)
    (h : l.all (fun n => !(is_grid_element n)) = true) : l.filter is_tr = [] := by
  rw [List.filter_eq_nil_iff]
  intro n hn
  have := List.all_eq_true.mp h n hn
  simp only [is_grid_element, Bool.not_eq_true', Bool.or_eq_false_iff] at this
  simp [this.1.2]

theorem extract_table_no_grid (node : xmlNode) (table : table_data_t)
    (h : no_grid_element node = true) : extract_table_node node table = table := by
  rw [extract_table_node_fold]
  apply foldl_visit_no_grid
  rw [← all_nodes_preorder]
  exact h

theorem extract_table_cell_subtree (node : xmlNode) (pre : List table_row_t)
    (last : table_row_t) (table : table_data_t) (h : is_cell_subtree node = true)
    (hrows : table.rows = pre ++ [last]) (hcount : table.row_count = pre.length + 1) :
    extract_table_node node table =
      { table with
        rows := pre ++ [{ cells := last.cells ++ [cell_of_node node],
                          cell_count := last.cell_count + 1 }] } := by
  simp only [is_cell_subtree, Bool.and_eq_true] at h
  obtain ⟨type, name, content, properties, children⟩ := node
  rw [extract_table_node_fold, preorder, List.foldl_cons,
    extract_table_visit_cell _ table h.1, if_pos (by simp [hrows])]
  rw [foldl_visit_no_grid _ _ (by rw [← all_nodes_list_preorder]; exact h.2)]
  rw [hrows, hcount, ← add_cell_to_row_last]
  simp

theorem extract_table_row_children (children : List xmlNode) (pre : List table_row_t)
    (last : table_row_t) (table : table_data_t)
    (h : children.all (fun c =>
      is_cell_subtree c || (!(decide (c.type = .XML_ELEMENT_NODE)) && no_grid_element c)) = true)
    (hrows : table.rows = pre ++ [last]) (hcount : table.row_count = pre.length + 1) :
    extract_table_children children table =
      { table with rows := pre ++ [add_segment last children] } := by
  induction children generalizing last table with
  | nil =>
    simp only [extract_table_children, add_segment_nil]
    rw [← hrows]
  | cons c rest ih =>
    rw [List.all_cons, Bool.and_eq_true] at h
    unfold extract_table_children
    by_cases hc : is_cell_subtree c = true
    · have htd : is_td_th c = true := by
        simp only [is_cell_subtree, Bool.and_eq_true] at hc
        exact hc.1
      rw [extract_table_cell_subtree c pre last table hc hrows hcount]
      rw [ih { cells := last.cells ++ [cell_of_node c], cell_count := last.cell_count + 1 }
        { table with rows := pre ++ [{ cells := last.cells ++ [cell_of_node c],
                                       cell_count := last.cell_count + 1 }] }
        h.2 rfl hcount, add_segment_cons_cell last c rest htd]
    · have h1 := h.1
      simp only [hc, Bool.false_or, Bool.and_eq_true, Bool.not_eq_true',
        decide_eq_false_iff_not] at h1
      have htd : is_td_th c = false := by
        simp [is_td_th, h1.1]
      rw [extract_table_no_grid c table h1.2, ih last table h.2 hrows hcount,
        add_segment_cons_other last c rest htd]

theorem extract_table_row_subtree (node : xmlNode) (table : table_data_t)
    (h : is_row_subtree node = true) (hcount : table.row_count = table.rows.length) :
    extract_table_node node table =
      { table with
        rows := table.rows ++ [row_of_tr node]
        row_count := table.row_count + 1 } ∧
    (preorder node).filter is_tr = [node] := by
  simp only [is_row_subtree, Bool.and_eq_true] at h
  obtain ⟨type, name, content, properties, children⟩ := node
  constructor
  · unfold extract_table_node
    rw [extract_table_visit_tr _ table h.1]
    rw [extract_table_row_children children table.rows { cells := [], cell_count := 0 } _ h.2
      rfl (by simp [hcount])]
    simp [row_of_tr, direct_cells, xmlNode.children, add_segment]
  · rw [preorder, List.filter_cons, if_pos h.1]
    congr 1
    have h2 := h.2
    simp only [xmlNode.children] at h2
    clear h
    induction children with
    | nil => rfl
    | cons c rest ih =>
      rw [List.all_cons, Bool.and_eq_true] at h2
      rw [preorder_list, List.filter_append, ih h2.2, List.append_nil]
      have h1 := h2.1
      rw [Bool.or_eq_true] at h1
      rcases h1 with h1 | h1
      · simp only [is_cell_subtree, Bool.and_eq_true] at h1
        obtain ⟨t2, n2, c2, p2, ch2⟩ := c
        rw [preorder, List.filter_cons, if_neg (by
          have := is_tr_not_td_th (.mk t2 n2 c2 p2 ch2)
          intro htr
          rw [this htr] at h1
          exact absurd h1.1 (by simp))]
        apply filter_is_tr_no_grid
        rw [← all_nodes_list_preorder]
        exact h1.2
      · simp only [Bool.and_eq_true] at h1
        apply filter_is_tr_no_grid
        rw [← all_nodes_preorder]
        exact h1.2

mutual
theorem extract_table_rows_region :
    ∀ (node : xmlNode) (table : table_data_t), is_rows_region node = true →
      table.row_count = table.rows.length →
      extract_table_node node table =
        { table with
          rows := table.rows ++ ((preorder node).filter is_tr).map row_of_tr
          row_count := table.row_count + ((preorder node).filter is_tr).length }
  | .mk type name content properties children, table, h, hcount => by
    unfold is_rows_region at h
    by_cases hrow : is_row_subtree (.mk type name content properties children) = true
    · obtain ⟨h1, h2⟩ := extract_table_row_subtree _ table hrow hcount
      rw [h1, h2]
      rfl
    · simp only [hrow, Bool.false_or, Bool.and_eq_true, Bool.not_eq_true'] at h
      have hg := h.1
      simp only [is_grid_element, Bool.or_eq_false_iff] at hg
      unfold extract_table_node
      rw [extract_table_visit_other _ table hg.1.1 hg.1.2 hg.2,
        extract_table_rows_region_list children table h.2 hcount,
        preorder, List.filter_cons, if_neg (by simp [hg.1.2])]
theorem extract_table_rows_region_list :
    ∀ (children : List xmlNode) (table : table_data_t), is_rows_region_list children = true →
      table.row_count = table.rows.length →
      extract_table_children children table =
        { table with
          rows := table.rows ++ ((preorder_list children).filter is_tr).map row_of_tr
          row_count := table.row_count + ((preorder_list children).filter is_tr).length }
  | [], table, _, _ => by simp [extract_table_children, preorder_list]
  | child :: rest, table, h, hcount => by
    unfold is_rows_region_list at h
    rw [Bool.and_eq_true] at h
    unfold extract_table_children
    rw [extract_table_rows_region child table h.1 hcount,
      extract_table_rows_region_list rest _ h.2 (by simp [hcount])]
    simp only [preorder_list, List.filter_append, List.map_append, List.length_append,
      List.append_assoc, Nat.add_assoc]
end

/-- Counterexample to C25 as stated: in `<table><tr><td>a</td></tr><td>x</td></table>`
the `tr` has one `td` child, but the `td` that follows the row as a child of the
table is linked to that row too, which gets two cells. -/
theorem extract_table_stray_cell :
    ((preorder example_stray_cell).filter is_tr).map (fun tr => (direct_cells tr).length) = [1] ∧
    (mutt_html_extract_table (some example_stray_cell) table_data_zero).rows =
      [{ cells := [{ content := some "a ".data, colspan := 1, rowspan := 1 },
                   { content := some "x ".data, colspan := 1, rowspan := 1 }],
         cell_count := 2 }] := by
  constructor <;> rfl

/-- **C25 (amended).** For every `table` element that has no `table` element among
its descendants, in which every `td`/`th` element is a child of a `tr` element,
whose `tr` elements have only `td`/`th` elements as element children, and whose
cells contain no `tr`, `td` or `th` elements, `mutt_html_extract_table` builds a
grid with exactly one row per `tr` element in document order, each row holding
exactly one cell per `td`/`th` child of that `tr` in document order, with the
content `mutt_extract_cell_text` of the child; `row_count` is the number of
rows and each `cell_count` the number of cells of its row. -/
theorem extract_table_simple (root : xmlNode) (table : table_data_t)
    (h : is_simple_table root = true) :
    mutt_html_extract_table (some root) table =
      { rows := ((preorder root).filter is_tr).map row_of_tr
        row_count := ((preorder root).filter is_tr).length
        max_cols := 0
        col_widths := none } ∧
    (∀ tr : xmlNode, (row_of_tr tr).cells = (direct_cells tr).map cell_of_node ∧
      (row_of_tr tr).cell_count = (row_of_tr tr).cells.length) ∧
    (∀ cell : xmlNode, (cell_of_node cell).content = mutt_extract_cell_text (some cell)) := by
  simp only [is_simple_table, Bool.and_eq_true] at h
  refine ⟨?_, fun tr => ⟨rfl, by simp [row_of_tr]⟩, fun cell => by simp [cell_of_node, read_spans_eq]⟩
  obtain ⟨type, name, content, properties, children⟩ := root
  simp only [mutt_html_extract_table, xmlNode.children] at h ⊢
  unfold extract_table_node
  rw [extract_table_visit_table _ table h.1,
    extract_table_rows_region_list children table_data_zero h.2 rfl,
    preorder, List.filter_cons, if_neg (by
      have h1 := h.1
      simp only [is_table_element, Bool.and_eq_true, decide_eq_true_eq] at h1
      simp [is_tr, h1.2])]
  simp [table_data_zero]

/-- Witness for `extract_table_simple`: a table with a `tbody` of two rows, the
first with a `td` and a `th` of colspan 2, the second with one `td`. -/
theorem extract_table_simple_witness :
    mutt_html_extract_table (some example_simple_table) table_data_zero =
      { rows :=
          [{ cells := [{ content := some "a ".data, colspan := 1, rowspan := 1 },
                       { content := some "b ".data, colspan := 2, rowspan := 1 }],
             cell_count := 2 },
           { cells := [{ content := some "c ".data, colspan := 1, rowspan := 1 }],
             cell_count := 1 }]
        row_count := 2, max_cols := 0, col_widths := none } :=
  ((extract_table_simple example_simple_table table_data_zero (by decide)).1).trans (by rfl)

/-! ### `wrap_and_append` only inserts newlines -/

theorem without_newlines_cons_newline (s : List Char) :
    without_newlines ('\n' :: s) = without_newlines s := by
  unfold without_newlines
  rw [List.filter_cons, if_neg (by simp)]

theorem without_newlines_cons_of_ne (p : Char) (s : List Char) (h : p ≠ '\n') :
    without_newlines (p :: s) = p :: without_newlines s := by
  unfold without_newlines
  rw [List.filter_cons, if_pos (by simpa using h)]

theorem without_newlines_wrap_loop (width : Int) (s : CStr) (col : Int) :
    without_newlines (wrap_loop width s col []) = without_newlines s := by
  induction s generalizing col with
  | nil =>
    unfold wrap_loop
    split_ifs
    · exact without_newlines_cons_newline []
    · rfl
  | cons p rest ih =>
    unfold wrap_loop
    by_cases h1 : p = '\n'
    · rw [if_pos h1, wrap_loop_append, h1]
      simp only [mutt_buffer_addch, List.nil_append, List.singleton_append]
      rw [without_newlines_cons_newline, without_newlines_cons_newline]
      exact ih 0
    · rw [if_neg h1]
      by_cases h2 : col ≥ width ∧ p ≠ ' '
      · rw [if_pos h2, wrap_loop_append]
        simp only [mutt_buffer_addch, List.nil_append, List.cons_append, List.singleton_append]
        rw [without_newlines_cons_newline, without_newlines_cons_of_ne p _ h1,
          without_newlines_cons_of_ne p _ h1, ih]
      · rw [if_neg h2, wrap_loop_append]
        simp only [mutt_buffer_addch, List.nil_append, List.singleton_append]
        rw [without_newlines_cons_of_ne p _ h1, without_newlines_cons_of_ne p _ h1, ih]

/-- **C31.** `wrap_and_append` only inserts newlines: for every text and every
width, also a width that is zero or negative, the appended text with its
newlines deleted is the input text with its newlines deleted; the buffer is
kept in front of the appended text. -/
theorem wrap_and_append_only_inserts_newlines (buffer : BUFFER) (s : CStr) (width : Int) :
    wrap_and_append buffer s width = buffer ++ wrap_and_append [] s width ∧
    without_newlines (wrap_and_append [] s width) = without_newlines s := by
  exact ⟨wrap_and_append_append buffer s width, without_newlines_wrap_loop width s 0⟩

/-! ### The lines of `wrap_and_append` -/

theorem text_lines_append_newline (cur rest : List Char) (h : '\n' ∉ cur) :
    text_lines (cur ++ '\n' :: rest) = cur :: text_lines rest := by
  unfold text_lines
  apply List.splitOnP_first
  · intro x hx
    simp only [decide_eq_true_eq]
    intro hn
    exact h (hn ▸ hx)
  · simp

theorem text_lines_no_newline (cur : List Char) (h : '\n' ∉ cur) : text_lines cur = [cur] := by
  unfold text_lines
  apply List.splitOnP_eq_single
  intro x hx
  simp only [decide_eq_true_eq]
  intro hn
  exact h (hn ▸ hx)

theorem wrap_loop_lines (w : Nat) (hw : 1 ≤ w) (s : CStr) (cur : List Char)
    (hcur : '\n' ∉ cur) (hsp : ∀ c ∈ cur.drop w, c = ' ') :
    ∀ line ∈ text_lines (cur ++ wrap_loop (w : Int) s (cur.length : Int) []),
      ∀ c ∈ line.drop w, c = ' ' := by
  induction s generalizing cur with
  | nil =>
    unfold wrap_loop
    split_ifs with h
    · simp only [mutt_buffer_addch, List.nil_append]
      rw [text_lines_append_newline cur [] hcur]
      intro line hl
      simp only [text_lines, List.splitOnP_nil, List.mem_cons, List.mem_singleton,
        List.not_mem_nil, or_false] at hl
      rcases hl with hl | hl
      · subst hl; exact hsp
      · subst hl; simp
    · rw [List.append_nil, text_lines_no_newline cur hcur]
      intro line hl
      rw [List.mem_singleton] at hl
      subst hl; exact hsp
  | cons p rest ih =>
    unfold wrap_loop
    by_cases h1 : p = '\n'
    · rw [if_pos h1, wrap_loop_append]
      simp only [mutt_buffer_addch, List.nil_append, List.singleton_append]
      rw [text_lines_append_newline cur _ hcur]
      intro line hl
      rcases List.mem_cons.mp hl with hl | hl
      · subst hl; exact hsp
      · have := ih [] (by simp) (by simp)
        simp only [List.nil_append, List.length_nil, Nat.cast_zero] at this
        exact this line hl
    · rw [if_neg h1]
      by_cases h2 : (cur.length : Int) ≥ (w : Int) ∧ p ≠ ' '
      · rw [if_pos h2, wrap_loop_append]
        simp only [mutt_buffer_addch, List.nil_append, List.cons_append]
        rw [text_lines_append_newline cur _ hcur]
        intro line hl
        rcases List.mem_cons.mp hl with hl | hl
        · subst hl; exact hsp
        · have := ih [p] (by simpa using fun h => h1 h.symm)
            (by
              intro c hc
              have : List.drop w [p] = [] := List.drop_eq_nil_of_le (by simpa using hw)
              rw [this] at hc
              simp at hc)
          simp only [List.singleton_append, List.length_singleton, Nat.cast_one] at this
          rw [show ((0 : Int) + 1) = 1 by norm_num] at hl
          exact this line hl
      · rw [if_neg h2, wrap_loop_append]
        simp only [mutt_buffer_addch, List.nil_append, List.singleton_append]
        have := ih (cur ++ [p])
          (by
            intro h
            rcases List.mem_append.mp h with h | h
            · exact hcur h
            · exact h1 (List.mem_singleton.mp h).symm)
          (by
            intro c hc
            rw [List.drop_append_eq_append_drop] at hc
            rcases List.mem_append.mp hc with hc | hc
            · exact hsp c hc
            · have hp : c = p := List.mem_singleton.mp (List.mem_of_mem_drop hc)
              by_cases h3 : (cur.length : Int) ≥ (w : Int)
              · have : p = ' ' := by
                  by_contra h4
                  exact h2 ⟨h3, h4⟩
                rw [hp, this]
              · have : List.drop (w - cur.length) [p] = [] :=
                  List.drop_eq_nil_of_le (by simp only [List.length_singleton]; omega)
                rw [this] at hc
                simp at hc)
        simp only [List.append_assoc, List.singleton_append, List.length_append,
          List.length_singleton, Nat.cast_add, Nat.cast_one] at this
        exact this

theorem strip_trailing_spaces_length (w : Nat) (line : List Char)
    (h : ∀ c ∈ line.drop w, c = ' ') : (strip_trailing_spaces line).length ≤ w := by
  unfold strip_trailing_spaces
  rw [List.length_reverse]
  conv_lhs => rw [← List.take_append_drop w line, List.reverse_append]
  have hdrop : ∀ (a b : List Char), (∀ c ∈ a, c = ' ') →
      (a ++ b).dropWhile (fun c => decide (c = ' ')) = b.dropWhile (fun c => decide (c = ' ')) := by
    intro a b ha
    induction a with
    | nil => rfl
    | cons x xs ih =>
      have hx := ha x (List.mem_cons_self _ _)
      simp only [List.cons_append, List.dropWhile_cons, hx, decide_True, if_true]
      exact ih (fun c hc => ha c (List.mem_cons_of_mem _ hc))
  rw [hdrop _ _ (fun c hc => h c (List.mem_reverse.mp hc))]
  calc ((List.take w line).reverse.dropWhile (fun c => decide (c = ' '))).length
      ≤ (List.take w line).reverse.length := (List.dropWhile_sublist _).length_le
    _ ≤ w := by simp

/-- **C32.** For every width `w ≥ 1` and every text, each line of the text
`wrap_and_append` appends has all its characters other than spaces within its
first `w` positions: what follows the first `w` characters of a line is spaces
only, so the line without its trailing spaces has at most `w` characters. -/
theorem wrap_and_append_line_width (w : Nat) (s : CStr) (hw : 1 ≤ w) :
    ∀ line ∈ text_lines (wrap_and_append [] s (w : Int)),
      (∀ c ∈ line.drop w, c = ' ') ∧ (strip_trailing_spaces line).length ≤ w := by
  intro line hl
  have h := wrap_loop_lines w hw s [] (by simp) (by simp)
  simp only [List.nil_append, List.length_nil, Nat.cast_zero] at h
  have h1 := h line hl
  exact ⟨h1, strip_trailing_spaces_length w line h1⟩

/-- Witness for `wrap_and_append_line_width`: `"ab cd   efgh"` at width 4 is
broken into the lines `"ab c"`, `"d   "`, `"efgh"` and the empty rest. -/
theorem wrap_and_append_line_width_witness :
    text_lines (wrap_and_append [] "ab cd   efgh".data ((4 : Nat) : Int)) =
      ["ab c".data, "d   ".data, "efgh".data, []] ∧
    ∀ line ∈ text_lines (wrap_and_append [] "ab cd   efgh".data ((4 : Nat) : Int)),
      (∀ c ∈ line.drop 4, c = ' ') ∧ (strip_trailing_spaces line).length ≤ 4 :=
  ⟨by decide, wrap_and_append_line_width 4 "ab cd   efgh".data (by decide)⟩

/-! ## The length of cell segments and content lines -/

theorem length_cell_segment (k : Nat) (cell : table_cell_t) (h : content_len cell ≤ k) :
    (cell_segment k cell).length = k + 3 := by
  simp only [cell_segment, List.length_cons, List.length_append, length_content,
    List.length_replicate, List.length_nil]
  omega

theorem length_border_line (w : List Nat) :
    (border_line w).length = 1 + (w.map (fun k => k + 3)).sum := by
  unfold border_line
  induction w with
  | nil => rfl
  | cons x w1 ih =>
    simp only [List.length_cons, List.flatMap_cons, List.length_append, List.length_replicate,
      List.length_nil, List.map_cons, List.sum_cons] at ih ⊢
    omega

theorem le_max_len_at (starts : List (Int × table_cell_t)) (p : Int × table_cell_t)
    (hp : p ∈ starts) (c : Nat) (hc : p.1 = (c : Int)) :
    content_len p.2 ≤ max_len_at starts c := by
  induction starts with
  | nil => simp at hp
  | cons q rest ih =>
    rw [max_len_at_cons]
    rcases List.mem_cons.mp hp with h | h
    · subst h
      rw [if_pos hc]
      exact le_max_left _ _
    · have := ih h
      split_ifs
      · exact le_trans this (le_max_right _ _)
      · exact this

theorem le_start_column_width (rows : List table_row_t) (r : table_row_t) (hr : r ∈ rows)
    (p : Int × table_cell_t) (hp : p ∈ start_columns r.cells 0) (c : Nat)
    (hc : p.1 = (c : Int)) : content_len p.2 ≤ start_column_width rows c := by
  unfold start_column_width
  exact le_max_len_at _ p (List.mem_flatMap.mpr ⟨r, hr, hp⟩) c hc

theorem mutt_render_table_spanned_widths (table : table_data_t) (buffer : BUFFER)
    (hrows : table.rows ≠ []) (hm : 0 < calc_max_cols table.rows 0)
    (hspan : ∀ r ∈ table.rows, ∀ cell ∈ r.cells,
      0 ≤ cell.colspan ∧ cell.colspan + (calc_max_cols table.rows 0 : Int) ≤ 2 ^ 31) :
    ∃ w, w.length = calc_max_cols table.rows 0 ∧
      (∀ c < calc_max_cols table.rows 0, w.getD c 0 = start_column_width table.rows c) ∧
      mutt_render_table table buffer =
        some ({ table with max_cols := calc_max_cols table.rows 0, col_widths := some w },
          buffer ++ spanned_table (calc_max_cols table.rows 0) w table.rows) := by
  obtain ⟨w, h1, h2, h3⟩ := calc_widths_rows_spans (calc_max_cols table.rows 0) table.rows
    (List.replicate (calc_max_cols table.rows 0) 0) (by simp) hspan
  refine ⟨w, h2, fun c hc => ?_, ?_⟩
  · rw [h3 c hc]
    simp [List.getD_eq_getElem?_getD, hc]
  · unfold mutt_render_table
    rw [if_neg hrows]
    simp only
    rw [if_neg (by omega), h1]
    simp only
    rw [render_rows_segments _ w table.rows buffer h2 hspan]
    simp only
    have := render_border_eq w
    rw [h2] at this
    rw [this]
    simp [spanned_table]

theorem sum_drop_succ_le (v : List Nat) (i j : Nat) (h : i ≤ j) :
    (v.drop j).sum ≤ (v.drop i).sum := by
  induction v generalizing i j with
  | nil => simp
  | cons x v1 ih =>
    cases i with
    | zero =>
      cases j with
      | zero => exact le_refl _
      | succ j1 =>
        have := ih 0 j1 (Nat.zero_le _)
        simp only [List.drop_succ_cons, List.drop_zero, List.sum_cons] at this ⊢
        omega
    | succ i1 =>
      cases j with
      | zero => omega
      | succ j1 =>
        simp only [List.drop_succ_cons]
        exact ih i1 j1 (by omega)

theorem sum_drop_eq (v : List Nat) (i : Nat) (h : i < v.length) :
    (v.drop i).sum = v.getD i 0 + (v.drop (i + 1)).sum := by
  induction v generalizing i with
  | nil => simp at h
  | cons x v1 ih =>
    cases i with
    | zero => simp
    | succ i1 =>
      simp only [List.drop_succ_cons, List.getD_cons_succ]
      exact ih i1 (by simpa using h)

theorem sum_rendered_le (m : Nat) (w : List Nat) (hw : w.length = m)
    (cells : List table_cell_t) (col : Int) (hcol : 0 ≤ col)
    (hspan : ∀ cell ∈ cells, 1 ≤ cell.colspan) :
    (((start_columns cells col).filter (fun p => decide (p.1 < (m : Int)))).map
        (fun p => w.getD p.1.toNat 0 + 3)).sum ≤ ((w.map (fun k => k + 3)).drop col.toNat).sum := by
  induction cells generalizing col with
  | nil => simp [start_columns]
  | cons cell rest ih =>
    have hs := hspan cell (List.mem_cons_self _ _)
    have hrest : ∀ c ∈ rest, 1 ≤ c.colspan := fun c hc => hspan c (List.mem_cons_of_mem _ hc)
    rw [start_columns, List.filter_cons]
    by_cases h1 : col < (m : Int)
    · rw [if_pos (by simpa using h1)]
      have h2 := ih (col + cell.colspan) (by omega) hrest
      have h3 := sum_drop_succ_le (w.map (fun k => k + 3)) (col.toNat + 1)
        (col + cell.colspan).toNat (by omega)
      have h4 := sum_drop_eq (w.map (fun k => k + 3)) col.toNat (by simp; omega)
      have h5 : (w.map (fun k => k + 3)).getD col.toNat 0 = w.getD col.toNat 0 + 3 := by
        have hlt : col.toNat < w.length := by omega
        simp [List.getD_eq_getElem?_getD, List.getElem?_eq_getElem hlt]
      simp only [List.map_cons, List.sum_cons]
      omega
    · rw [if_neg (by simpa using h1)]
      have : (start_columns rest (col + cell.colspan)).filter
          (fun p => decide (p.1 < (m : Int))) = [] := by
        rw [List.filter_eq_nil_iff]
        intro p hp
        have := start_columns_ge rest (col + cell.colspan)
          (fun c hc => by have := hrest c hc; omega) p hp
        simp only [decide_eq_true_eq]
        omega
      rw [this]
      simp

theorem map_getD_range (w : List Nat) :
    (List.range w.length).map (fun c => w.getD c 0 + 3) = w.map (fun k => k + 3) := by
  apply List.ext_getElem
  · simp
  · intro n h1 h2
    simp only [List.length_map, List.length_range] at h1
    simp [List.getD_eq_getElem?_getD, List.getElem?_eq_getElem h1]

theorem length_spanned_content_line (m : Nat) (w : List Nat) (cells : List table_cell_t)
    (hle : ∀ p ∈ rendered_cells m cells, content_len p.2 ≤ w.getD p.1.toNat 0) :
    (spanned_content_line m w cells).length =
      1 + ((rendered_cells m cells).map (fun p => w.getD p.1.toNat 0 + 3)).sum := by
  unfold spanned_content_line
  generalize rendered_cells m cells = l at hle
  rw [List.length_cons, Nat.add_comm]
  congr 1
  induction l with
  | nil => rfl
  | cons p rest ih =>
    rw [List.flatMap_cons, List.length_append, List.map_cons, List.sum_cons,
      length_cell_segment _ _ (hle p (List.mem_cons_self _ _)),
      ih (fun q hq => hle q (List.mem_cons_of_mem _ hq))]

/-- **C33 (the code at the failing input, and where the claim holds).** In the grid
built from a row `a`, `b` with `colspan="2147483647"`, `c` every colspan is at
least 1, yet the column cursor overflows after `b` and `mutt_render_table`
leaves its width vector instead of emitting cell segments. For every grid in
which every colspan is non-negative and small enough for the cursor not to
overflow (`colspan + max_cols ≤ 2^31`), the segment of each rendered cell is a
space, the whole content, padding spaces up to the width `w[c]` of the starting
column `c` of the cell, a space and `|`; the content is not longer than `w[c]`
and the segment has exactly `w[c] + 3` characters. When moreover every colspan
is at least 1, every content line is at most as long as the border line, and
exactly as long when the rendered cells of the row start at the columns
`0, 1, .., C - 1`. -/
theorem mutt_render_table_cell_segments :
    ((∀ r ∈ (mutt_html_extract_table (some example_huge_colspan) table_data_zero).rows,
        ∀ cell ∈ r.cells, 1 ≤ cell.colspan) ∧
      mutt_render_table (mutt_html_extract_table (some example_huge_colspan) table_data_zero)
        [] = none) ∧
    ∀ (table : table_data_t) (buffer : BUFFER),
      table.rows ≠ [] → 0 < calc_max_cols table.rows 0 →
      (∀ r ∈ table.rows, ∀ cell ∈ r.cells,
        0 ≤ cell.colspan ∧ cell.colspan + (calc_max_cols table.rows 0 : Int) ≤ 2 ^ 31) →
      ∃ w, w.length = calc_max_cols table.rows 0 ∧
        mutt_render_table table buffer =
          some ({ table with max_cols := calc_max_cols table.rows 0, col_widths := some w },
            buffer ++ spanned_table (calc_max_cols table.rows 0) w table.rows) ∧
        (∀ r ∈ table.rows, ∀ p ∈ rendered_cells (calc_max_cols table.rows 0) r.cells,
          content_len p.2 ≤ w.getD p.1.toNat 0 ∧
          cell_segment (w.getD p.1.toNat 0) p.2 =
            [' '] ++ p.2.content.getD [] ++
              List.replicate (w.getD p.1.toNat 0 - content_len p.2) ' ' ++ [' ', '|'] ∧
          (cell_segment (w.getD p.1.toNat 0) p.2).length = w.getD p.1.toNat 0 + 3) ∧
        ((∀ r ∈ table.rows, ∀ cell ∈ r.cells, 1 ≤ cell.colspan) →
          ∀ r ∈ table.rows,
            (spanned_content_line (calc_max_cols table.rows 0) w r.cells).length ≤
              (border_line w).length ∧
            ((rendered_cells (calc_max_cols table.rows 0) r.cells).map (fun p => p.1) =
                (List.range (calc_max_cols table.rows 0)).map Int.ofNat →
              (spanned_content_line (calc_max_cols table.rows 0) w r.cells).length =
                (border_line w).length)) := by
  refine ⟨⟨by decide, by rfl⟩, ?_⟩
  intro table buffer hrows hm hspan
  obtain ⟨w, hw, hwidth, hrender⟩ := mutt_render_table_spanned_widths table buffer hrows hm hspan
  have hle : ∀ r ∈ table.rows, ∀ p ∈ rendered_cells (calc_max_cols table.rows 0) r.cells,
      content_len p.2 ≤ w.getD p.1.toNat 0 := by
    intro r hr p hp
    obtain ⟨hp1, hp2⟩ := List.mem_filter.mp hp
    have h0 := start_columns_ge r.cells 0 (fun c hc => (hspan r hr c hc).1) p hp1
    have h1 : p.1 < (calc_max_cols table.rows 0 : Int) := by simpa using hp2
    rw [hwidth p.1.toNat (by omega)]
    exact le_start_column_width table.rows r hr p hp1 p.1.toNat (by omega)
  refine ⟨w, hw, hrender, fun r hr p hp => ⟨hle r hr p hp, ?_, ?_⟩, fun hone r hr => ?_⟩
  · simp [cell_segment]
  · exact length_cell_segment _ _ (hle r hr p hp)
  · rw [length_spanned_content_line _ w r.cells (hle r hr), length_border_line]
    refine ⟨?_, fun hall => ?_⟩
    · have := sum_rendered_le (calc_max_cols table.rows 0) w hw r.cells 0 (le_refl _)
        (hone r hr)
      simp only [Int.toNat_zero, List.drop_zero] at this
      unfold rendered_cells
      omega
    · have h1 : (rendered_cells (calc_max_cols table.rows 0) r.cells).map
          (fun p => w.getD p.1.toNat 0 + 3) =
          ((rendered_cells (calc_max_cols table.rows 0) r.cells).map (fun p => p.1)).map
            (fun c => w.getD c.toNat 0 + 3) := by
        rw [List.map_map]
        rfl
      rw [h1, hall, List.map_map, ← hw, ← map_getD_range w]
      congr 2

/-- Witness for `mutt_render_table_cell_segments`: in the grid with the rows
`aaaa` (colspan 2), `bb` and `c`, `ddd`, (empty) the widths are `[4, 3, 2]`; the
first content line has 13 characters, the second one and the border line 19.
With a colspan of 0 two cells start at column 0 and the content line (9
characters) is longer than the border line (8 characters). -/
theorem mutt_render_table_cell_segments_witness :
    (∃ w, w.length = 3 ∧
      mutt_render_table example_spanned_grid [] =
        some ({ example_spanned_grid with max_cols := 3, col_widths := some w },
          [] ++ spanned_table 3 w example_spanned_grid.rows) ∧
      (∀ r ∈ example_spanned_grid.rows, ∀ p ∈ rendered_cells 3 r.cells,
        content_len p.2 ≤ w.getD p.1.toNat 0 ∧
        cell_segment (w.getD p.1.toNat 0) p.2 =
          [' '] ++ p.2.content.getD [] ++
            List.replicate (w.getD p.1.toNat 0 - content_len p.2) ' ' ++ [' ', '|'] ∧
        (cell_segment (w.getD p.1.toNat 0) p.2).length = w.getD p.1.toNat 0 + 3) ∧
      ((∀ r ∈ example_spanned_grid.rows, ∀ cell ∈ r.cells, 1 ≤ cell.colspan) →
        ∀ r ∈ example_spanned_grid.rows,
          (spanned_content_line 3 w r.cells).length ≤ (border_line w).length ∧
          ((rendered_cells 3 r.cells).map (fun p => p.1) =
              (List.range 3).map Int.ofNat →
            (spanned_content_line 3 w r.cells).length = (border_line w).length))) ∧
    (example_spanned_grid.rows.map (fun r => (spanned_content_line 3 [4, 3, 2] r.cells).length) =
        [13, 19] ∧ (border_line [4, 3, 2]).length = 19) ∧
    ((mutt_render_table example_zero_colspan_grid []).map Prod.snd =
        some "+---+--+\n| a | b |\n+---+--+\n".data ∧
      example_zero_colspan_grid.rows.map
          (fun r => (spanned_content_line 2 [1, 0] r.cells).length) = [9] ∧
      (border_line [1, 0]).length = 8) :=
  ⟨mutt_render_table_cell_segments.2 example_spanned_grid [] (by decide) (by decide)
    (by decide), by decide, by decide⟩

/-! ## The grid of a data table without nested table -/

theorem preorder_list_append (l1 l2 : List xmlNode) :
    preorder_list (l1 ++ l2) = preorder_list l1 ++ preorder_list l2 := by
  induction l1 with
  | nil => simp [preorder_list]
  | cons x xs ih => simp [preorder_list, ih]

theorem preorder_eq (node : xmlNode) : preorder node = node :: preorder_list node.children := by
  obtain ⟨type, name, content, properties, children⟩ := node
  rw [preorder]
  rfl

theorem length_filter_children_le (p : xmlNode → Bool) (children : List xmlNode) :
    (children.filter p).length ≤ ((preorder_list children).filter p).length := by
  induction children with
  | nil => simp
  | cons x xs ih =>
    rw [preorder_list, preorder_eq, List.filter_append, List.length_append, List.filter_cons,
      List.filter_cons]
    split_ifs
    · simp only [List.length_cons]; omega
    · omega

theorem mem_splitOnP_of_not (p : xmlNode → Bool) (l : List xmlNode) (d : xmlNode)
    (hd : d ∈ l) (hp : p d = false) : ∃ seg ∈ l.splitOnP p, d ∈ seg := by
  induction l with
  | nil => simp at hd
  | cons y ys ih =>
    obtain ⟨h1, tl, hsplit⟩ : ∃ h1 tl, ys.splitOnP p = h1 :: tl := by
      cases hs : ys.splitOnP p with
      | nil => exact absurd hs (List.splitOnP_ne_nil _ _)
      | cons h1 tl => exact ⟨h1, tl, rfl⟩
    rw [List.splitOnP_cons]
    rcases List.mem_cons.mp hd with h | h
    · subst h
      rw [if_neg (by simp [hp]), hsplit]
      exact ⟨d :: h1, by simp, List.mem_cons_self _ _⟩
    · obtain ⟨seg, hseg, hmem⟩ := ih h
      by_cases hy : p y = true
      · rw [if_pos hy]
        exact ⟨seg, List.mem_cons_of_mem _ hseg, hmem⟩
      · rw [if_neg hy, hsplit]
        rw [hsplit] at hseg
        rcases List.mem_cons.mp hseg with h2 | h2
        · subst h2
          exact ⟨y :: seg, by simp, List.mem_cons_of_mem _ hmem⟩
        · exact ⟨seg, by simp [h2], hmem⟩

theorem mem_tail_splitOnP (p : xmlNode → Bool) (x y : List xmlNode) (t d : xmlNode)
    (ht : p t = true) (hd : d ∈ y) (hp : p d = false) :
    ∃ seg ∈ ((x ++ t :: y).splitOnP p).tail, d ∈ seg := by
  induction x with
  | nil =>
    rw [List.nil_append, List.splitOnP_cons, if_pos ht, List.tail_cons]
    exact mem_splitOnP_of_not p y d hd hp
  | cons a as ih =>
    obtain ⟨seg, hseg, hmem⟩ := ih
    obtain ⟨h1, tl, hsplit⟩ : ∃ h1 tl, (as ++ t :: y).splitOnP p = h1 :: tl := by
      cases hs : (as ++ t :: y).splitOnP p with
      | nil => exact absurd hs (List.splitOnP_ne_nil _ _)
      | cons h1 tl => exact ⟨h1, tl, rfl⟩
    rw [hsplit, List.tail_cons] at hseg
    rw [List.cons_append, List.splitOnP_cons, hsplit]
    by_cases ha : p a = true
    · rw [if_pos ha, List.tail_cons]
      exact ⟨seg, List.mem_cons_of_mem _ hseg, hmem⟩
    · rw [if_neg ha, List.modifyHead_cons, List.tail_cons]
      exact ⟨seg, hseg, hmem⟩

theorem exists_of_le_foldr_max (f : xmlNode → Nat) (l : List xmlNode) (k : Nat) (hk : 0 < k)
    (h : k ≤ (l.map f).foldr max 0) : ∃ x ∈ l, k ≤ f x := by
  induction l with
  | nil => simp at h; omega
  | cons y ys ih =>
    simp only [List.map_cons, List.foldr_cons] at h
    by_cases hy : k ≤ f y
    · exact ⟨y, List.mem_cons_self _ _, hy⟩
    · obtain ⟨x, hx, hfx⟩ := ih (by omega)
      exact ⟨x, List.mem_cons_of_mem _ hx, hfx⟩

theorem cell_count_le_calc_max_cols (rows : List table_row_t) (r : table_row_t)
    (hr : r ∈ rows) : r.cell_count ≤ calc_max_cols rows 0 := by
  rw [calc_max_cols_eq]
  have : r.cell_count ≤ (rows.map (fun r => r.cell_count)).foldr max 0 := by
    induction rows with
    | nil => simp at hr
    | cons r1 rest ih =>
      simp only [List.map_cons, List.foldr_cons]
      rcases List.mem_cons.mp hr with h | h
      · subst h; exact le_max_left _ _
      · exact le_trans (ih h) (le_max_right _ _)
  omega

theorem count_newline_spanned_table_ge (m : Nat) (w : List Nat) (rows : List table_row_t) :
    2 * rows.length + 1 ≤ (spanned_table m w rows).count '\n' := by
  unfold spanned_table
  induction rows with
  | nil => simp
  | cons r rest ih =>
    simp only [List.flatMap_cons, List.append_assoc, List.count_append, List.count_cons_self,
      List.length_cons, List.count_nil, List.cons_append, List.count_cons] at ih ⊢
    omega

theorem grid_of_no_nested_table (root : xmlNode) (hroot : is_table_element root = true)
    (hnest : all_nodes_list (fun n => !(is_table_element n)) root.children = true) :
    grid_of root =
      { rows := (((preorder_list root.children).splitOnP is_tr).tail).map row_of_segment
        row_count := (((preorder_list root.children).splitOnP is_tr).tail).length
        max_cols := 0
        col_widths := none } := by
  have hno : ∀ n ∈ preorder_list root.children, is_table_element n = false := by
    rw [all_nodes_list_preorder, List.all_eq_true] at hnest
    intro n hn
    simpa using hnest n hn
  unfold grid_of
  simp only [mutt_html_extract_table]
  rw [extract_table_node_fold, preorder_eq, List.foldl_cons,
    extract_table_visit_table root _ hroot, foldl_visit_zero _ hno]

theorem data_table_direct (root : xmlNode) (hlayout : is_layout_table root = false) :
    2 ≤ (root.children.filter is_tr).length ∧
    ∃ t ∈ root.children, is_tr t = true ∧ ∃ d ∈ t.children, is_td_th d = true := by
  unfold is_layout_table at hlayout
  simp only [count_rows_eq, Nat.zero_add] at hlayout
  by_cases h : (root.children.filter is_tr).length ≤ 1 ∨
      max 0 (((root.children.filter is_tr).map (fun tr => (direct_cells tr).length)).foldr
        max 0) ≤ 1
  · rw [if_pos h] at hlayout
    exact absurd hlayout (by decide)
  · have h1 : 2 ≤ (root.children.filter is_tr).length := by omega
    have h2 : 2 ≤ ((root.children.filter is_tr).map
        (fun tr => (direct_cells tr).length)).foldr max 0 := by omega
    obtain ⟨t, ht, hcells⟩ := exists_of_le_foldr_max _ _ 2 (by decide) h2
    obtain ⟨ht1, ht2⟩ := List.mem_filter.mp ht
    obtain ⟨d, hd⟩ : ∃ d, d ∈ direct_cells t := by
      cases hc : direct_cells t with
      | nil => rw [hc] at hcells; simp at hcells
      | cons d ds => exact ⟨d, List.mem_cons_self _ _⟩
    obtain ⟨hd1, hd2⟩ := List.mem_filter.mp hd
    exact ⟨h1, t, ht1, ht2, d, hd1, hd2⟩

theorem grid_of_data_table (root : xmlNode) (hroot : is_table_element root = true)
    (hlayout : is_layout_table root = false)
    (hnest : all_nodes_list (fun n => !(is_table_element n)) root.children = true) :
    2 ≤ (grid_of root).rows.length ∧
    (∃ r ∈ (grid_of root).rows, 1 ≤ r.cells.length ∧ 1 ≤ r.cell_count) ∧
    0 < calc_max_cols (grid_of root).rows 0 := by
  obtain ⟨h1, t, ht, htr, d, hd, hcell⟩ := data_table_direct root hlayout
  rw [grid_of_no_nested_table root hroot hnest]
  simp only
  have hex : ∃ r ∈ (((preorder_list root.children).splitOnP is_tr).tail).map row_of_segment,
      1 ≤ r.cells.length ∧ 1 ≤ r.cell_count := by
    obtain ⟨c1, c2, hsplit⟩ := List.append_of_mem ht
    have hdy : d ∈ preorder_list t.children ++ preorder_list c2 := by
      apply List.mem_append_left
      obtain ⟨e1, e2, he⟩ := List.append_of_mem hd
      rw [he, preorder_list_append, preorder_list, preorder_eq]
      simp
    have hnot : is_tr d = false := by
      cases h : is_tr d with
      | false => rfl
      | true => rw [is_tr_not_td_th d h] at hcell; exact absurd hcell (by decide)
    obtain ⟨seg, hseg, hmem⟩ := mem_tail_splitOnP is_tr (preorder_list c1)
      (preorder_list t.children ++ preorder_list c2) t d htr hdy hnot
    have hL : preorder_list root.children =
        preorder_list c1 ++ t :: (preorder_list t.children ++ preorder_list c2) := by
      rw [hsplit, preorder_list_append, preorder_list, preorder_eq]
      simp
    rw [hL]
    refine ⟨row_of_segment seg, List.mem_map_of_mem _ hseg, ?_⟩
    have hpos : 1 ≤ (seg.filter is_td_th).length :=
      List.length_pos_of_mem (List.mem_filter.mpr ⟨hmem, hcell⟩)
    simp only [row_of_segment, add_segment, List.nil_append, List.length_map, Nat.zero_add]
    exact ⟨hpos, hpos⟩
  refine ⟨?_, hex, ?_⟩
  · rw [List.length_map, length_tail_splitOnP]
    exact le_trans h1 (length_filter_children_le is_tr root.children)
  · obtain ⟨r, hr, _, hcount⟩ := hex
    have := cell_count_le_calc_max_cols _ r hr
    omega

/-- **C34 (the code at the failing input, and where the claim holds).** The table
`<table><tr><td colspan="-1">a</td><td>b</td></tr><tr><td>c</td><td>d</td></tr></table>`
is a data table without nested table and its grid has 2 rows, yet
`mutt_render_table` leaves its width vector on it instead of appending a grid.
For every `table` element that `is_layout_table` classifies as data and that
has no `table` element among its descendants, the grid built from it has at
least 2 rows, a row with at least one cell and a column count of at least 1;
when moreover every colspan of the grid is non-negative and small enough for the
column cursor not to overflow (`colspan + max_cols ≤ 2^31`), `mutt_render_table`
appends a non-empty grid of at least 5 lines. With a nested table this fails:
the data table whose last cell holds an empty table gives a grid without rows
and nothing is appended for it. -/
theorem data_table_grid_rendered :
    ((is_table_element example_negative_colspan = true ∧
        is_layout_table example_negative_colspan = false ∧
        all_nodes_list (fun n => !(is_table_element n)) example_negative_colspan.children =
          true) ∧
      (grid_of example_negative_colspan).rows.length = 2 ∧
      mutt_render_table (grid_of example_negative_colspan) [] = none ∧
      emit_data_table example_negative_colspan [] = none) ∧
    (∀ root : xmlNode, is_table_element root = true → is_layout_table root = false →
      all_nodes_list (fun n => !(is_table_element n)) root.children = true →
      (2 ≤ (grid_of root).rows.length ∧
        (∃ r ∈ (grid_of root).rows, 1 ≤ r.cells.length ∧ 1 ≤ r.cell_count) ∧
        0 < calc_max_cols (grid_of root).rows 0) ∧
      ∀ buffer : BUFFER,
        (∀ r ∈ (grid_of root).rows, ∀ cell ∈ r.cells,
          0 ≤ cell.colspan ∧
            cell.colspan + (calc_max_cols (grid_of root).rows 0 : Int) ≤ 2 ^ 31) →
        ∃ w, w.length = calc_max_cols (grid_of root).rows 0 ∧
          mutt_render_table (grid_of root) buffer =
            some ({ grid_of root with
                    max_cols := calc_max_cols (grid_of root).rows 0
                    col_widths := some w },
              buffer ++
                spanned_table (calc_max_cols (grid_of root).rows 0) w (grid_of root).rows) ∧
          emit_data_table root buffer =
            some (buffer ++
              spanned_table (calc_max_cols (grid_of root).rows 0) w (grid_of root).rows) ∧
          spanned_table (calc_max_cols (grid_of root).rows 0) w (grid_of root).rows ≠ [] ∧
          5 ≤ (spanned_table (calc_max_cols (grid_of root).rows 0) w
            (grid_of root).rows).count '\n') ∧
    ((is_table_element example_nested_empty_table = true ∧
        is_layout_table example_nested_empty_table = false) ∧
      (grid_of example_nested_empty_table).rows = [] ∧
      ∀ buffer : BUFFER, emit_data_table example_nested_empty_table buffer = some buffer) := by
  refine ⟨⟨⟨by decide, by decide, by decide⟩, by decide, by rfl, by rfl⟩, ?_,
    ⟨⟨by decide, by decide⟩, by decide, fun buffer => by rfl⟩⟩
  intro root hroot hlayout hnest
  have hgrid := grid_of_data_table root hroot hlayout hnest
  refine ⟨hgrid, fun buffer hspan => ?_⟩
  have hrows : (grid_of root).rows ≠ [] := by
    intro h
    have := hgrid.1
    rw [h] at this
    simp at this
  obtain ⟨w, hw, hrender⟩ := mutt_render_table_spanned (grid_of root) buffer hrows hgrid.2.2 hspan
  have hcount := count_newline_spanned_table_ge (calc_max_cols (grid_of root).rows 0) w
    (grid_of root).rows
  have h5 : 5 ≤ (spanned_table (calc_max_cols (grid_of root).rows 0) w
      (grid_of root).rows).count '\n' := by
    have := hgrid.1
    omega
  refine ⟨w, hw, hrender, ?_, ?_, h5⟩
  · unfold emit_data_table
    rw [show mutt_html_extract_table (some root) table_data_zero = grid_of root from rfl,
      hrender]
  · intro h
    rw [h] at h5
    simp at h5

/-- Witness for `data_table_grid_rendered`: the 2 × 2 data table
`<table><tr><td>a</td><td>b</td></tr><tr><td>c</td><td>d</td></tr></table>` is
rendered as a grid of 5 lines. -/
theorem data_table_grid_rendered_witness :
    ((2 ≤ (grid_of example_data_table).rows.length ∧
        (∃ r ∈ (grid_of example_data_table).rows, 1 ≤ r.cells.length ∧ 1 ≤ r.cell_count) ∧
        0 < calc_max_cols (grid_of example_data_table).rows 0) ∧
      ∀ buffer : BUFFER,
        (∀ r ∈ (grid_of example_data_table).rows, ∀ cell ∈ r.cells,
          0 ≤ cell.colspan ∧
            cell.colspan + (calc_max_cols (grid_of example_data_table).rows 0 : Int) ≤
              2 ^ 31) →
        ∃ w, w.length = calc_max_cols (grid_of example_data_table).rows 0 ∧
          mutt_render_table (grid_of example_data_table) buffer =
            some ({ grid_of example_data_table with
                    max_cols := calc_max_cols (grid_of example_data_table).rows 0
                    col_widths := some w },
              buffer ++ spanned_table (calc_max_cols (grid_of example_data_table).rows 0) w
                (grid_of example_data_table).rows) ∧
          emit_data_table example_data_table buffer =
            some (buffer ++ spanned_table (calc_max_cols (grid_of example_data_table).rows 0) w
              (grid_of example_data_table).rows) ∧
          spanned_table (calc_max_cols (grid_of example_data_table).rows 0) w
            (grid_of example_data_table).rows ≠ [] ∧
          5 ≤ (spanned_table (calc_max_cols (grid_of example_data_table).rows 0) w
            (grid_of example_data_table).rows).count '\n') ∧
    (∀ r ∈ (grid_of example_data_table).rows, ∀ cell ∈ r.cells,
      0 ≤ cell.colspan ∧
        cell.colspan + (calc_max_cols (grid_of example_data_table).rows 0 : Int) ≤ 2 ^ 31) ∧
    emit_data_table example_data_table [] =
      some "+----+----+\n| a  | b  |\n+----+----+\n| c  | d  |\n+----+----+\n".data :=
  ⟨data_table_grid_rendered.2.1 example_data_table (by decide) (by decide) (by decide),
    by decide, by rfl⟩

end HtmlTextify
